import Mathlib

/-!
Verification development for the `ngi_pipeline` flowcell conductor
(`ngi_pipeline/conductor/flowcell.py`).

The Python source is shallowly embedded below:
pure string manipulations become Lean functions on `String`/`List Char`,
the in-memory Project/Sample/LibraryPrep/SequencingRun tree becomes a
nest of structures with association-list children (modelling Python
dict-valued attributes), exceptions become `Except`, and the external
collaborators (the Charon metadata registry, the filesystem listing and
the rsync file-transfer agent) become explicit functional parameters.
Directory creation (`safe_makedir`) is a side effect with no observable
return value for the claims below, so it is not modelled; path strings
are modelled by `/`-joined concatenation.
-/

set_option maxHeartbeats 1000000

/-- Fuel-driven embedding of Python's `str.replace(old, new)` on character
lists: scan left to right, replace each non-overlapping occurrence of
`old` by `new`.  The fuel argument only makes the recursion structural;
`fuel = s.length` always suffices because each step consumes at least one
character. -/
def pyReplaceFuel (old new : List Char) : Nat → List Char → List Char
  | 0, s => s
  | _ + 1, [] => []
  | fuel + 1, c :: rest =>
    if old ≠ [] ∧ old.isPrefixOf (c :: rest) then
      new ++ pyReplaceFuel old new fuel ((c :: rest).drop old.length)
    else
      c :: pyReplaceFuel old new fuel rest

/-- Python `s.replace(old, new)` on character lists. -/
def pyReplaceL (old new s : List Char) : List Char :=
  pyReplaceFuel old new s.length s

/-- Python `s.replace(old, new)` on strings. -/
def pyReplaceS (s old new : String) : String :=
  ⟨pyReplaceL old.data new.data s.data⟩

/-- The NameNormalizer of the spec: `name.replace('__', '.')`, as applied at
`flowcell.py:151` (sample names) and `flowcell.py:271,277` (parser). -/
def normalize_name (s : String) : String :=
  pyReplaceS s "__" "."

/-- Suffix test on strings via their character lists. -/
def endsWithS (s suf : String) : Bool :=
  suf.data.isSuffixOf s.data

/-- Prefix test on strings via their character lists. -/
def startsWithS (s pre : String) : Bool :=
  pre.data.isPrefixOf s.data

/-- `os.path.join` for the fixed two-component uses in the source. -/
def pjoin (a b : String) : String :=
  a ++ "/" ++ b

/-- Python `",".join(xs)`. -/
def joinComma (xs : List String) : String :=
  String.intercalate "," xs

/-- The glob pattern `*.fastq.gz` used by `parse_casava_directory`
(`flowcell.py:262`): a non-hidden file name ending in `.fastq.gz`
(Python's `glob` skips names starting with a dot for this pattern). -/
def glob_fastq_gz_match (s : String) : Bool :=
  !(startsWithS s ".") && endsWithS s ".fastq.gz"

/-- The compiled regex `.*\.(fastq|fq)(\.gz|\.gzip|\.bz2)?$` applied with
`re.match` at `flowcell.py:163-164`.  On newline-free file names the match
succeeds exactly when the name ends with one of the eight listed suffixes. -/
def fastq_pattern_match (s : String) : Bool :=
  endsWithS s ".fastq" || endsWithS s ".fq" ||
  endsWithS s ".fastq.gz" || endsWithS s ".fq.gz" ||
  endsWithS s ".fastq.gzip" || endsWithS s ".fq.gzip" ||
  endsWithS s ".fastq.bz2" || endsWithS s ".fq.bz2"

/-- Modelled from the spec: the `SequencingRun` tree node (`add_seqrun`
target).  The class itself is not under `src/`; per spec section 3 it has a
key (`{date}_{flowcellId}`), a directory name and an ordered list of fastq
file names with duplicates rejected. -/
structure SequencingRun where
  name : String
  dirname : String
  fastq_files : List String
deriving DecidableEq

/-- Modelled from the spec: the `LibraryPrep` tree node, owning a mapping
from seqrun key to `SequencingRun` (modelled as an association list in
insertion order, names unique by construction). -/
structure LibraryPrep where
  name : String
  dirname : String
  seqruns : List SequencingRun
deriving DecidableEq

/-- Modelled from the spec: the `Sample` tree node, owning a mapping from
libprep name to `LibraryPrep`. -/
structure NGISample where
  name : String
  dirname : String
  libpreps : List LibraryPrep
deriving DecidableEq

/-- Modelled from the spec: the `NGIProject` tree node (constructor call at
`flowcell.py:144-146`), owning a mapping from sample name to `Sample`. -/
structure NGIProject where
  name : String
  dirname : String
  project_id : String
  base_path : String
  samples : List NGISample
deriving DecidableEq

/-- Modelled from the spec: `seqrun_object.add_fastq_files(fq_file)`
(`flowcell.py:177`): append the filename to the run's file list, rejecting
silently if already present. -/
def SequencingRun.add_fastq_files (r : SequencingRun) (fq : String) : SequencingRun :=
  if fq ∈ r.fastq_files then r
  else { r with fastq_files := r.fastq_files ++ [fq] }

/-- Modelled from the spec: `libprep_object.add_seqrun(name, dirname)`
(`flowcell.py:173-174`): get-or-create the run child keyed by `name`. -/
def LibraryPrep.add_seqrun (lp : LibraryPrep) (name dirname : String) : LibraryPrep :=
  if lp.seqruns.any (fun r => r.name == name) then lp
  else { lp with seqruns := lp.seqruns ++ [{ name := name, dirname := dirname, fastq_files := [] }] }

/-- In-place mutation of the run child named `name`, as performed through
the Python object alias returned by `add_seqrun`. -/
def LibraryPrep.modifySeqrun (lp : LibraryPrep) (name : String)
    (f : SequencingRun → SequencingRun) : LibraryPrep :=
  { lp with seqruns := lp.seqruns.map fun r => if r.name == name then f r else r }

/-- Modelled from the spec: `sample_obj.add_libprep(name, dirname)`
(`flowcell.py:169-170`): get-or-create the libprep child keyed by `name`. -/
def NGISample.add_libprep (s : NGISample) (name dirname : String) : NGISample :=
  if s.libpreps.any (fun lp => lp.name == name) then s
  else { s with libpreps := s.libpreps ++ [{ name := name, dirname := dirname, seqruns := [] }] }

/-- In-place mutation of the libprep child named `name` through its alias. -/
def NGISample.modifyLibprep (s : NGISample) (name : String)
    (f : LibraryPrep → LibraryPrep) : NGISample :=
  { s with libpreps := s.libpreps.map fun lp => if lp.name == name then f lp else lp }

/-- Modelled from the spec: `project_obj.add_sample(name, dirname)`
(`flowcell.py:161`): get-or-create the sample child keyed by `name`. -/
def NGIProject.add_sample (p : NGIProject) (name dirname : String) : NGIProject :=
  if p.samples.any (fun s => s.name == name) then p
  else { p with samples := p.samples ++ [{ name := name, dirname := dirname, libpreps := [] }] }

/-- In-place mutation of the sample child named `name` through its alias. -/
def NGIProject.modifySample (p : NGIProject) (name : String)
    (f : NGISample → NGISample) : NGIProject :=
  { p with samples := p.samples.map fun s => if s.name == name then f s else s }

/-- Lookup of the sample child named `name`. -/
def NGIProject.findSample (p : NGIProject) (name : String) : Option NGISample :=
  p.samples.find? fun s => s.name == name

/-- One sample entry of the parsed flowcell manifest
(`flowcell.py:272-276`). -/
structure SampleEntry where
  sample_dir : String
  sample_name : String
  files : List String
deriving DecidableEq

/-- One project entry of the parsed flowcell manifest
(`flowcell.py:278-281`). -/
structure ProjectEntry where
  data_dir : String
  project_dir : String
  project_name : String
  samples : List SampleEntry
deriving DecidableEq

/-- The dictionary returned by `parse_casava_directory`
(`flowcell.py:282-286`).  The informational `basecall_stats_dir` field is
not consumed by the builder and is omitted. -/
structure FCDirStructure where
  fc_dir : String
  fc_name : String
  fc_date : String
  projects : List ProjectEntry
deriving DecidableEq

/-- On-disk listing of one `Sample_*` directory inside a flowcell, as seen
by the parser's glob calls. -/
structure FCSampleDir where
  dirName : String
  fileNames : List String
deriving DecidableEq

/-- On-disk listing of one `Project_*` directory (under some `Unaligned*`
data directory) inside a flowcell. -/
structure FCProjectDir where
  dataDir : String
  dirName : String
  sampleDirs : List FCSampleDir
deriving DecidableEq

/-- Abstract content of one flowcell directory: the run-descriptor fields
read by `FlowcellRunMetricsParser` (`None` when the field is missing from
`RunInfo.xml` / `runParameters.xml`) and the discovered project
directories. -/
structure FlowcellDirContent where
  path : String
  runInfoFlowcell : Option String
  runInfoDate : Option String
  runParamsFCPosition : Option String
  projectDirs : List FCProjectDir
deriving DecidableEq

/-- Embedding of `parse_casava_directory` (`flowcell.py:196-286`).
Missing run-metadata fields raise `RuntimeError` (modelled as `.error`);
project and sample names are stripped of their `Project_` / `Sample_`
prefixes and dot-normalized; per sample only file names matching the glob
`*.fastq.gz` are recorded. -/
def parse_casava_directory (fc : FlowcellDirContent) : Except String FCDirStructure :=
  match fc.runInfoFlowcell, fc.runInfoDate, fc.runParamsFCPosition with
  | some fc_name, some fc_date, some fc_pos =>
    .ok
      { fc_dir := fc.path
        fc_name := fc_pos ++ fc_name
        fc_date := fc_date
        projects := fc.projectDirs.map fun pd =>
          { data_dir := pd.dataDir
            project_dir := pd.dirName
            project_name := normalize_name (pyReplaceS pd.dirName "Project_" "")
            samples := pd.sampleDirs.map fun sd =>
              { sample_dir := sd.dirName
                sample_name := normalize_name (pyReplaceS sd.dirName "Sample_" "")
                files := sd.fileNames.filter glob_fastq_gz_match } } }
  | _, _, _ => .error "Could not parse flowcell information from Flowcell RunMetrics"

/-- The external Charon metadata registry, out of scope per the spec: the
two lookups the builder performs, each either returning an id or raising
(`RuntimeError`/`ValueError`/`CharonError`, carried as a message). -/
structure Charon where
  get_project_id_from_name : String → Except String String
  determine_library_prep_from_fcid : String → String → String → Except String String

/-- Uncaught Python exceptions the embedded builder can raise. -/
inductive PyError
  | osError (msg : String)
  | typeError
  | nameError
  | charonError (msg : String)
  | attributeError
deriving DecidableEq

/-- A Python value that is either the accumulator dict mapping project
directory to `NGIProject` or a plain list: `setup_analysis_directory_structure`
returns the former on success and the literal `[]` on its early-error paths
(`flowcell.py:103,109`). -/
inductive PyVal
  | pydict (entries : List (String × NGIProject))
  | pylist (xs : List NGIProject)
deriving DecidableEq

/-- Reference to a sequencing run inside the accumulator, standing for the
Python object alias held by the function-scoped `seqrun_object` variable. -/
structure RunRef where
  projectDir : String
  sampleName : String
  libprepName : String
  seqrunName : String
deriving DecidableEq

/-- One recorded invocation of `do_rsync(src_fastq_files, seqrun_dir)`
(`flowcell.py:192`); the destination is the function-scoped `seqrun_dir`
variable, which can be `None`. -/
structure RsyncCall where
  src_fastq_files : List String
  dest : Option String
deriving DecidableEq

/-- Per-flowcell context shared by the builder loops. -/
structure FcCtx where
  reg : Charon
  fcid : String
  fcShort : String
  fcPath : String
  topDir : String
  restrictProjects : List String
  restrictSamples : List String

/-- Python dict assignment `entries[key] = v`: replace the value if the key
is present, otherwise append the binding in insertion order. -/
def dictSet (entries : List (String × NGIProject)) (key : String) (v : NGIProject) :
    List (String × NGIProject) :=
  if entries.any (fun e => e.1 == key) then
    entries.map fun e => if e.1 == key then (key, v) else e
  else entries ++ [(key, v)]

/-- Dereference a `RunRef` against the accumulator: follow project dir,
sample name, libprep name and run key, returning the run's file list. -/
def resolveRunRef (entries : List (String × NGIProject)) (ref : RunRef) :
    Option (List String) := do
  let e ← entries.find? fun e => e.1 == ref.projectDir
  let s ← e.2.samples.find? fun s => s.name == ref.sampleName
  let lp ← s.libpreps.find? fun lp => lp.name == ref.libprepName
  let r ← lp.seqruns.find? fun r => r.name == ref.seqrunName
  pure r.fastq_files

/-- The tree mutation performed for one fastq file once its libprep id is
known (`flowcell.py:169-177`): get-or-create the libprep, get-or-create the
run keyed by the short run id, append the file name. -/
def fastqStep (libprep_name fc_short fq : String) (s : NGISample) : NGISample :=
  ((s.add_libprep libprep_name libprep_name).modifyLibprep libprep_name
    fun lp => (lp.add_seqrun fc_short fc_short).modifySeqrun fc_short
      fun r => r.add_fastq_files fq)

/-- One iteration of the fastq-file loop (`flowcell.py:167-177`): resolve
the library prep id via Charon (an uncaught exception aborts the whole
call), mutate the sample's subtree through the aliases, and update the
function-scoped `seqrun_dir` and `seqrun_object` variables. -/
def processFastq (ctx : FcCtx) (project_id project_dir sample_dir sample_name : String)
    (st : NGIProject × Option String × Option RunRef) (fq : String) :
    Except PyError (NGIProject × Option String × Option RunRef) :=
  match ctx.reg.determine_library_prep_from_fcid project_id sample_name ctx.fcid with
  | .error e => .error (.charonError e)
  | .ok libprep_name =>
    let projObj := st.1.modifySample sample_name (fastqStep libprep_name ctx.fcShort fq)
    let seqrun_dir := pjoin (pjoin sample_dir libprep_name) ctx.fcShort
    .ok (projObj, some seqrun_dir,
      some { projectDir := project_dir, sampleName := sample_name,
             libprepName := libprep_name, seqrunName := ctx.fcShort })

/-- One iteration of the sample loop (`flowcell.py:149-192`): normalize the
sample name, apply the sample restriction, get-or-create the sample node,
process the fastq-matching files, then run the per-libprep transfer loop,
which reads the function-scoped `seqrun_object` (`UnboundLocalError`,
modelled as `.nameError`, if no fastq file has been processed yet in this
call) and `seqrun_dir` variables and calls `do_rsync` once per libprep. -/
def processSample (ctx : FcCtx) (project_id project_dir : String) (pe : ProjectEntry)
    (entries : List (String × NGIProject))
    (st : NGIProject × Option RunRef × List RsyncCall) (se : SampleEntry) :
    Except PyError (NGIProject × Option RunRef × List RsyncCall) :=
  let (projObj0, last_run0, calls0) := st
  let sample_name := normalize_name se.sample_name
  if ctx.restrictSamples ≠ [] ∧ sample_name ∉ ctx.restrictSamples then .ok st
  else
    let sample_dir := pjoin project_dir sample_name
    let projObj0 := projObj0.add_sample sample_name sample_name
    match (se.files.filter fastq_pattern_match).foldlM
        (processFastq ctx project_id project_dir sample_dir sample_name)
        (projObj0, none, last_run0) with
    | .error e => .error e
    | .ok (projObj, seqrun_dir, last_run) =>
      let src_sample_dir :=
        pjoin (pjoin (pjoin ctx.fcPath pe.data_dir) pe.project_dir) se.sample_dir
      let n := ((projObj.findSample sample_name).map fun s => s.libpreps.length).getD 0
      if n = 0 then .ok (projObj, last_run, calls0)
      else
        match last_run with
        | none => .error .nameError
        | some ref =>
          match resolveRunRef (dictSet entries project_dir projObj) ref with
          | none => .error .nameError
          | some files =>
            let call : RsyncCall :=
              { src_fastq_files := files.map (pjoin src_sample_dir)
                dest := seqrun_dir }
            .ok (projObj, last_run, calls0 ++ List.replicate n call)

/-- A fresh `NGIProject` as constructed at `flowcell.py:144-146`. -/
def fresh_project (name project_id base_path : String) : NGIProject :=
  { name := name, dirname := name, project_id := project_id,
    base_path := base_path, samples := [] }

/-- One iteration of the project loop (`flowcell.py:119-192`): apply the
project restriction, resolve the project id via Charon (failures are caught
and skip this project only), get-or-create the dict entry keyed by the
destination path — raising `TypeError` if the accumulator is the list
returned by an earlier failed flowcell — and process the samples. -/
def processProject (ctx : FcCtx) (st : PyVal × Option RunRef × List RsyncCall)
    (pe : ProjectEntry) : Except PyError (PyVal × Option RunRef × List RsyncCall) :=
  let (pv, last_run, calls) := st
  let project_name := pe.project_name
  if ctx.restrictProjects ≠ [] ∧ project_name ∉ ctx.restrictProjects then .ok st
  else
    match ctx.reg.get_project_id_from_name project_name with
    | .error _ => .ok st
    | .ok project_id =>
      let project_dir := pjoin (pjoin ctx.topDir "DATA") project_name
      match pv with
      | .pylist _ => .error .typeError
      | .pydict entries =>
        let entries :=
          if entries.any (fun e => e.1 == project_dir) then entries
          else entries ++ [(project_dir, fresh_project project_name project_id ctx.topDir)]
        let projObj :=
          ((entries.find? fun e => e.1 == project_dir).map fun e => e.2).getD
            (fresh_project project_name project_id ctx.topDir)
        match pe.samples.foldlM (processSample ctx project_id project_dir pe entries)
            (projObj, last_run, calls) with
        | .error e => .error e
        | .ok (projObj, last_run, calls) =>
          .ok (.pydict (dictSet entries project_dir projObj), last_run, calls)

/-- The analysis configuration: `config["analysis"]["top_dir"]` and whether
that directory exists on disk (`flowcell.py:96-100`). -/
structure NGIConfig where
  top_dir : String
  top_dir_exists : Bool

/-- The part of `setup_analysis_directory_structure` that runs after a
successful parse (`flowcell.py:110-193`): fold the project loop over the
manifest, starting with a fresh unbound `seqrun_object` and an empty rsync
log. -/
def build_from_structure (reg : Charon) (config : NGIConfig) (fcs : FCDirStructure)
    (projects_to_analyze : PyVal) (restrict_to_projects restrict_to_samples : List String) :
    Except PyError (PyVal × List RsyncCall) :=
  let fc_short_run_id := fcs.fc_date ++ "_" ++ fcs.fc_name
  let ctx : FcCtx :=
    { reg := reg, fcid := fcs.fc_name, fcShort := fc_short_run_id,
      fcPath := fcs.fc_dir, topDir := config.top_dir,
      restrictProjects := restrict_to_projects, restrictSamples := restrict_to_samples }
  match fcs.projects.foldlM (processProject ctx) (projects_to_analyze, none, []) with
  | .error e => .error e
  | .ok (pv, _, calls) => .ok (pv, calls)

/-- Embedding of `setup_analysis_directory_structure` (`flowcell.py:74-193`).
A missing analysis top directory raises `OSError`; a missing flowcell
directory or a parse failure returns the literal empty Python list
(discarding the accumulated dict); otherwise the manifest is folded into
the accumulator. -/
def setup_analysis_directory_structure (reg : Charon) (config : NGIConfig)
    (fc_dir : Option FlowcellDirContent) (projects_to_analyze : PyVal)
    (restrict_to_projects restrict_to_samples : List String) :
    Except PyError (PyVal × List RsyncCall) :=
  if ¬config.top_dir_exists then
    .error (.osError "Error: Analysis top directory does not exist")
  else
    match fc_dir with
    | none => .ok (.pylist [], [])
    | some fc =>
      match parse_casava_directory fc with
      | .error _ => .ok (.pylist [], [])
      | .ok fcs =>
        build_from_structure reg config fcs projects_to_analyze
          restrict_to_projects restrict_to_samples

/-- The fatal message used when restriction lists were given
(`flowcell.py:55-60`). -/
def errorMessageRestrict (dirs restrict : List String) : String :=
  "No projects found to process; the specified flowcells (" ++ joinComma dirs ++
  ") do not contain the specified project(s) (" ++ joinComma restrict ++
  ") or there was an error gathering required information."

/-- The fatal message used when no restriction was given
(`flowcell.py:62-64`); the missing space before `or` is present in the
source's adjacent string literals. -/
def errorMessageNoRestrict (dirs : List String) : String :=
  "No projects found to process in flowcells " ++ joinComma dirs ++
  "or there was an error gathering required information."

/-- CPython set construction `list(set(xs))` has unspecified iteration
order; we model one deterministic order, keeping the first occurrence of
each element. -/
def pySetDedup (l : List String) : List String :=
  l.foldl (fun acc x => if x ∈ acc then acc else acc ++ [x]) []

/-- Outcome of the orchestrator: `sys.exit` with a message, a successful
hand-off of the project list to the downstream launcher, or an uncaught
exception. -/
inductive OrchResult
  | fatal (msg : String)
  | launched (projects : List NGIProject)
  | crashed (e : PyError)
deriving DecidableEq

/-- The per-batch accumulation loop of `process_demultiplexed_flowcells`
(`flowcell.py:45-52`): each flowcell's setup result replaces the
accumulator variable. -/
def flowcellLoop (fs : String → Option FlowcellDirContent) (reg : Charon)
    (config : NGIConfig) (dirs restrict_to_projects restrict_to_samples : List String) :
    Except PyError PyVal :=
  dirs.foldlM
    (fun pv d =>
      (setup_analysis_directory_structure reg config (fs d) pv
        restrict_to_projects restrict_to_samples).map fun r => r.1)
    (PyVal.pydict [])

/-- Embedding of `process_demultiplexed_flowcells` (`flowcell.py:28-71`):
deduplicate the input directories, fold the builder over them, and decide
fatal exit versus hand-off; `projects_to_analyze.values()` on the
(unreachable) non-empty-list accumulator would raise `AttributeError`. -/
def process_demultiplexed_flowcells (fs : String → Option FlowcellDirContent)
    (reg : Charon) (config : NGIConfig)
    (demux_fcid_dirs restrict_to_projects restrict_to_samples : List String) :
    OrchResult :=
  let dirs := pySetDedup demux_fcid_dirs
  match flowcellLoop fs reg config dirs restrict_to_projects restrict_to_samples with
  | .error e => .crashed e
  | .ok pv =>
    let isEmpty := match pv with
      | .pydict entries => entries.isEmpty
      | .pylist xs => xs.isEmpty
    if isEmpty then
      if restrict_to_projects ≠ [] then
        .fatal ("Quitting: " ++ errorMessageRestrict dirs restrict_to_projects)
      else
        .fatal ("Quitting: " ++ errorMessageNoRestrict dirs)
    else
      match pv with
      | .pydict entries => .launched (entries.map fun e => e.2)
      | .pylist _ => .crashed .attributeError

/-! ### Properties of the name normalizer (claim C9) -/

theorem pyReplaceFuel_nil (old new : List Char) (f : Nat) :
    pyReplaceFuel old new f [] = [] := by
  cases f <;> rfl

theorem dunder_fuel_match (f : Nat) (t : List Char) :
    pyReplaceFuel ['_', '_'] ['.'] (f + 1) ('_' :: '_' :: t) =
      '.' :: pyReplaceFuel ['_', '_'] ['.'] f t := by
  simp [pyReplaceFuel, List.isPrefixOf]

theorem dunder_fuel_ne (f : Nat) (c : Char) (t : List Char) (h : c ≠ '_') :
    pyReplaceFuel ['_', '_'] ['.'] (f + 1) (c :: t) =
      c :: pyReplaceFuel ['_', '_'] ['.'] f t := by
  cases t with
  | nil => simp [pyReplaceFuel, List.isPrefixOf, Ne.symm h]
  | cons d t2 => simp [pyReplaceFuel, List.isPrefixOf, Ne.symm h]

theorem dunder_fuel_one (f : Nat) :
    pyReplaceFuel ['_', '_'] ['.'] (f + 1) ['_'] =
      '_' :: pyReplaceFuel ['_', '_'] ['.'] f [] := by
  simp [pyReplaceFuel, List.isPrefixOf]

theorem dunder_fuel_usc_ne (f : Nat) (c : Char) (t : List Char) (h : c ≠ '_') :
    pyReplaceFuel ['_', '_'] ['.'] (f + 1) ('_' :: c :: t) =
      '_' :: pyReplaceFuel ['_', '_'] ['.'] f (c :: t) := by
  simp [pyReplaceFuel, List.isPrefixOf, Ne.symm h]

theorem dunder_fuel_irrel :
    ∀ (f g : Nat) (s : List Char), s.length ≤ f → s.length ≤ g →
      pyReplaceFuel ['_', '_'] ['.'] f s = pyReplaceFuel ['_', '_'] ['.'] g s := by
  intro f
  induction f with
  | zero =>
    intro g s hf _
    have hs : s = [] := List.length_eq_zero.mp (Nat.le_zero.mp hf)
    subst hs
    simp [pyReplaceFuel_nil]
  | succ f ih =>
    intro g s hf hg
    cases s with
    | nil => simp [pyReplaceFuel_nil]
    | cons c t =>
      cases g with
      | zero => simp at hg
      | succ g =>
        by_cases hc : c = '_'
        · subst hc
          cases t with
          | nil =>
            rw [dunder_fuel_one, dunder_fuel_one]
            simp [pyReplaceFuel_nil]
          | cons d t2 =>
            by_cases hd : d = '_'
            · subst hd
              rw [dunder_fuel_match, dunder_fuel_match]
              refine congrArg _ (ih g t2 ?_ ?_) <;> simp at hf hg <;> omega
            · rw [dunder_fuel_usc_ne f d t2 hd, dunder_fuel_usc_ne g d t2 hd]
              refine congrArg _ (ih g (d :: t2) ?_ ?_) <;> simp at hf hg ⊢ <;> omega
        · rw [dunder_fuel_ne f c t hc, dunder_fuel_ne g c t hc]
          refine congrArg _ (ih g t ?_ ?_) <;> simp at hf hg <;> omega

theorem dunder_nil : pyReplaceL ['_', '_'] ['.'] [] = [] := rfl

theorem dunder_match (t : List Char) :
    pyReplaceL ['_', '_'] ['.'] ('_' :: '_' :: t) = '.' :: pyReplaceL ['_', '_'] ['.'] t := by
  show pyReplaceFuel ['_', '_'] ['.'] (t.length + 1 + 1) ('_' :: '_' :: t) = _
  rw [dunder_fuel_match]
  exact congrArg _ (dunder_fuel_irrel (t.length + 1) t.length t (Nat.le_succ _) le_rfl)

theorem dunder_ne (c : Char) (t : List Char) (h : c ≠ '_') :
    pyReplaceL ['_', '_'] ['.'] (c :: t) = c :: pyReplaceL ['_', '_'] ['.'] t := by
  show pyReplaceFuel ['_', '_'] ['.'] (t.length + 1) (c :: t) = _
  rw [dunder_fuel_ne t.length c t h]
  rfl

theorem dunder_usc_ne (c : Char) (t : List Char) (h : c ≠ '_') :
    pyReplaceL ['_', '_'] ['.'] ('_' :: c :: t) = '_' :: pyReplaceL ['_', '_'] ['.'] (c :: t) := by
  show pyReplaceFuel ['_', '_'] ['.'] ((c :: t).length + 1) ('_' :: c :: t) = _
  rw [dunder_fuel_usc_ne (c :: t).length c t h]
  rfl

theorem dunder_idem_aux :
    ∀ (f : Nat) (s : List Char), s.length ≤ f →
      pyReplaceL ['_', '_'] ['.'] (pyReplaceL ['_', '_'] ['.'] s) =
        pyReplaceL ['_', '_'] ['.'] s := by
  intro f
  induction f with
  | zero =>
    intro s hf
    have hs : s = [] := List.length_eq_zero.mp (Nat.le_zero.mp hf)
    subst hs
    rfl
  | succ f ih =>
    intro s hf
    cases s with
    | nil => rfl
    | cons c t =>
      by_cases hc : c = '_'
      · subst hc
        cases t with
        | nil => decide
        | cons d t2 =>
          by_cases hd : d = '_'
          · subst hd
            rw [dunder_match, dunder_ne '.' _ (by decide),
              ih t2 (by simp at hf; omega)]
          · rw [dunder_usc_ne d t2 hd, dunder_ne d t2 hd,
              dunder_usc_ne d _ hd, dunder_ne d _ hd,
              ih t2 (by simp at hf; omega)]
      · rw [dunder_ne c t hc, dunder_ne c _ hc, ih t (by simp at hf; omega)]

/-- C9: the name normalizer (`name.replace('__', '.')` at `flowcell.py:151`
and `flowcell.py:271,277`) maps `Y__Mom_14_01` to `Y.Mom_14_01`, and it is
idempotent: normalizing twice equals normalizing once, for every string.
It is a total Lean function, hence pure with no failure mode. -/
theorem C9_normalizer_roundtrip_and_idempotent :
    normalize_name "Y__Mom_14_01" = "Y.Mom_14_01" ∧
    ∀ x : String, normalize_name (normalize_name x) = normalize_name x := by
  refine ⟨rfl, fun x => ?_⟩
  show String.mk (pyReplaceL "__".data ".".data (String.mk (pyReplaceL "__".data ".".data x.data)).data) = _
  have h1 : "__".data = ['_', '_'] := rfl
  have h2 : ".".data = ['.'] := rfl
  rw [h1, h2]
  exact congrArg String.mk (dunder_idem_aux x.data.length x.data le_rfl)

/-! ### The files recorded by the directory parser (claim C3) -/

/-- A concrete flowcell directory holding one project with one sample whose
directory contains a `.fastq.gz` file, a `.bam` file and a `.fq.bz2` file. -/
def fcC3 : FlowcellDirContent :=
  { path := "/fc", runInfoFlowcell := some "C2PUYACXX", runInfoDate := some "131030",
    runParamsFCPosition := some "B",
    projectDirs := [ { dataDir := "Unaligned", dirName := "Project_A",
                       sampleDirs := [ { dirName := "Sample_X",
                                         fileNames := ["sample_R1.fastq.gz", "sample.bam",
                                                       "sample.fq.bz2"] } ] } ] }

/-- The manifest `parse_casava_directory` produces for `fcC3`. -/
def mC3 : FCDirStructure :=
  { fc_dir := "/fc", fc_name := "BC2PUYACXX", fc_date := "131030",
    projects := [ { data_dir := "Unaligned", project_dir := "Project_A", project_name := "A",
                    samples := [ { sample_dir := "Sample_X", sample_name := "X",
                                   files := ["sample_R1.fastq.gz"] } ] } ] }

/-- C3 as stated is false on the code: the parser (`flowcell.py:262-264`)
collects only names matching the glob `*.fastq.gz`, so at this concrete
sample directory the file `sample.fq.bz2` — which the claim says is
collected, and which the builder's regex would indeed accept — is absent
from the manifest's recorded file list. -/
theorem C3_counterexample_fq_bz2_not_recorded :
    parse_casava_directory fcC3 = .ok mC3 ∧
    (∀ pd ∈ fcC3.projectDirs, ∀ sd ∈ pd.sampleDirs, "sample.fq.bz2" ∈ sd.fileNames) ∧
    fastq_pattern_match "sample.fq.bz2" = true ∧
    (∀ p ∈ mC3.projects, ∀ s ∈ p.samples, s.files = ["sample_R1.fastq.gz"]) := by
  refine ⟨rfl, by decide, by decide, ?_⟩
  decide

/-- C3, amended: the DirectoryParser records, for every sample directory,
exactly the file names matching the glob `*.fastq.gz`; the broader
`fastq`/`fq`-plus-compression-suffix pattern is applied only later by the
builder (`flowcell.py:163-164`) as a filter over the recorded names.  Thus
`sample_R1.fastq.gz` is collected while `sample.bam` and `sample.fq.bz2`
are not (though the builder's pattern accepts `sample.fq.bz2`). -/
theorem C3_parser_records_fastq_gz_glob :
    (∀ (fc : FlowcellDirContent) (m : FCDirStructure),
        parse_casava_directory fc = .ok m →
        ∀ pd ∈ fc.projectDirs, ∀ sd ∈ pd.sampleDirs,
          ∃ p ∈ m.projects, ∃ s ∈ p.samples,
            s.sample_dir = sd.dirName ∧
            s.files = sd.fileNames.filter glob_fastq_gz_match ∧
            ∀ f, f ∈ s.files ↔ (f ∈ sd.fileNames ∧ glob_fastq_gz_match f = true)) ∧
    glob_fastq_gz_match "sample_R1.fastq.gz" = true ∧
    glob_fastq_gz_match "sample.bam" = false ∧
    glob_fastq_gz_match "sample.fq.bz2" = false ∧
    fastq_pattern_match "sample.fq.bz2" = true := by
  refine ⟨?_, by decide, by decide, by decide, by decide⟩
  intro fc m hm pd hpd sd hsd
  unfold parse_casava_directory at hm
  cases hf : fc.runInfoFlowcell with
  | none => rw [hf] at hm; cases hm
  | some fc_name =>
    cases hd : fc.runInfoDate with
    | none => rw [hf, hd] at hm; cases hm
    | some fc_date =>
      cases hp : fc.runParamsFCPosition with
      | none => rw [hf, hd, hp] at hm; cases hm
      | some fc_pos =>
        rw [hf, hd, hp] at hm
        injection hm with hm
        subst hm
        refine ⟨_, List.mem_map_of_mem _ hpd, _, List.mem_map_of_mem _ hsd, rfl, rfl, ?_⟩
        intro f
        simp [List.mem_filter]

/-- Witness for the amended C3 theorem at the concrete flowcell `fcC3`. -/
theorem C3_parser_records_fastq_gz_glob_witness :
    ∃ p ∈ mC3.projects, ∃ s ∈ p.samples,
      s.sample_dir = "Sample_X" ∧
      s.files = ["sample_R1.fastq.gz", "sample.bam", "sample.fq.bz2"].filter glob_fastq_gz_match ∧
      ∀ f, f ∈ s.files ↔
        (f ∈ ["sample_R1.fastq.gz", "sample.bam", "sample.fq.bz2"] ∧ glob_fastq_gz_match f = true) :=
  C3_parser_records_fastq_gz_glob.1 fcC3 mC3 rfl
    { dataDir := "Unaligned", dirName := "Project_A",
      sampleDirs := [ { dirName := "Sample_X",
                        fileNames := ["sample_R1.fastq.gz", "sample.bam", "sample.fq.bz2"] } ] }
    (by decide)
    { dirName := "Sample_X",
      fileNames := ["sample_R1.fastq.gz", "sample.bam", "sample.fq.bz2"] }
    (by decide)

/-! ### Fatal-empty distinction in the orchestrator (claim C8) -/

theorem exceptBind_ok {ε α β : Type} {x : Except ε α} {g : α → Except ε β} {r : β}
    (h : (x >>= g) = .ok r) : ∃ m, x = .ok m ∧ g m = .ok r := by
  cases x with
  | error e => exact absurd h (by intro hc; exact Except.noConfusion hc)
  | ok m => exact ⟨m, rfl, h⟩

theorem foldlM_ok_cons {ε σ α : Type} {f : σ → α → Except ε σ} {s s' : σ} {a : α}
    {l : List α} (h : (a :: l).foldlM f s = .ok s') :
    ∃ m, f s a = .ok m ∧ l.foldlM f m = .ok s' := by
  rw [List.foldlM_cons] at h
  exact exceptBind_ok h

theorem foldlM_nil_ok {ε σ α : Type} (f : σ → α → Except ε σ) (s : σ) :
    ([] : List α).foldlM f s = .ok s := rfl

/-- The accumulator values actually reachable in the source: a dict, or the
literal empty list returned by a failed flowcell. -/
def PvOk (pv : PyVal) : Prop :=
  (∃ es, pv = .pydict es) ∨ pv = .pylist []

theorem processProject_pvOk {ctx : FcCtx} {st st' : PyVal × Option RunRef × List RsyncCall}
    {pe : ProjectEntry} (h : processProject ctx st pe = .ok st') (hok : PvOk st.1) :
    PvOk st'.1 := by
  obtain ⟨pv, lr, cs⟩ := st
  by_cases hre : ctx.restrictProjects ≠ [] ∧ pe.project_name ∉ ctx.restrictProjects
  · simp only [processProject, if_pos hre] at h
    cases h
    exact hok
  · simp only [processProject, if_neg hre] at h
    cases hreg : ctx.reg.get_project_id_from_name pe.project_name with
    | error e =>
      rw [hreg] at h
      cases h
      exact hok
    | ok pid =>
      rw [hreg] at h
      cases pv with
      | pylist xs => exact absurd h (by intro hc; exact Except.noConfusion hc)
      | pydict entries =>
        simp only at h
        cases hfold : pe.samples.foldlM
            (processSample ctx pid (pjoin (pjoin ctx.topDir "DATA") pe.project_name) pe
              (if entries.any (fun e => e.1 == pjoin (pjoin ctx.topDir "DATA") pe.project_name)
               then entries
               else entries ++ [(pjoin (pjoin ctx.topDir "DATA") pe.project_name,
                 fresh_project pe.project_name pid ctx.topDir)]))
            (((if entries.any (fun e => e.1 == pjoin (pjoin ctx.topDir "DATA") pe.project_name)
               then entries
               else entries ++ [(pjoin (pjoin ctx.topDir "DATA") pe.project_name,
                 fresh_project pe.project_name pid ctx.topDir)]).find?
                  (fun e => e.1 == pjoin (pjoin ctx.topDir "DATA") pe.project_name)
                |>.map (fun e => e.2)
                |>.getD (fresh_project pe.project_name pid ctx.topDir)), lr, cs) with
        | error e =>
          rw [hfold] at h
          exact absurd h (by intro hc; exact Except.noConfusion hc)
        | ok trip =>
          obtain ⟨po, l2, c2⟩ := trip
          rw [hfold] at h
          cases h
          exact Or.inl ⟨_, rfl⟩

theorem foldProjects_pvOk {ctx : FcCtx} :
    ∀ (pes : List ProjectEntry) (st st' : PyVal × Option RunRef × List RsyncCall),
      pes.foldlM (processProject ctx) st = .ok st' → PvOk st.1 → PvOk st'.1 := by
  intro pes
  induction pes with
  | nil =>
    intro st st' h hok
    rw [foldlM_nil_ok] at h
    cases h
    exact hok
  | cons pe pes ih =>
    intro st st' h hok
    obtain ⟨mid, hstep, hrest⟩ := foldlM_ok_cons h
    exact ih mid st' hrest (processProject_pvOk hstep hok)

theorem build_from_structure_pvOk {reg : Charon} {config : NGIConfig} {fcs : FCDirStructure}
    {pv pv' : PyVal} {calls : List RsyncCall} {rP rS : List String}
    (h : build_from_structure reg config fcs pv rP rS = .ok (pv', calls))
    (hok : PvOk pv) : PvOk pv' := by
  simp only [build_from_structure] at h
  split at h
  · exact absurd h (by intro hc; exact Except.noConfusion hc)
  · rename_i po lr2 cs2 hfold
    cases h
    exact foldProjects_pvOk fcs.projects (pv, none, []) (pv', lr2, calls) hfold hok

theorem setup_pvOk {reg : Charon} {config : NGIConfig} {fc : Option FlowcellDirContent}
    {pv pv' : PyVal} {calls : List RsyncCall} {rP rS : List String}
    (h : setup_analysis_directory_structure reg config fc pv rP rS = .ok (pv', calls))
    (hok : PvOk pv) : PvOk pv' := by
  unfold setup_analysis_directory_structure at h
  split at h
  · cases h
  · split at h
    · cases h; exact Or.inr rfl
    · split at h
      · cases h; exact Or.inr rfl
      · exact build_from_structure_pvOk h hok

theorem flowcellLoop_pvOk {fs : String → Option FlowcellDirContent} {reg : Charon}
    {config : NGIConfig} {rP rS : List String} :
    ∀ (dirs : List String) (pv0 pv : PyVal),
      dirs.foldlM
        (fun pv d =>
          (setup_analysis_directory_structure reg config (fs d) pv rP rS).map fun r => r.1)
        pv0 = .ok pv → PvOk pv0 → PvOk pv := by
  intro dirs
  induction dirs with
  | nil =>
    intro pv0 pv h hok
    rw [foldlM_nil_ok] at h
    cases h
    exact hok
  | cons d dirs ih =>
    intro pv0 pv h hok
    obtain ⟨mid, hstep, hrest⟩ := foldlM_ok_cons h
    refine ih mid pv hrest ?_
    cases hsu : setup_analysis_directory_structure reg config (fs d) pv0 rP rS with
    | error e => rw [hsu] at hstep; exact absurd hstep (by intro hc; exact Except.noConfusion hc)
    | ok r =>
      rw [hsu] at hstep
      cases hstep
      exact setup_pvOk hsu hok

theorem errorMessages_differ (dirs restrict : List String) :
    ("Quitting: " ++ errorMessageRestrict dirs restrict) ≠
      ("Quitting: " ++ errorMessageNoRestrict dirs) := by
  intro hEq
  have h := congrArg String.length hEq
  unfold errorMessageRestrict errorMessageNoRestrict at h
  simp only [String.length_append] at h
  have e1 : ("Quitting: " : String).length = 10 := by decide
  have e2 : ("No projects found to process; the specified flowcells (" : String).length = 55 := by
    decide
  have e3 : (") do not contain the specified project(s) (" : String).length = 43 := by decide
  have e4 : (") or there was an error gathering required information." : String).length = 55 := by
    decide
  have e5 : ("No projects found to process in flowcells " : String).length = 42 := by decide
  have e6 : ("or there was an error gathering required information." : String).length = 53 := by
    decide
  rw [e1, e2, e3, e4, e5, e6] at h
  omega

/-- C8: after the whole batch is processed, an empty resulting project set
terminates the orchestrator fatally, with the restriction-specific message
when `restrict_to_projects` is non-empty, a different message when no
restriction was given, and the two messages always differ; a non-empty
result is a dict whose project values are handed to the downstream
launcher, with no fatal exit. -/
theorem C8_fatal_empty_distinction (fs : String → Option FlowcellDirContent) (reg : Charon)
    (config : NGIConfig) (demux rP rS : List String) (pv : PyVal)
    (h : flowcellLoop fs reg config (pySetDedup demux) rP rS = .ok pv) :
    ((pv = .pydict [] ∨ pv = .pylist []) → rP ≠ [] →
      process_demultiplexed_flowcells fs reg config demux rP rS =
        .fatal ("Quitting: " ++ errorMessageRestrict (pySetDedup demux) rP)) ∧
    ((pv = .pydict [] ∨ pv = .pylist []) → rP = [] →
      process_demultiplexed_flowcells fs reg config demux rP rS =
        .fatal ("Quitting: " ++ errorMessageNoRestrict (pySetDedup demux))) ∧
    (∀ dirs' restrict', ("Quitting: " ++ errorMessageRestrict dirs' restrict') ≠
      ("Quitting: " ++ errorMessageNoRestrict dirs')) ∧
    (∀ es, pv = .pydict es → es ≠ [] →
      process_demultiplexed_flowcells fs reg config demux rP rS =
        .launched (es.map fun e => e.2)) ∧
    (∀ xs, pv = .pylist xs → xs = []) := by
  refine ⟨?_, ?_, fun d r => errorMessages_differ d r, ?_, ?_⟩
  · intro hemp hrp
    simp only [process_demultiplexed_flowcells, h]
    rcases hemp with hrfl | hrfl <;> subst hrfl <;> simp [hrp]
  · intro hemp hrp
    subst hrp
    simp only [process_demultiplexed_flowcells, h]
    rcases hemp with hrfl | hrfl <;> subst hrfl <;> simp
  · intro es hrfl hne
    subst hrfl
    simp only [process_demultiplexed_flowcells, h]
    simp [List.isEmpty_iff, hne]
  · intro xs hrfl
    subst hrfl
    have hok := flowcellLoop_pvOk (pySetDedup demux) (.pydict []) (.pylist xs) h
      (Or.inl ⟨[], rfl⟩)
    rcases hok with ⟨es, hes⟩ | hnil
    · cases hes
    · injection hnil

/-- Witness for C8 at a concrete batch: no flowcell directory exists, so the
project set is empty, and with a non-empty project restriction the
orchestrator exits with the restriction-specific fatal message. -/
theorem C8_fatal_empty_distinction_witness :
    process_demultiplexed_flowcells (fun _ => none)
        { get_project_id_from_name := fun n => .ok n,
          determine_library_prep_from_fcid := fun _ _ _ => .ok "A" }
        { top_dir := "/top", top_dir_exists := true } ["d1"] ["A"] [] =
      .fatal ("Quitting: " ++ errorMessageRestrict (pySetDedup ["d1"]) ["A"]) :=
  (C8_fatal_empty_distinction (fun _ => none)
      { get_project_id_from_name := fun n => .ok n,
        determine_library_prep_from_fcid := fun _ _ _ => .ok "A" }
      { top_dir := "/top", top_dir_exists := true } ["d1"] ["A"] [] (.pylist []) rfl).1
    (Or.inr rfl) (by decide)

/-! ### Loss of accumulated projects on a flowcell parse error (claim C4) -/

/-- A flowcell directory whose `RunInfo.xml` lacks the `Flowcell` field, so
`parse_casava_directory` fails. -/
def fcBadC4 : FlowcellDirContent :=
  { path := "/fcBad", runInfoFlowcell := none, runInfoDate := some "131030",
    runParamsFCPosition := some "B", projectDirs := [] }

/-- A well-formed flowcell directory with one project and one sample. -/
def fcGoodC4 : FlowcellDirContent :=
  { path := "/fcGood", runInfoFlowcell := some "CX", runInfoDate := some "131030",
    runParamsFCPosition := some "B",
    projectDirs := [ { dataDir := "Unaligned", dirName := "Project_A",
                       sampleDirs := [ { dirName := "Sample_S",
                                         fileNames := ["a.fastq.gz"] } ] } ] }

/-- The filesystem for the C4 batch. -/
def fsC4 : String → Option FlowcellDirContent :=
  fun d => if d = "fcBad" then some fcBadC4 else if d = "fcGood" then some fcGoodC4 else none

/-- A registry where every lookup succeeds. -/
def regC4 : Charon :=
  { get_project_id_from_name := fun n => .ok ("P_" ++ n)
    determine_library_prep_from_fcid := fun _ _ _ => .ok "A" }

/-- A configuration whose analysis top directory exists. -/
def cfgC4 : NGIConfig := { top_dir := "/top", top_dir_exists := true }

/-- C4 exhibits the bug: when one flowcell of a batch fails to parse, the
builder returns the literal `[]` (`flowcell.py:109`), replacing the
accumulator dict.  Processed before the good flowcell, the next project
lookup `projects_to_analyze[project_dir]` then indexes a list with a string
and crashes the whole batch with `TypeError`; processed after the good
flowcell, the good flowcell's accumulated project is discarded and the
orchestrator exits fatally claiming no projects were found.  Either way the
claimed behaviour — skip only the bad flowcell and preserve the projects
already accumulated — does not happen. -/
theorem C4_parse_error_discards_accumulator :
    process_demultiplexed_flowcells fsC4 regC4 cfgC4 ["fcBad", "fcGood"] [] [] =
      .crashed .typeError ∧
    process_demultiplexed_flowcells fsC4 regC4 cfgC4 ["fcGood", "fcBad"] [] [] =
      .fatal ("Quitting: " ++ errorMessageNoRestrict ["fcGood", "fcBad"]) ∧
    (∃ es calls, setup_analysis_directory_structure regC4 cfgC4 (some fcGoodC4)
        (.pydict []) [] [] = .ok (.pydict es, calls) ∧ es ≠ []) := by
  refine ⟨rfl, rfl, ?_⟩
  refine ⟨_, _, rfl, ?_⟩
  decide

/-! ### Samples with no fastq-matching files (claim C10) -/

theorem exists_name_add_sample (p : NGIProject) (n d : String) :
    ∃ s ∈ (p.add_sample n d).samples, s.name = n := by
  unfold NGIProject.add_sample
  split
  · rename_i hany
    obtain ⟨s, hs, hp⟩ := List.any_eq_true.mp hany
    exact ⟨s, hs, beq_iff_eq.mp hp⟩
  · exact ⟨_, List.mem_append.mpr (Or.inr (List.mem_singleton.mpr rfl)), rfl⟩

/-- A manifest whose two sample directories normalize to the same sample
name `S.X`; the first entry carries a fastq file, the second lists no files
at all. -/
def mC10 : FCDirStructure :=
  { fc_dir := "/fc1", fc_name := "BX", fc_date := "131030",
    projects := [ { data_dir := "Unaligned", project_dir := "Project_A",
                    project_name := "A",
                    samples := [ { sample_dir := "Sample_S__X", sample_name := "S__X",
                                   files := ["a.fastq.gz"] },
                                 { sample_dir := "Sample_S.X", sample_name := "S.X",
                                   files := [] } ] } ] }

/-- C10 as stated is false: building `mC10` into a previously empty tree,
the fastq-less entry `Sample_S.X` aliases (after `__` to `.` normalization)
with `Sample_S__X`, so its Sample node carries the LibraryPrep created by
the other entry, and the per-libprep transfer loop at `flowcell.py:185-192`
fires for it too — a second `do_rsync`, with the per-sample `seqrun_dir`
still `None` and sources read from the stale function-scoped
`seqrun_object`.  Hence two rsync calls, the second with destination
`None`, and the fastq-less sample's node has a LibraryPrep child. -/
theorem C10_counterexample_aliased_no_fastq_entry :
    ∃ (es : List (String × NGIProject)) (calls : List RsyncCall),
      build_from_structure regC4 cfgC4 mC10 (.pydict []) [] [] =
        .ok (.pydict es, calls) ∧
      (∃ e ∈ es, ∃ s ∈ e.2.samples, s.name = "S.X" ∧ s.libpreps.length = 1) ∧
      calls.length = 2 ∧ ∃ c ∈ calls, c.dest = none := by
  refine ⟨_, _, rfl, ?_, ?_, ?_⟩ <;> decide

/-- C10: amended.  For every sample entry with no fastq-matching file
(and every project, tree and rsync log), the builder get-or-creates the
Sample node of the normalized name and adds no LibraryPrep to it (the
project part of the state is exactly `add_sample` of the old one); the
FileTransferAgent is not invoked for that entry exactly when the node the
entry resolves to has no LibraryPrep children — otherwise the per-libprep
loop runs anyway: it raises `UnboundLocalError` on the function-scoped
`seqrun_object` if no fastq file was processed earlier in the call, and
otherwise emits one `do_rsync` per existing libprep with the per-sample
`seqrun_dir` still `None` as destination. -/
theorem C10_no_fastq_entry_node_only {ctx : FcCtx} {pid pdir : String}
    {pe : ProjectEntry} {es : List (String × NGIProject)} (p : NGIProject)
    (lr : Option RunRef) (cs : List RsyncCall) (se : SampleEntry)
    (hrs : ctx.restrictSamples = [])
    (hfiles : se.files.filter fastq_pattern_match = []) :
    (∃ s ∈ (p.add_sample (normalize_name se.sample_name)
        (normalize_name se.sample_name)).samples,
      s.name = normalize_name se.sample_name) ∧
    ∀ s0, (p.add_sample (normalize_name se.sample_name)
        (normalize_name se.sample_name)).findSample (normalize_name se.sample_name)
        = some s0 →
      (s0.libpreps = [] →
        processSample ctx pid pdir pe es (p, lr, cs) se =
          .ok (p.add_sample (normalize_name se.sample_name)
            (normalize_name se.sample_name), lr, cs)) ∧
      (s0.libpreps ≠ [] →
        processSample ctx pid pdir pe es (p, lr, cs) se = .error .nameError ∨
        ∃ lr2 call, call.dest = none ∧
          processSample ctx pid pdir pe es (p, lr, cs) se =
            .ok (p.add_sample (normalize_name se.sample_name)
              (normalize_name se.sample_name), lr2,
              cs ++ List.replicate s0.libpreps.length call)) := by
  refine ⟨exists_name_add_sample p _ _, ?_⟩
  intro s0 hfind
  have hre : ¬(ctx.restrictSamples ≠ [] ∧
      normalize_name se.sample_name ∉ ctx.restrictSamples) := by
    simp [hrs]
  have hstep : processSample ctx pid pdir pe es (p, lr, cs) se =
      (if s0.libpreps.length = 0 then
        .ok (p.add_sample (normalize_name se.sample_name)
          (normalize_name se.sample_name), lr, cs)
      else
        match lr with
        | none => .error .nameError
        | some ref =>
          match resolveRunRef (dictSet es pdir (p.add_sample
              (normalize_name se.sample_name) (normalize_name se.sample_name))) ref with
          | none => .error .nameError
          | some files =>
            .ok (p.add_sample (normalize_name se.sample_name)
                (normalize_name se.sample_name), lr,
              cs ++ List.replicate s0.libpreps.length
                { src_fastq_files := files.map (pjoin (pjoin (pjoin (pjoin ctx.fcPath
                                      pe.data_dir) pe.project_dir) se.sample_dir))
                  dest := none })) := by
    simp only [processSample, if_neg hre, hfiles, List.foldlM_nil, pure, Except.pure]
    rw [hfind]
    dsimp only [Option.map, Option.getD]
  constructor
  · intro hempty
    rw [hstep, hempty]
    rfl
  · intro hne
    have hn : ¬(s0.libpreps.length = 0) := fun hz =>
      hne (List.eq_nil_of_length_eq_zero hz)
    rw [hstep, if_neg hn]
    cases lr with
    | none => exact Or.inl rfl
    | some ref =>
      dsimp only
      cases hres : resolveRunRef (dictSet es pdir (p.add_sample
          (normalize_name se.sample_name) (normalize_name se.sample_name))) ref with
      | none => exact Or.inl rfl
      | some files =>
        exact Or.inr ⟨some ref, ⟨files.map (pjoin (pjoin (pjoin (pjoin ctx.fcPath
          pe.data_dir) pe.project_dir) se.sample_dir)), none⟩, rfl, rfl⟩

/-- The per-flowcell context `build_from_structure` constructs from a parsed
manifest (`flowcell.py:111-117`). -/
def mkCtx (reg : Charon) (config : NGIConfig) (m : FCDirStructure)
    (rP rS : List String) : FcCtx :=
  { reg := reg, fcid := m.fc_name, fcShort := m.fc_date ++ "_" ++ m.fc_name,
    fcPath := m.fc_dir, topDir := config.top_dir,
    restrictProjects := rP, restrictSamples := rS }

/-- The fastq-less sample entry used by the C10 witness. -/
def seC10W : SampleEntry :=
  { sample_dir := "Sample_S", sample_name := "S", files := ["sample.bam"] }

/-- The project entry used by the C10 witness. -/
def peC10W : ProjectEntry :=
  { data_dir := "Unaligned", project_dir := "Project_A", project_name := "A",
    samples := [seC10W] }

theorem C10_no_fastq_entry_node_only_witness :
    ((mkCtx regC4 cfgC4 mC10 [] []).restrictSamples = [] ∧
      seC10W.files.filter fastq_pattern_match = []) ∧
    ((∃ s ∈ ((fresh_project "A" "PA" "/top").add_sample
        (normalize_name seC10W.sample_name) (normalize_name seC10W.sample_name)).samples,
      s.name = normalize_name seC10W.sample_name) ∧
    ∀ s0, ((fresh_project "A" "PA" "/top").add_sample
        (normalize_name seC10W.sample_name)
        (normalize_name seC10W.sample_name)).findSample
        (normalize_name seC10W.sample_name) = some s0 →
      (s0.libpreps = [] →
        processSample (mkCtx regC4 cfgC4 mC10 [] []) "P1" "/d" peC10W []
          (fresh_project "A" "PA" "/top", none, []) seC10W =
          .ok ((fresh_project "A" "PA" "/top").add_sample
            (normalize_name seC10W.sample_name) (normalize_name seC10W.sample_name),
            none, [])) ∧
      (s0.libpreps ≠ [] →
        processSample (mkCtx regC4 cfgC4 mC10 [] []) "P1" "/d" peC10W []
          (fresh_project "A" "PA" "/top", none, []) seC10W = .error .nameError ∨
        ∃ lr2 call, call.dest = none ∧
          processSample (mkCtx regC4 cfgC4 mC10 [] []) "P1" "/d" peC10W []
            (fresh_project "A" "PA" "/top", none, []) seC10W =
            .ok ((fresh_project "A" "PA" "/top").add_sample
              (normalize_name seC10W.sample_name) (normalize_name seC10W.sample_name),
              lr2, [] ++ List.replicate s0.libpreps.length call))) :=
  ⟨⟨rfl, by decide⟩, C10_no_fastq_entry_node_only (fresh_project "A" "PA" "/top")
    none [] seC10W rfl (by decide)⟩

/-! ### Registry failures: project skip versus libprep abort (claim C5) -/

theorem processProject_regfail_skip (ctx : FcCtx) (st : PyVal × Option RunRef × List RsyncCall)
    (pe : ProjectEntry) (e : String)
    (hreg : ctx.reg.get_project_id_from_name pe.project_name = .error e) :
    processProject ctx st pe = .ok st := by
  obtain ⟨pv, lr, cs⟩ := st
  by_cases hre : ctx.restrictProjects ≠ [] ∧ pe.project_name ∉ ctx.restrictProjects
  · simp [processProject, hre]
  · simp [processProject, hre, hreg]

/-- A registry whose project lookups succeed and whose libprep lookups all
raise. -/
def regC5 : Charon :=
  { get_project_id_from_name := fun n => .ok ("P_" ++ n)
    determine_library_prep_from_fcid := fun _ _ _ => .error "CharonError: libprep lookup failed" }

/-- C5 as stated is false on the code: the call to
`determine_library_prep_from_fcid` (`flowcell.py:168`) is not wrapped in
any try/except, so at this concrete manifest — one project, one sample, one
matching fastq file — a failing library-prep lookup does not skip the file
and continue: the whole builder call aborts with the uncaught exception. -/
theorem C5_counterexample_libprep_failure_aborts :
    setup_analysis_directory_structure regC5 cfgC4 (some fcGoodC4) (.pydict []) [] [] =
      .error (.charonError "CharonError: libprep lookup failed") := rfl

/-- C5, amended: a failed project-id lookup is caught
(`flowcell.py:131-135`) and skips exactly that project — building a
manifest with the failing project present equals building the manifest with
it removed, whatever its position — whereas a failed library-prep-id lookup
for a fastq file is not caught: it propagates out of the builder and aborts
the whole batch instead of skipping that file. -/
theorem C5_project_skip_libprep_abort :
    (∀ (reg : Charon) (config : NGIConfig) (fc_dir fc_name fc_date : String)
        (pres posts : List ProjectEntry) (pe : ProjectEntry) (e : String)
        (pv : PyVal) (rP rS : List String),
        reg.get_project_id_from_name pe.project_name = .error e →
        build_from_structure reg config
            { fc_dir := fc_dir, fc_name := fc_name, fc_date := fc_date,
              projects := pres ++ pe :: posts } pv rP rS =
          build_from_structure reg config
            { fc_dir := fc_dir, fc_name := fc_name, fc_date := fc_date,
              projects := pres ++ posts } pv rP rS) ∧
    (∀ (reg : Charon) (config : NGIConfig) (fc_dir fc_name fc_date dd pdn pn sdir sraw pid
        f e : String) (files rest : List String),
        files.filter fastq_pattern_match = f :: rest →
        reg.get_project_id_from_name pn = .ok pid →
        reg.determine_library_prep_from_fcid pid (normalize_name sraw) fc_name = .error e →
        build_from_structure reg config
            { fc_dir := fc_dir, fc_name := fc_name, fc_date := fc_date,
              projects := [ { data_dir := dd, project_dir := pdn, project_name := pn,
                              samples := [ { sample_dir := sdir, sample_name := sraw,
                                             files := files } ] } ] }
            (.pydict []) [] [] = .error (.charonError e)) := by
  constructor
  · intro reg config fc_dir fc_name fc_date pres posts pe e pv rP rS hreg
    simp only [build_from_structure]
    have hfold :
        (pres ++ pe :: posts).foldlM
            (processProject
              { reg := reg, fcid := fc_name, fcShort := fc_date ++ "_" ++ fc_name,
                fcPath := fc_dir, topDir := config.top_dir,
                restrictProjects := rP, restrictSamples := rS })
            (pv, none, []) =
          (pres ++ posts).foldlM
            (processProject
              { reg := reg, fcid := fc_name, fcShort := fc_date ++ "_" ++ fc_name,
                fcPath := fc_dir, topDir := config.top_dir,
                restrictProjects := rP, restrictSamples := rS })
            (pv, none, []) := by
      rw [List.foldlM_append, List.foldlM_append]
      refine congrArg _ (funext fun mid => ?_)
      rw [List.foldlM_cons, processProject_regfail_skip _ mid pe e hreg]
      rfl
    rw [hfold]
  · intro reg config fc_dir fc_name fc_date dd pdn pn sdir sraw pid f e files rest
      hfiles hreg hlp
    simp [build_from_structure, processProject, processSample, hreg, hfiles, hlp,
      NGIProject.add_sample, NGIProject.findSample, dictSet, fresh_project, processFastq,
      List.foldlM_cons, foldlM_nil_ok, pure, Except.pure, List.find?,
      beq_self_eq_true, Option.map, Option.getD, Bind.bind, Except.bind]

/-- Witness for C5: a concrete batch where the failing project `B` is
skipped (building with it equals building without it) and a concrete
manifest where a libprep failure aborts the build. -/
theorem C5_project_skip_libprep_abort_witness :
    (build_from_structure
        { get_project_id_from_name := fun n => if n = "B" then .error "boom" else .ok ("P_" ++ n),
          determine_library_prep_from_fcid := fun _ _ _ => .ok "A" } cfgC4
        { fc_dir := "/fc", fc_name := "BCX", fc_date := "131030",
          projects := [ { data_dir := "U", project_dir := "Project_A", project_name := "A",
                          samples := [] },
                        { data_dir := "U", project_dir := "Project_B", project_name := "B",
                          samples := [] } ] } (.pydict []) [] [] =
      build_from_structure
        { get_project_id_from_name := fun n => if n = "B" then .error "boom" else .ok ("P_" ++ n),
          determine_library_prep_from_fcid := fun _ _ _ => .ok "A" } cfgC4
        { fc_dir := "/fc", fc_name := "BCX", fc_date := "131030",
          projects := [ { data_dir := "U", project_dir := "Project_A", project_name := "A",
                          samples := [] } ] } (.pydict []) [] []) ∧
    build_from_structure regC5 cfgC4
        { fc_dir := "/fc", fc_name := "BCX", fc_date := "131030",
          projects := [ { data_dir := "U", project_dir := "Project_A", project_name := "A",
                          samples := [ { sample_dir := "Sample_S", sample_name := "S",
                                         files := ["a.fastq.gz"] } ] } ] }
        (.pydict []) [] [] = .error (.charonError "CharonError: libprep lookup failed") :=
  ⟨C5_project_skip_libprep_abort.1
      { get_project_id_from_name := fun n => if n = "B" then .error "boom" else .ok ("P_" ++ n),
        determine_library_prep_from_fcid := fun _ _ _ => .ok "A" } cfgC4
      "/fc" "BCX" "131030"
      [ { data_dir := "U", project_dir := "Project_A", project_name := "A", samples := [] } ]
      [] { data_dir := "U", project_dir := "Project_B", project_name := "B", samples := [] }
      "boom" (.pydict []) [] [] rfl,
    C5_project_skip_libprep_abort.2 regC5 cfgC4 "/fc" "BCX" "131030" "U" "Project_A" "A"
      "Sample_S" "S" "P_A" "a.fastq.gz" "CharonError: libprep lookup failed"
      ["a.fastq.gz"] [] (by decide) rfl rfl⟩

/-! ### One transfer call per libprep, not per sample (claim C6) -/

theorem add_seqrun_modify_name (lp : LibraryPrep) (a b : String)
    (g : SequencingRun → SequencingRun) :
    ((lp.add_seqrun a b).modifySeqrun a g).name = lp.name := by
  simp only [LibraryPrep.add_seqrun, LibraryPrep.modifySeqrun]
  split <;> rfl

theorem fastqStep_name (L k fq : String) (s : NGISample) :
    (fastqStep L k fq s).name = s.name := by
  simp only [fastqStep, NGISample.add_libprep, NGISample.modifyLibprep]
  split <;> rfl

theorem add_libprep_any (s : NGISample) (L d : String) :
    (s.add_libprep L d).libpreps.any (fun lp => lp.name == L) = true := by
  unfold NGISample.add_libprep
  by_cases h : s.libpreps.any (fun lp => lp.name == L)
  · simp [h]
  · simp [h, List.any_append]

theorem modifyLibprep_names (s : NGISample) (n : String) (f : LibraryPrep → LibraryPrep)
    (hf : ∀ lp, (f lp).name = lp.name) :
    (s.modifyLibprep n f).libpreps.map (fun lp => lp.name) =
      s.libpreps.map (fun lp => lp.name) := by
  unfold NGISample.modifyLibprep
  simp only [List.map_map]
  refine List.map_congr_left fun lp _ => ?_
  simp only [Function.comp]
  split <;> simp [hf]

theorem fastqStep_any (L k fq : String) (s : NGISample) :
    (fastqStep L k fq s).libpreps.any (fun lp => lp.name == L) = true := by
  have hnames : (fastqStep L k fq s).libpreps.map (fun lp => lp.name) =
      (s.add_libprep L L).libpreps.map (fun lp => lp.name) := by
    unfold fastqStep
    exact modifyLibprep_names _ _ _ fun lp => add_seqrun_modify_name lp k k _
  have h1 := add_libprep_any s L L
  have h2 : ∀ (l : List LibraryPrep),
      l.any (fun lp => lp.name == L) = (l.map (fun lp => lp.name)).any (fun x => x == L) := by
    intro l
    induction l with
    | nil => rfl
    | cons a l ih => simp [List.any_cons, ih]
  rw [h2, hnames, ← h2]
  exact h1

theorem findSample_modifySample (p : NGIProject) (n : String) (f : NGISample → NGISample)
    (hf : ∀ t, (f t).name = t.name) :
    (p.modifySample n f).findSample n = (p.findSample n).map f := by
  obtain ⟨nm, dn, pid, bp, samples⟩ := p
  simp only [NGIProject.modifySample, NGIProject.findSample]
  induction samples with
  | nil => rfl
  | cons s ss ih =>
    cases hs : s.name == n with
    | true => simp [List.find?, hs, hf]
    | false =>
      simp only [List.map_cons, List.find?, hs]
      simp only [Bool.false_eq_true, if_false, hs]
      exact ih

theorem findSample_add_sample (p : NGIProject) (n d : String) :
    (p.add_sample n d).findSample n =
      some ((p.findSample n).getD { name := n, dirname := d, libpreps := [] }) := by
  cases hany : p.samples.any (fun s => s.name == n) with
  | true =>
    rcases hfind : p.samples.find? (fun s => s.name == n) with _ | s
    · exfalso
      obtain ⟨x, hx, hxn⟩ := List.any_eq_true.mp hany
      exact absurd (List.find?_eq_none.mp hfind x hx) (by simp [hxn])
    · simp [NGIProject.add_sample, NGIProject.findSample, hany, hfind]
  | false =>
    have hnone : p.samples.find? (fun s => s.name == n) = none :=
      List.find?_eq_none.mpr (List.any_eq_false.mp hany)
    simp [NGIProject.add_sample, NGIProject.findSample, hany, List.find?_append, hnone,
      List.find?]

theorem foldl_const_nonempty {α β : Type} (c : β) :
    ∀ (l : List α) (x : β), l ≠ [] → l.foldl (fun _ _ => c) x = c := by
  intro l
  induction l with
  | nil => intro x h; exact absurd rfl h
  | cons a l ih =>
    intro x _
    rcases l with _ | ⟨b, l2⟩
    · rfl
    · exact ih c (by simp)

theorem processFastq_fold (ctx : FcCtx) (pid pdir sample_dir sn L : String)
    (hlp : ctx.reg.determine_library_prep_from_fcid pid sn ctx.fcid = .ok L) :
    ∀ (l : List String) (p : NGIProject) (sd : Option String) (lr : Option RunRef),
      l.foldlM (processFastq ctx pid pdir sample_dir sn) (p, sd, lr) =
        .ok (l.foldl (fun q fq => q.modifySample sn (fastqStep L ctx.fcShort fq)) p,
             l.foldl (fun _ _ => some (pjoin (pjoin sample_dir L) ctx.fcShort)) sd,
             l.foldl (fun _ _ =>
               some { projectDir := pdir, sampleName := sn, libprepName := L,
                      seqrunName := ctx.fcShort }) lr) := by
  intro l
  induction l with
  | nil => intro p sd lr; rfl
  | cons fq l ih =>
    intro p sd lr
    rw [List.foldlM_cons]
    have hstep : processFastq ctx pid pdir sample_dir sn (p, sd, lr) fq =
        .ok (p.modifySample sn (fastqStep L ctx.fcShort fq),
             some (pjoin (pjoin sample_dir L) ctx.fcShort),
             some { projectDir := pdir, sampleName := sn, libprepName := L,
                    seqrunName := ctx.fcShort }) := by
      simp [processFastq, hlp]
    rw [hstep]
    show l.foldlM (processFastq ctx pid pdir sample_dir sn) _ = _
    rw [ih]
    simp

theorem foldl_fastqStep_any (L k : String) :
    ∀ (l : List String) (t : NGISample),
      t.libpreps.any (fun lp => lp.name == L) = true →
      ((l.foldl (fun u fq => fastqStep L k fq u) t).libpreps.any
        (fun lp => lp.name == L)) = true := by
  intro l
  induction l with
  | nil => intro t ht; exact ht
  | cons fq l ih => intro t _; exact ih (fastqStep L k fq t) (fastqStep_any L k fq t)

theorem findSample_foldl_modify (sn L k : String) :
    ∀ (l : List String) (p : NGIProject),
      (l.foldl (fun q fq => q.modifySample sn (fastqStep L k fq)) p).findSample sn =
        (p.findSample sn).map (fun t => l.foldl (fun u fq => fastqStep L k fq u) t) := by
  intro l
  induction l with
  | nil => intro p; simp
  | cons fq l ih =>
    intro p
    rw [List.foldl_cons, ih,
      findSample_modifySample p sn _ (fun t => fastqStep_name L k fq t)]
    cases p.findSample sn <;> simp

/-- C6, amended: within one build pass, after a sample's fastq files are
assigned, `do_rsync` is invoked once per LibraryPrep currently attached to
the sample node — not once per sample — every invocation being identical:
sources resolved from the most recently touched run's file list and that
run's directory as destination.  It coincides with "exactly once" only when
the sample has exactly one libprep. -/
theorem C6_transfer_once_per_libprep (ctx : FcCtx) (pid pdir : String) (pe : ProjectEntry)
    (entries : List (String × NGIProject)) (projObj projObj' : NGIProject)
    (last_run last_run' : Option RunRef) (calls calls' : List RsyncCall)
    (se : SampleEntry) (L f : String) (fs : List String)
    (hrs : ctx.restrictSamples = [])
    (hlp : ctx.reg.determine_library_prep_from_fcid pid (normalize_name se.sample_name)
      ctx.fcid = .ok L)
    (hfiles : se.files.filter fastq_pattern_match = f :: fs)
    (hok : processSample ctx pid pdir pe entries (projObj, last_run, calls) se =
      .ok (projObj', last_run', calls')) :
    ∃ (s' : NGISample) (rfiles : List String),
      projObj'.findSample (normalize_name se.sample_name) = some s' ∧
      1 ≤ s'.libpreps.length ∧
      last_run' = some { projectDir := pdir, sampleName := normalize_name se.sample_name,
                         libprepName := L, seqrunName := ctx.fcShort } ∧
      resolveRunRef (dictSet entries pdir projObj')
          { projectDir := pdir, sampleName := normalize_name se.sample_name,
            libprepName := L, seqrunName := ctx.fcShort } = some rfiles ∧
      calls' = calls ++ List.replicate s'.libpreps.length
        { src_fastq_files := rfiles.map
            (pjoin (pjoin (pjoin (pjoin ctx.fcPath pe.data_dir) pe.project_dir) se.sample_dir))
          dest := some (pjoin (pjoin (pjoin pdir (normalize_name se.sample_name)) L)
            ctx.fcShort) } := by
  simp only [processSample, hrs, ne_eq, not_true_eq_false, false_and, if_false] at hok
  rw [hfiles, processFastq_fold ctx pid pdir (pjoin pdir (normalize_name se.sample_name))
    (normalize_name se.sample_name) L hlp] at hok
  rw [foldl_const_nonempty _ (f :: fs) none (by simp),
    foldl_const_nonempty _ (f :: fs) last_run (by simp)] at hok
  set sn := normalize_name se.sample_name with hsn
  set p1 := projObj.add_sample sn sn with hp1
  set pFin := (f :: fs).foldl (fun q fq => q.modifySample sn (fastqStep L ctx.fcShort fq)) p1
    with hpFin
  set s0 := (projObj.findSample sn).getD { name := sn, dirname := sn, libpreps := [] }
    with hs0
  have hfind : pFin.findSample sn = some ((f :: fs).foldl
      (fun u fq => fastqStep L ctx.fcShort fq u) s0) := by
    rw [hpFin, findSample_foldl_modify sn L ctx.fcShort (f :: fs) p1, hp1,
      findSample_add_sample projObj sn sn]
    rfl
  set sFin := (f :: fs).foldl (fun u fq => fastqStep L ctx.fcShort fq u) s0 with hsFin
  have hany : sFin.libpreps.any (fun lp => lp.name == L) = true := by
    rw [hsFin, List.foldl_cons]
    exact foldl_fastqStep_any L ctx.fcShort fs _ (fastqStep_any L ctx.fcShort f s0)
  have hlen : 1 ≤ sFin.libpreps.length := by
    obtain ⟨x, hx, _⟩ := List.any_eq_true.mp hany
    exact List.length_pos.mpr (List.ne_nil_of_mem hx)
  dsimp only at hok
  rw [show (NGIProject.findSample pFin sn) = some sFin from hfind] at hok
  simp only [Option.map_some', Option.getD_some] at hok
  rw [if_neg (by omega)] at hok
  cases hres : resolveRunRef (dictSet entries pdir pFin)
      (⟨pdir, sn, L, ctx.fcShort⟩ : RunRef) with
  | none =>
    rw [hres] at hok
    exact absurd hok (by intro hc; exact Except.noConfusion hc)
  | some rfiles =>
    rw [hres] at hok
    injection hok with h2
    have hA : pFin = projObj' := congrArg Prod.fst h2
    have hB : (some (⟨pdir, sn, L, ctx.fcShort⟩ : RunRef)) = last_run' :=
      congrArg (fun t => t.2.1) h2
    have hC : calls ++ List.replicate sFin.libpreps.length
        (⟨rfiles.map
            (pjoin (pjoin (pjoin (pjoin ctx.fcPath pe.data_dir) pe.project_dir) se.sample_dir)),
          some (pjoin (pjoin (pjoin pdir sn) L) ctx.fcShort)⟩ : RsyncCall) = calls' :=
      congrArg (fun t => t.2.2) h2
    subst hA
    exact ⟨sFin, rfiles, hfind, hlen, hB.symm, hres, hC.symm⟩

/-- A registry whose libprep ids depend on the flowcell id, so the same
sample acquires a second LibraryPrep from a second flowcell. -/
def regC6 : Charon :=
  { get_project_id_from_name := fun n => .ok ("P_" ++ n)
    determine_library_prep_from_fcid := fun _ _ fcid => .ok ("LP_" ++ fcid) }

/-- A second flowcell holding the same project and sample as `fcGoodC4`. -/
def fcC6b : FlowcellDirContent :=
  { path := "/fc2", runInfoFlowcell := some "D2", runInfoDate := some "140101",
    runParamsFCPosition := some "A",
    projectDirs := [ { dataDir := "Unaligned", dirName := "Project_A",
                       sampleDirs := [ { dirName := "Sample_S",
                                         fileNames := ["c.fastq.gz"] } ] } ] }

/-- C6 as stated is false on the code: the transfer loop iterates over the
sample's libpreps (`flowcell.py:185-192`), so in the second build pass —
where the shared sample node already carries a libprep from the first
flowcell and acquires a second one — the single sample of the second
manifest triggers two (identical) `do_rsync` invocations, not exactly
one. -/
theorem C6_counterexample_two_calls_one_sample :
    ∃ (pv : PyVal) (calls1 : List RsyncCall) (pv2 : PyVal) (calls2 : List RsyncCall)
      (c : RsyncCall),
      setup_analysis_directory_structure regC6 cfgC4 (some fcGoodC4) (.pydict []) [] [] =
        .ok (pv, calls1) ∧
      setup_analysis_directory_structure regC6 cfgC4 (some fcC6b) pv [] [] =
        .ok (pv2, calls2) ∧
      calls1.length = 1 ∧ calls2 = [c, c] := by
  refine ⟨_, _, _, _, _, rfl, rfl, rfl, rfl⟩

/-- The project tree produced for the witness `processSample` run of C6. -/
def projC6W : NGIProject :=
  { name := "A", dirname := "A", project_id := "P_A", base_path := "/top",
    samples := [ { name := "S", dirname := "S",
                   libpreps := [ { name := "LP_AD2", dirname := "LP_AD2",
                                   seqruns := [ { name := "140101_AD2",
                                                  dirname := "140101_AD2",
                                                  fastq_files := ["c.fastq.gz"] } ] } ] } ] }

/-- The per-flowcell context for the C6 witness. -/
def ctxC6W : FcCtx :=
  { reg := regC6, fcid := "AD2", fcShort := "140101_AD2", fcPath := "/fc2",
    topDir := "/top", restrictProjects := [], restrictSamples := [] }

/-- Witness for the amended C6 theorem at a concrete sample with one
libprep: one rsync call, resolved from the most recently touched run. -/
theorem C6_transfer_once_per_libprep_witness :
    ∃ (s' : NGISample) (rfiles : List String),
      projC6W.findSample (normalize_name "S") = some s' ∧
      1 ≤ s'.libpreps.length ∧
      (some (⟨"/top/DATA/A", "S", "LP_AD2", "140101_AD2"⟩ : RunRef) : Option RunRef) =
        some { projectDir := "/top/DATA/A", sampleName := normalize_name "S",
               libprepName := "LP_AD2", seqrunName := ctxC6W.fcShort } ∧
      resolveRunRef (dictSet [] "/top/DATA/A" projC6W)
          { projectDir := "/top/DATA/A", sampleName := normalize_name "S",
            libprepName := "LP_AD2", seqrunName := ctxC6W.fcShort } = some rfiles ∧
      ([⟨["/fc2/Unaligned/Project_A/Sample_S/c.fastq.gz"],
          some "/top/DATA/A/S/LP_AD2/140101_AD2"⟩] : List RsyncCall) =
        [] ++ List.replicate s'.libpreps.length
          { src_fastq_files := rfiles.map
              (pjoin (pjoin (pjoin (pjoin ctxC6W.fcPath "Unaligned") "Project_A") "Sample_S"))
            dest := some (pjoin (pjoin (pjoin "/top/DATA/A" (normalize_name "S")) "LP_AD2")
              ctxC6W.fcShort) } :=
  C6_transfer_once_per_libprep ctxC6W "P_A" "/top/DATA/A"
    { data_dir := "Unaligned", project_dir := "Project_A", project_name := "A",
      samples := [ { sample_dir := "Sample_S", sample_name := "S",
                     files := ["c.fastq.gz"] } ] }
    [] (fresh_project "A" "P_A" "/top") projC6W none
    (some (⟨"/top/DATA/A", "S", "LP_AD2", "140101_AD2"⟩ : RunRef)) []
    ([⟨["/fc2/Unaligned/Project_A/Sample_S/c.fastq.gz"],
       some "/top/DATA/A/S/LP_AD2/140101_AD2"⟩] : List RsyncCall)
    { sample_dir := "Sample_S", sample_name := "S", files := ["c.fastq.gz"] }
    "LP_AD2" "c.fastq.gz" [] rfl rfl (by decide) rfl

/-! ### Project filtering by restrict lists (claim C7) -/

theorem foldlM_ok_preserve {ε σ α : Type} {f : σ → α → Except ε σ} {P : σ → Prop}
    (hstep : ∀ s a s', f s a = .ok s' → P s → P s') :
    ∀ (l : List α) (s s' : σ), l.foldlM f s = .ok s' → P s → P s' := by
  intro l
  induction l with
  | nil =>
    intro s s' h hp
    rw [foldlM_nil_ok] at h
    cases h
    exact hp
  | cons a l ih =>
    intro s s' h hp
    obtain ⟨m, hm, hrest⟩ := foldlM_ok_cons h
    exact ih m s' hrest (hstep s a m hm hp)

theorem add_sample_name (p : NGIProject) (n d : String) : (p.add_sample n d).name = p.name := by
  unfold NGIProject.add_sample
  split <;> rfl

theorem processFastq_ok_name {ctx : FcCtx} {pid pdir sdir sn : String}
    (st : NGIProject × Option String × Option RunRef) (fq : String)
    (out : NGIProject × Option String × Option RunRef)
    (h : processFastq ctx pid pdir sdir sn st fq = .ok out) : out.1.name = st.1.name := by
  unfold processFastq at h
  cases hl : ctx.reg.determine_library_prep_from_fcid pid sn ctx.fcid with
  | error e =>
    rw [hl] at h
    exact absurd h (by intro hc; exact Except.noConfusion hc)
  | ok L =>
    rw [hl] at h
    cases h
    rfl

theorem processSample_ok_name {ctx : FcCtx} {pid pdir : String} {pe : ProjectEntry}
    {entries : List (String × NGIProject)}
    (st : NGIProject × Option RunRef × List RsyncCall) (se : SampleEntry)
    (out : NGIProject × Option RunRef × List RsyncCall)
    (h : processSample ctx pid pdir pe entries st se = .ok out) : out.1.name = st.1.name := by
  obtain ⟨p, lr, cs⟩ := st
  by_cases hre : ctx.restrictSamples ≠ [] ∧ normalize_name se.sample_name ∉ ctx.restrictSamples
  · simp only [processSample, if_pos hre] at h
    cases h
    rfl
  · simp only [processSample, if_neg hre] at h
    cases hfold : (se.files.filter fastq_pattern_match).foldlM
        (processFastq ctx pid pdir (pjoin pdir (normalize_name se.sample_name))
          (normalize_name se.sample_name))
        (p.add_sample (normalize_name se.sample_name) (normalize_name se.sample_name),
          none, lr) with
    | error e =>
      rw [hfold] at h
      exact absurd h (by intro hc; exact Except.noConfusion hc)
    | ok trip =>
      obtain ⟨p2, sd2, lr2⟩ := trip
      have hname : p2.name = p.name := by
        have := foldlM_ok_preserve
          (P := fun (s : NGIProject × Option String × Option RunRef) => s.1.name = p.name)
          (fun s a s' hs hp => (processFastq_ok_name s a s' hs).trans hp)
          (se.files.filter fastq_pattern_match) _ _ hfold
          (add_sample_name p _ _)
        exact this
      rw [hfold] at h
      dsimp only at h
      split at h
      · cases h
        exact hname
      · cases lr2 with
        | none => exact absurd h (by intro hc; exact Except.noConfusion hc)
        | some ref =>
          dsimp only at h
          cases hres : resolveRunRef (dictSet entries pdir p2) ref with
          | none =>
            rw [hres] at h
            exact absurd h (by intro hc; exact Except.noConfusion hc)
          | some files =>
            rw [hres] at h
            cases h
            exact hname

/-- The destination path keying a project in the accumulator
(`flowcell.py:139`). -/
def projDirOf (top pn : String) : String :=
  pjoin (pjoin top "DATA") pn

theorem projDirOf_inj (top : String) {a b : String} (h : projDirOf top a = projDirOf top b) :
    a = b := by
  have hd := congrArg String.data h
  simp only [projDirOf, pjoin, String.data_append, List.append_assoc] at hd
  apply String.ext
  exact List.append_cancel_left (List.append_cancel_left (List.append_cancel_left (List.append_cancel_left hd)))

/-- Key-name coherence of the accumulator dict: every entry is keyed by the
destination path of its project's name. -/
def EntriesInv (top : String) (es : List (String × NGIProject)) : Prop :=
  ∀ e ∈ es, e.1 = projDirOf top e.2.name

theorem entryValue_name {top : String} {es : List (String × NGIProject)}
    (hI : EntriesInv top es) {e : String × NGIProject} (he : e ∈ es) {pn : String}
    (hkey : e.1 = projDirOf top pn) : e.2.name = pn :=
  projDirOf_inj top ((hI e he).symm.trans hkey)

theorem inv_dictSet {top : String} {es : List (String × NGIProject)}
    (hI : EntriesInv top es) (v : NGIProject) (key : String)
    (hkey : key = projDirOf top v.name) : EntriesInv top (dictSet es key v) := by
  unfold dictSet
  split
  · intro e he
    obtain ⟨e0, he0, heq⟩ := List.mem_map.mp he
    by_cases h0 : e0.1 == key
    · rw [if_pos h0] at heq
      rw [← heq]
      exact hkey
    · rw [if_neg h0] at heq
      rw [← heq]
      exact hI e0 he0
  · intro e he
    rcases List.mem_append.mp he with h1 | h2
    · exact hI e h1
    · rw [List.mem_singleton.mp h2]
      exact hkey

theorem mem_name_dictSet {top : String} {es : List (String × NGIProject)}
    (hI : EntriesInv top es) (v : NGIProject) (key : String)
    (hkey : key = projDirOf top v.name) (q : String) :
    (∃ e ∈ dictSet es key v, e.2.name = q) ↔
      ((∃ e ∈ es, e.2.name = q) ∨ q = v.name) := by
  unfold dictSet
  split
  · rename_i hany
    constructor
    · rintro ⟨e, he, hq⟩
      obtain ⟨e0, he0, heq⟩ := List.mem_map.mp he
      by_cases h0 : e0.1 == key
      · rw [if_pos h0] at heq
        right
        rw [← hq, ← heq]
      · rw [if_neg h0] at heq
        exact Or.inl ⟨e0, he0, heq ▸ hq⟩
    · rintro (⟨e, he, hq⟩ | hq)
      · by_cases h0 : e.1 == key
        · refine ⟨(key, v), List.mem_map.mpr ⟨e, he, by rw [if_pos h0]⟩, ?_⟩
          have : e.2.name = v.name :=
            entryValue_name hI he ((beq_iff_eq.mp h0).trans hkey)
          rw [← hq, this]
        · exact ⟨e, List.mem_map.mpr ⟨e, he, by rw [if_neg h0]⟩, hq⟩
      · obtain ⟨e0, he0, h0⟩ := List.any_eq_true.mp hany
        exact ⟨(key, v), List.mem_map.mpr ⟨e0, he0, by rw [if_pos h0]⟩, hq.symm⟩
  · constructor
    · rintro ⟨e, he, hq⟩
      rcases List.mem_append.mp he with h1 | h2
      · exact Or.inl ⟨e, h1, hq⟩
      · right
        rw [← hq, List.mem_singleton.mp h2]
    · rintro (⟨e, he, hq⟩ | hq)
      · exact ⟨e, List.mem_append.mpr (Or.inl he), hq⟩
      · exact ⟨(key, v), List.mem_append.mpr (Or.inr (List.mem_singleton.mpr rfl)), hq.symm⟩

theorem projObj0_name {top : String} {es : List (String × NGIProject)} (hI : EntriesInv top es)
    (pn pid : String) :
    ((((if es.any (fun e => e.1 == projDirOf top pn) then es
        else es ++ [(projDirOf top pn, fresh_project pn pid top)]).find?
          (fun e => e.1 == projDirOf top pn)).map (fun e => e.2)).getD
      (fresh_project pn pid top)).name = pn := by
  cases hany : es.any (fun e => e.1 == projDirOf top pn) with
  | true =>
    simp only [hany, if_true]
    rcases hfind : es.find? (fun e => e.1 == projDirOf top pn) with _ | e
    · exfalso
      obtain ⟨x, hx, hxp⟩ := List.any_eq_true.mp hany
      exact absurd (List.find?_eq_none.mp hfind x hx) (by simp [hxp])
    · have hmem := List.mem_of_find?_eq_some hfind
      have hpred := List.find?_some hfind
      rw [hfind]
      simp only [Option.map_some', Option.getD_some]
      exact entryValue_name hI hmem (beq_iff_eq.mp hpred)
  | false =>
    have hnone : es.find? (fun e => e.1 == projDirOf top pn) = none :=
      List.find?_eq_none.mpr (List.any_eq_false.mp hany)
    simp only [hany, Bool.false_eq_true, if_false, List.find?_append, hnone]
    simp [List.find?, fresh_project]

theorem inv_append_fresh {top : String} {es : List (String × NGIProject)}
    (hI : EntriesInv top es) (pn pid : String) :
    EntriesInv top (es ++ [(projDirOf top pn, fresh_project pn pid top)]) := by
  intro e he
  rcases List.mem_append.mp he with h1 | h2
  · exact hI e h1
  · rw [List.mem_singleton.mp h2]
    rfl

theorem processProject_names {ctx : FcCtx} {es : List (String × NGIProject)}
    {lr : Option RunRef} {cs : List RsyncCall} {pe : ProjectEntry}
    {st' : PyVal × Option RunRef × List RsyncCall}
    (hreg : ∃ pid, ctx.reg.get_project_id_from_name pe.project_name = .ok pid)
    (hI : EntriesInv ctx.topDir es)
    (h : processProject ctx (.pydict es, lr, cs) pe = .ok st') :
    ∃ es' lr' cs', st' = (.pydict es', lr', cs') ∧ EntriesInv ctx.topDir es' ∧
      ∀ q, (∃ e ∈ es', e.2.name = q) ↔
        ((∃ e ∈ es, e.2.name = q) ∨
          (q = pe.project_name ∧
            (ctx.restrictProjects = [] ∨ pe.project_name ∈ ctx.restrictProjects))) := by
  obtain ⟨pid, hpid⟩ := hreg
  by_cases hre : ctx.restrictProjects ≠ [] ∧ pe.project_name ∉ ctx.restrictProjects
  · simp only [processProject, if_pos hre] at h
    cases h
    refine ⟨es, lr, cs, rfl, hI, fun q => ?_⟩
    constructor
    · exact Or.inl
    · rintro (h1 | ⟨_, hkeep⟩)
      · exact h1
      · rcases hkeep with hnil | hmem
        · exact absurd hnil hre.1
        · exact absurd hmem hre.2
  · simp only [processProject, if_neg hre, hpid] at h
    set pdir := pjoin (pjoin ctx.topDir "DATA") pe.project_name with hpdir
    set esP := (if es.any (fun e => e.1 == pdir) then es
      else es ++ [(pdir, fresh_project pe.project_name pid ctx.topDir)]) with hesP
    set projObj0 := ((esP.find? fun e => e.1 == pdir).map (fun e => e.2)).getD
      (fresh_project pe.project_name pid ctx.topDir) with hprojObj0
    have hname0 : projObj0.name = pe.project_name :=
      projObj0_name hI pe.project_name pid
    have hIP : EntriesInv ctx.topDir esP := by
      rw [hesP]
      split
      · exact hI
      · exact inv_append_fresh hI pe.project_name pid
    have hmemP : ∀ q, (∃ e ∈ esP, e.2.name = q) ↔
        ((∃ e ∈ es, e.2.name = q) ∨
          (q = pe.project_name ∧ ¬es.any (fun e => e.1 == pdir) = true)) := by
      intro q
      rw [hesP]
      split
      · rename_i hany
        simp only [hany]
        constructor
        · exact Or.inl
        · rintro (h1 | ⟨_, hfalse⟩)
          · exact h1
          · exact absurd trivial hfalse
      · rename_i hany
        constructor
        · rintro ⟨e, he, hq⟩
          rcases List.mem_append.mp he with h1 | h2
          · exact Or.inl ⟨e, h1, hq⟩
          · rw [List.mem_singleton.mp h2] at hq
            exact Or.inr ⟨hq.symm, hany⟩
        · rintro (⟨e, he, hq⟩ | ⟨hq, _⟩)
          · exact ⟨e, List.mem_append.mpr (Or.inl he), hq⟩
          · exact ⟨(pdir, fresh_project pe.project_name pid ctx.topDir),
              List.mem_append.mpr (Or.inr (List.mem_singleton.mpr rfl)), hq.symm⟩
    cases hsfold : pe.samples.foldlM (processSample ctx pid pdir pe esP)
        (projObj0, lr, cs) with
    | error e =>
      rw [hsfold] at h
      exact absurd h (by intro hc; exact Except.noConfusion hc)
    | ok trip =>
      obtain ⟨p', lr', cs'⟩ := trip
      rw [hsfold] at h
      cases h
      have hname' : p'.name = pe.project_name := by
        have := foldlM_ok_preserve
          (P := fun (st : NGIProject × Option RunRef × List RsyncCall) =>
            st.1.name = pe.project_name)
          (fun s a s' hs hp => (processSample_ok_name s a s' hs).trans hp)
          pe.samples _ _ hsfold hname0
        exact this
      refine ⟨dictSet esP pdir p', lr', cs', rfl, ?_, fun q => ?_⟩
      · exact inv_dictSet hIP p' pdir (by rw [hname']; rfl)
      · rw [mem_name_dictSet hIP p' pdir (by rw [hname']; rfl) q, hmemP q, hname']
        constructor
        · rintro ((h1 | ⟨hq, _⟩) | hq)
          · exact Or.inl h1
          · refine Or.inr ⟨hq, ?_⟩
            by_cases hnil : ctx.restrictProjects = []
            · exact Or.inl hnil
            · refine Or.inr ?_
              by_contra hni
              exact hre ⟨hnil, hni⟩
          · refine Or.inr ⟨hq, ?_⟩
            by_cases hnil : ctx.restrictProjects = []
            · exact Or.inl hnil
            · refine Or.inr ?_
              by_contra hni
              exact hre ⟨hnil, hni⟩
        · rintro (h1 | ⟨hq, _⟩)
          · exact Or.inl (Or.inl h1)
          · exact Or.inr hq

theorem foldProjects_names {ctx : FcCtx} :
    ∀ (pes : List ProjectEntry) (es : List (String × NGIProject)) (lr : Option RunRef)
      (cs : List RsyncCall) (st' : PyVal × Option RunRef × List RsyncCall),
      (∀ pe ∈ pes, ∃ pid, ctx.reg.get_project_id_from_name pe.project_name = .ok pid) →
      EntriesInv ctx.topDir es →
      pes.foldlM (processProject ctx) (.pydict es, lr, cs) = .ok st' →
      ∃ es' lr' cs', st' = (.pydict es', lr', cs') ∧ EntriesInv ctx.topDir es' ∧
        ∀ q, (∃ e ∈ es', e.2.name = q) ↔
          ((∃ e ∈ es, e.2.name = q) ∨
            ∃ pe ∈ pes, pe.project_name = q ∧
              (ctx.restrictProjects = [] ∨ pe.project_name ∈ ctx.restrictProjects)) := by
  intro pes
  induction pes with
  | nil =>
    intro es lr cs st' _ hI h
    rw [foldlM_nil_ok] at h
    cases h
    exact ⟨es, lr, cs, rfl, hI, fun q => by simp⟩
  | cons pe pes ih =>
    intro es lr cs st' hreg hI h
    obtain ⟨mid, hstep, hrest⟩ := foldlM_ok_cons h
    obtain ⟨es1, lr1, cs1, hmid, hI1, hiff1⟩ :=
      processProject_names (hreg pe (List.mem_cons_self pe pes)) hI hstep
    subst hmid
    obtain ⟨es', lr', cs', hst', hI', hiff'⟩ :=
      ih es1 lr1 cs1 st' (fun p hp => hreg p (List.mem_cons_of_mem pe hp)) hI1 hrest
    refine ⟨es', lr', cs', hst', hI', fun q => ?_⟩
    rw [hiff' q, hiff1 q]
    constructor
    · rintro ((h1 | h2) | ⟨p, hp, hq, hk⟩)
      · exact Or.inl h1
      · exact Or.inr ⟨pe, List.mem_cons_self pe pes, h2.1.symm, h2.2⟩
      · exact Or.inr ⟨p, List.mem_cons_of_mem pe hp, hq, hk⟩
    · rintro (h1 | ⟨p, hp, hq, hk⟩)
      · exact Or.inl (Or.inl h1)
      · rcases List.mem_cons.mp hp with hpe | hp2
        · subst hpe
          exact Or.inl (Or.inr ⟨hq.symm, hk⟩)
        · exact Or.inr ⟨p, hp2, hq, hk⟩

/-- C7: with all project-id lookups succeeding, the tree built from an
initially empty accumulator contains exactly the manifest's projects whose
(already parser-normalized) name passes the restriction list: every project
when `restrict_to_projects` is empty, and only the members of the list
otherwise. -/
theorem C7_restrict_projects_filter (reg : Charon) (config : NGIConfig)
    (fcs : FCDirStructure) (rP rS : List String)
    (entries : List (String × NGIProject)) (calls : List RsyncCall)
    (hreg : ∀ pe ∈ fcs.projects, ∃ pid, reg.get_project_id_from_name pe.project_name = .ok pid)
    (hok : build_from_structure reg config fcs (.pydict []) rP rS =
      .ok (.pydict entries, calls)) :
    ∀ pn, (∃ e ∈ entries, e.2.name = pn) ↔
      ((∃ pe ∈ fcs.projects, pe.project_name = pn) ∧ (rP = [] ∨ pn ∈ rP)) := by
  simp only [build_from_structure] at hok
  split at hok
  · exact absurd hok (by intro hc; exact Except.noConfusion hc)
  · rename_i pv2 lr2 cs2 hfold
    obtain ⟨es', lr', cs', hst', _, hiff⟩ :=
      foldProjects_names fcs.projects [] none [] (pv2, lr2, cs2) hreg
        (fun e he => absurd he (List.not_mem_nil e)) hfold
    injection hok with hok1
    have hpv : pv2 = .pydict entries := congrArg Prod.fst hok1
    have hes : es' = entries := by
      have := congrArg Prod.fst hst'
      simp only [hpv] at this
      exact (PyVal.pydict.injEq _ _).mp this.symm
    intro pn
    rw [← hes]
    rw [hiff pn]
    constructor
    · rintro (⟨e, he, _⟩ | ⟨pe, hpe, hq, hk⟩)
      · exact absurd he (List.not_mem_nil e)
      · subst hq
        exact ⟨⟨pe, hpe, rfl⟩, hk⟩
    · rintro ⟨⟨pe, hpe, hq⟩, hk⟩
      subst hq
      exact Or.inr ⟨pe, hpe, rfl, hk⟩

/-- Witness for C7: a manifest with projects `A` and `B`, restricted to
`A`, yields a tree containing `A` and not `B`. -/
theorem C7_restrict_projects_filter_witness :
    (∃ e ∈ [("/top/DATA/A", fresh_project "A" "P_A" "/top")], e.2.name = "A") ∧
    ¬(∃ e ∈ [("/top/DATA/A", fresh_project "A" "P_A" "/top")], e.2.name = "B") := by
  have h := C7_restrict_projects_filter regC4 cfgC4
    { fc_dir := "/fc", fc_name := "BCX", fc_date := "131030",
      projects := [ { data_dir := "U", project_dir := "Project_A", project_name := "A",
                      samples := [] },
                    { data_dir := "U", project_dir := "Project_B", project_name := "B",
                      samples := [] } ] }
    ["A"] [] [("/top/DATA/A", fresh_project "A" "P_A" "/top")] []
    (fun pe _ => ⟨"P_" ++ pe.project_name, rfl⟩) rfl
  constructor
  · refine (h "A").mpr ⟨⟨?_, ?_, ?_⟩, Or.inr (by decide)⟩
    · exact { data_dir := "U", project_dir := "Project_A", project_name := "A", samples := [] }
    · decide
    · rfl
  · intro hc
    obtain ⟨_, hk⟩ := (h "B").mp hc
    rcases hk with hnil | hmem
    · exact absurd hnil (by decide)
    · exact absurd hmem (by decide)

/-! ### Aggregation of two flowcells under one LibraryPrep (claim C1) -/

theorem add_fastq_name (r : SequencingRun) (fq : String) :
    (r.add_fastq_files fq).name = r.name := by
  unfold SequencingRun.add_fastq_files
  split <;> rfl

theorem foldl_add_fastq_name (l : List String) (r : SequencingRun) :
    (l.foldl SequencingRun.add_fastq_files r).name = r.name := by
  induction l generalizing r with
  | nil => rfl
  | cons fq l ih => rw [List.foldl_cons, ih, add_fastq_name]

theorem modifySample_single (nm dn pid bp sn : String) (S : NGISample)
    (f : NGISample → NGISample) (hS : S.name = sn) :
    NGIProject.modifySample ⟨nm, dn, pid, bp, [S]⟩ sn f = ⟨nm, dn, pid, bp, [f S]⟩ := by
  simp [NGIProject.modifySample, hS]

theorem foldl_modifySample_single (sn L k : String) :
    ∀ (l : List String) (nm dn pid bp : String) (S : NGISample), S.name = sn →
      l.foldl (fun q fq => q.modifySample sn (fastqStep L k fq))
          (⟨nm, dn, pid, bp, [S]⟩ : NGIProject) =
        ⟨nm, dn, pid, bp, [l.foldl (fun t fq => fastqStep L k fq t) S]⟩ := by
  intro l
  induction l with
  | nil => intro nm dn pid bp S _; rfl
  | cons fq l ih =>
    intro nm dn pid bp S hS
    rw [List.foldl_cons, modifySample_single nm dn pid bp sn S _ hS, List.foldl_cons]
    exact ih nm dn pid bp (fastqStep L k fq S) ((fastqStep_name L k fq S).trans hS)

theorem fastqStep_single_run (L k fq sn dn : String) (r : SequencingRun) (hr : r.name = k) :
    fastqStep L k fq ⟨sn, dn, [⟨L, L, [r]⟩]⟩ =
      ⟨sn, dn, [⟨L, L, [r.add_fastq_files fq]⟩]⟩ := by
  simp [fastqStep, NGISample.add_libprep, NGISample.modifyLibprep, LibraryPrep.add_seqrun,
    LibraryPrep.modifySeqrun, hr]

theorem foldl_fastqStep_single_run (L k sn dn : String) :
    ∀ (l : List String) (r : SequencingRun), r.name = k →
      l.foldl (fun t fq => fastqStep L k fq t) (⟨sn, dn, [⟨L, L, [r]⟩]⟩ : NGISample) =
        ⟨sn, dn, [⟨L, L, [l.foldl SequencingRun.add_fastq_files r]⟩]⟩ := by
  intro l
  induction l with
  | nil => intro r _; rfl
  | cons fq l ih =>
    intro r hr
    rw [List.foldl_cons, fastqStep_single_run L k fq sn dn r hr, List.foldl_cons]
    exact ih (r.add_fastq_files fq) ((add_fastq_name r fq).trans hr)

theorem fastqStep_empty (L k fq sn dn : String) :
    fastqStep L k fq ⟨sn, dn, []⟩ = ⟨sn, dn, [⟨L, L, [⟨k, k, [fq]⟩]⟩]⟩ := by
  simp [fastqStep, NGISample.add_libprep, NGISample.modifyLibprep, LibraryPrep.add_seqrun,
    LibraryPrep.modifySeqrun, SequencingRun.add_fastq_files]

theorem foldl_fastqStep_from_empty (L k sn dn : String) (f : String) (fs : List String) :
    (f :: fs).foldl (fun t fq => fastqStep L k fq t) (⟨sn, dn, []⟩ : NGISample) =
      ⟨sn, dn, [⟨L, L, [fs.foldl SequencingRun.add_fastq_files ⟨k, k, [f]⟩]⟩]⟩ := by
  rw [List.foldl_cons, fastqStep_empty]
  exact foldl_fastqStep_single_run L k sn dn fs ⟨k, k, [f]⟩ rfl

theorem fastqStep_second_run (L k1 k2 fq sn dn : String) (r1 r2 : SequencingRun)
    (h1 : r1.name = k1) (h2 : r2.name = k2) (hk : k1 ≠ k2) :
    fastqStep L k2 fq ⟨sn, dn, [⟨L, L, [r1, r2]⟩]⟩ =
      ⟨sn, dn, [⟨L, L, [r1, r2.add_fastq_files fq]⟩]⟩ := by
  simp [fastqStep, NGISample.add_libprep, NGISample.modifyLibprep, LibraryPrep.add_seqrun,
    LibraryPrep.modifySeqrun, h1, h2, hk]

theorem fastqStep_new_run (L k1 k2 fq sn dn : String) (r1 : SequencingRun)
    (h1 : r1.name = k1) (hk : k1 ≠ k2) :
    fastqStep L k2 fq ⟨sn, dn, [⟨L, L, [r1]⟩]⟩ =
      ⟨sn, dn, [⟨L, L, [r1, ⟨k2, k2, [fq]⟩]⟩]⟩ := by
  simp [fastqStep, NGISample.add_libprep, NGISample.modifyLibprep, LibraryPrep.add_seqrun,
    LibraryPrep.modifySeqrun, SequencingRun.add_fastq_files, h1, hk]

theorem foldl_fastqStep_two_runs (L k1 k2 sn dn : String) (hk : k1 ≠ k2) :
    ∀ (l : List String) (r1 r2 : SequencingRun), r1.name = k1 → r2.name = k2 →
      l.foldl (fun t fq => fastqStep L k2 fq t)
          (⟨sn, dn, [⟨L, L, [r1, r2]⟩]⟩ : NGISample) =
        ⟨sn, dn, [⟨L, L, [r1, l.foldl SequencingRun.add_fastq_files r2]⟩]⟩ := by
  intro l
  induction l with
  | nil => intro r1 r2 _ _; rfl
  | cons fq l ih =>
    intro r1 r2 h1 h2
    rw [List.foldl_cons, fastqStep_second_run L k1 k2 fq sn dn r1 r2 h1 h2 hk,
      List.foldl_cons]
    exact ih r1 (r2.add_fastq_files fq) h1 ((add_fastq_name r2 fq).trans h2)

theorem foldl_fastqStep_second_flowcell (L k1 k2 sn dn : String) (hk : k1 ≠ k2)
    (g : String) (gs : List String) (r1 : SequencingRun) (h1 : r1.name = k1) :
    (g :: gs).foldl (fun t fq => fastqStep L k2 fq t)
        (⟨sn, dn, [⟨L, L, [r1]⟩]⟩ : NGISample) =
      ⟨sn, dn, [⟨L, L, [r1, gs.foldl SequencingRun.add_fastq_files ⟨k2, k2, [g]⟩]⟩]⟩ := by
  rw [List.foldl_cons, fastqStep_new_run L k1 k2 g sn dn r1 h1 hk]
  exact foldl_fastqStep_two_runs L k1 k2 sn dn hk gs r1 ⟨k2, k2, [g]⟩ h1 rfl

theorem find?_map_replace (key : String) (v : NGIProject) :
    ∀ es : List (String × NGIProject), es.any (fun e => e.1 == key) = true →
      (es.map (fun e => if e.1 == key then (key, v) else e)).find?
        (fun e => e.1 == key) = some (key, v) := by
  intro es
  induction es with
  | nil => intro h; simp at h
  | cons e es ih =>
    intro hany
    cases he : e.1 == key with
    | true => simp [List.find?, he]
    | false =>
      have hany' : es.any (fun e => e.1 == key) = true := by
        rcases List.any_eq_true.mp hany with ⟨x, hx, hp⟩
        rcases List.mem_cons.mp hx with hx1 | hx2
        · rw [hx1, he] at hp
          cases hp
        · exact List.any_eq_true.mpr ⟨x, hx2, hp⟩
      simpa [List.find?, he] using ih hany'

theorem find?_dictSet (es : List (String × NGIProject)) (key : String) (v : NGIProject) :
    (dictSet es key v).find? (fun e => e.1 == key) = some (key, v) := by
  unfold dictSet
  split
  · rename_i hany
    exact find?_map_replace key v es hany
  · rename_i hany
    have hany' : es.any (fun e => e.1 == key) = false := by
      cases h2 : es.any (fun e => e.1 == key) with
      | true => exact absurd h2 hany
      | false => rfl
    have hnone : es.find? (fun e => e.1 == key) = none :=
      List.find?_eq_none.mpr (List.any_eq_false.mp hany')
    rw [List.find?_append, hnone]
    simp [List.find?]

theorem processSample_first (ctx : FcCtx) (pid nm dn pidf bp pdir : String)
    (pe : ProjectEntry) (entries : List (String × NGIProject)) (se : SampleEntry)
    (lr0 : Option RunRef) (cs0 : List RsyncCall) (L f : String) (fs : List String)
    (hrs : ctx.restrictSamples = [])
    (hlp : ctx.reg.determine_library_prep_from_fcid pid (normalize_name se.sample_name)
      ctx.fcid = .ok L)
    (hf : se.files.filter fastq_pattern_match = f :: fs) :
    processSample ctx pid pdir pe entries ((⟨nm, dn, pidf, bp, []⟩ : NGIProject), lr0, cs0) se =
      .ok (⟨nm, dn, pidf, bp,
            [⟨normalize_name se.sample_name, normalize_name se.sample_name,
              [⟨L, L, [fs.foldl SequencingRun.add_fastq_files
                ⟨ctx.fcShort, ctx.fcShort, [f]⟩]⟩]⟩]⟩,
        some ⟨pdir, normalize_name se.sample_name, L, ctx.fcShort⟩,
        cs0 ++ [⟨(fs.foldl SequencingRun.add_fastq_files
            ⟨ctx.fcShort, ctx.fcShort, [f]⟩).fastq_files.map
              (pjoin (pjoin (pjoin (pjoin ctx.fcPath pe.data_dir) pe.project_dir) se.sample_dir)),
          some (pjoin (pjoin (pjoin pdir (normalize_name se.sample_name)) L) ctx.fcShort)⟩]) := by
  set sn := normalize_name se.sample_name with hsn
  have hre : ¬(ctx.restrictSamples ≠ [] ∧ sn ∉ ctx.restrictSamples) := by simp [hrs]
  simp only [processSample, if_neg hre]
  have hadd : (⟨nm, dn, pidf, bp, []⟩ : NGIProject).add_sample sn sn =
      ⟨nm, dn, pidf, bp, [⟨sn, sn, []⟩]⟩ := by
    simp [NGIProject.add_sample]
  rw [hadd, hf, processFastq_fold ctx pid pdir (pjoin pdir sn) sn L hlp]
  rw [foldl_modifySample_single sn L ctx.fcShort (f :: fs) nm dn pidf bp ⟨sn, sn, []⟩ rfl]
  rw [foldl_fastqStep_from_empty L ctx.fcShort sn sn f fs]
  rw [foldl_const_nonempty _ (f :: fs) none (by simp),
    foldl_const_nonempty _ (f :: fs) lr0 (by simp)]
  dsimp only
  simp only [NGIProject.findSample, List.find?, beq_self_eq_true, Option.map_some',
    Option.getD_some, List.length_cons, List.length_nil]
  rw [if_neg (by omega)]
  rw [show resolveRunRef (dictSet entries pdir
      (⟨nm, dn, pidf, bp, [⟨sn, sn, [⟨L, L, [fs.foldl SequencingRun.add_fastq_files
        ⟨ctx.fcShort, ctx.fcShort, [f]⟩]⟩]⟩]⟩ : NGIProject))
      ⟨pdir, sn, L, ctx.fcShort⟩ =
    some (fs.foldl SequencingRun.add_fastq_files
      ⟨ctx.fcShort, ctx.fcShort, [f]⟩).fastq_files from by
      simp [resolveRunRef, find?_dictSet, List.find?, beq_self_eq_true,
        foldl_add_fastq_name, Option.bind, bind]]
  simp [List.replicate]

theorem processSample_second (ctx : FcCtx) (pid nm dn pidf bp pdir k1 : String)
    (pe : ProjectEntry) (entries : List (String × NGIProject)) (se : SampleEntry)
    (lr0 : Option RunRef) (cs0 : List RsyncCall) (L g : String) (gs : List String)
    (r1 : SequencingRun)
    (hrs : ctx.restrictSamples = [])
    (hlp : ctx.reg.determine_library_prep_from_fcid pid (normalize_name se.sample_name)
      ctx.fcid = .ok L)
    (hg : se.files.filter fastq_pattern_match = g :: gs)
    (hr1 : r1.name = k1) (hk : k1 ≠ ctx.fcShort) :
    processSample ctx pid pdir pe entries
        ((⟨nm, dn, pidf, bp,
          [⟨normalize_name se.sample_name, normalize_name se.sample_name,
            [⟨L, L, [r1]⟩]⟩]⟩ : NGIProject), lr0, cs0) se =
      .ok (⟨nm, dn, pidf, bp,
            [⟨normalize_name se.sample_name, normalize_name se.sample_name,
              [⟨L, L, [r1, gs.foldl SequencingRun.add_fastq_files
                ⟨ctx.fcShort, ctx.fcShort, [g]⟩]⟩]⟩]⟩,
        some ⟨pdir, normalize_name se.sample_name, L, ctx.fcShort⟩,
        cs0 ++ [⟨(gs.foldl SequencingRun.add_fastq_files
            ⟨ctx.fcShort, ctx.fcShort, [g]⟩).fastq_files.map
              (pjoin (pjoin (pjoin (pjoin ctx.fcPath pe.data_dir) pe.project_dir) se.sample_dir)),
          some (pjoin (pjoin (pjoin pdir (normalize_name se.sample_name)) L) ctx.fcShort)⟩]) := by
  set sn := normalize_name se.sample_name with hsn
  have hre : ¬(ctx.restrictSamples ≠ [] ∧ sn ∉ ctx.restrictSamples) := by simp [hrs]
  simp only [processSample, if_neg hre]
  have hadd : (⟨nm, dn, pidf, bp, [⟨sn, sn, [⟨L, L, [r1]⟩]⟩]⟩ : NGIProject).add_sample sn sn =
      ⟨nm, dn, pidf, bp, [⟨sn, sn, [⟨L, L, [r1]⟩]⟩]⟩ := by
    simp [NGIProject.add_sample]
  rw [hadd, hg, processFastq_fold ctx pid pdir (pjoin pdir sn) sn L hlp]
  rw [foldl_modifySample_single sn L ctx.fcShort (g :: gs) nm dn pidf bp
    ⟨sn, sn, [⟨L, L, [r1]⟩]⟩ rfl]
  rw [foldl_fastqStep_second_flowcell L k1 ctx.fcShort sn sn hk g gs r1 hr1]
  rw [foldl_const_nonempty _ (g :: gs) none (by simp),
    foldl_const_nonempty _ (g :: gs) lr0 (by simp)]
  dsimp only
  simp only [NGIProject.findSample, List.find?, beq_self_eq_true, Option.map_some',
    Option.getD_some, List.length_cons, List.length_nil]
  rw [if_neg (by omega)]
  have hbeq : (r1.name == ctx.fcShort) = false := by
    rw [hr1]
    exact beq_eq_false_iff_ne.mpr hk
  rw [show resolveRunRef (dictSet entries pdir
      (⟨nm, dn, pidf, bp, [⟨sn, sn, [⟨L, L, [r1, gs.foldl SequencingRun.add_fastq_files
        ⟨ctx.fcShort, ctx.fcShort, [g]⟩]⟩]⟩]⟩ : NGIProject))
      ⟨pdir, sn, L, ctx.fcShort⟩ =
    some (gs.foldl SequencingRun.add_fastq_files
      ⟨ctx.fcShort, ctx.fcShort, [g]⟩).fastq_files from by
      simp [resolveRunRef, find?_dictSet, List.find?, beq_self_eq_true, hbeq,
        foldl_add_fastq_name, Option.bind, bind]]
  simp [List.replicate]

theorem processProject_single_first (ctx : FcCtx) (pn pid sdir sraw dd pdn L f1 : String)
    (files1 fs1 : List String) (lr : Option RunRef) (cs : List RsyncCall)
    (hrp : ctx.restrictProjects = []) (hrs : ctx.restrictSamples = [])
    (hreg : ctx.reg.get_project_id_from_name pn = .ok pid)
    (hlp : ctx.reg.determine_library_prep_from_fcid pid (normalize_name sraw) ctx.fcid = .ok L)
    (hf : files1.filter fastq_pattern_match = f1 :: fs1) :
    processProject ctx (.pydict [], lr, cs)
        ⟨dd, pdn, pn, [⟨sdir, sraw, files1⟩]⟩ =
      .ok (.pydict [(projDirOf ctx.topDir pn,
            ⟨pn, pn, pid, ctx.topDir,
              [⟨normalize_name sraw, normalize_name sraw,
                [⟨L, L, [fs1.foldl SequencingRun.add_fastq_files
                  ⟨ctx.fcShort, ctx.fcShort, [f1]⟩]⟩]⟩]⟩)],
        some ⟨projDirOf ctx.topDir pn, normalize_name sraw, L, ctx.fcShort⟩,
        cs ++ [⟨(fs1.foldl SequencingRun.add_fastq_files
            ⟨ctx.fcShort, ctx.fcShort, [f1]⟩).fastq_files.map
              (pjoin (pjoin (pjoin (pjoin ctx.fcPath dd) pdn) sdir)),
          some (pjoin (pjoin (pjoin (projDirOf ctx.topDir pn) (normalize_name sraw)) L)
            ctx.fcShort)⟩]) := by
  have hre : ¬(ctx.restrictProjects ≠ [] ∧ pn ∉ ctx.restrictProjects) := by simp [hrp]
  simp only [processProject, if_neg hre, hreg]
  simp only [List.any_nil, Bool.false_eq_true, if_false, List.nil_append, List.find?,
    beq_self_eq_true, Option.map_some', Option.getD_some, List.foldlM_cons, fresh_project]
  rw [processSample_first ctx pid pn pn pid ctx.topDir
    (pjoin (pjoin ctx.topDir "DATA") pn) ⟨dd, pdn, pn, [⟨sdir, sraw, files1⟩]⟩
    [(pjoin (pjoin ctx.topDir "DATA") pn, ⟨pn, pn, pid, ctx.topDir, []⟩)]
    ⟨sdir, sraw, files1⟩ lr cs L f1 fs1 hrs hlp hf]
  show Except.ok _ = _
  simp only [dictSet, List.any_cons, beq_self_eq_true, Bool.true_or, if_true, List.map_cons,
    List.map_nil]
  rfl

theorem processProject_single_second (ctx : FcCtx)
    (pn pid nm dn pidf bp sdir sraw dd pdn L g k1 : String)
    (files2 gs : List String) (r1 : SequencingRun) (lr : Option RunRef) (cs : List RsyncCall)
    (hrp : ctx.restrictProjects = []) (hrs : ctx.restrictSamples = [])
    (hreg : ctx.reg.get_project_id_from_name pn = .ok pid)
    (hlp : ctx.reg.determine_library_prep_from_fcid pid (normalize_name sraw) ctx.fcid = .ok L)
    (hg : files2.filter fastq_pattern_match = g :: gs)
    (hr1 : r1.name = k1) (hk : k1 ≠ ctx.fcShort) :
    processProject ctx
        (.pydict [(pjoin (pjoin ctx.topDir "DATA") pn,
          ⟨nm, dn, pidf, bp,
            [⟨normalize_name sraw, normalize_name sraw, [⟨L, L, [r1]⟩]⟩]⟩)], lr, cs)
        ⟨dd, pdn, pn, [⟨sdir, sraw, files2⟩]⟩ =
      .ok (.pydict [(pjoin (pjoin ctx.topDir "DATA") pn,
            ⟨nm, dn, pidf, bp,
              [⟨normalize_name sraw, normalize_name sraw,
                [⟨L, L, [r1, gs.foldl SequencingRun.add_fastq_files
                  ⟨ctx.fcShort, ctx.fcShort, [g]⟩]⟩]⟩]⟩)],
        some ⟨pjoin (pjoin ctx.topDir "DATA") pn, normalize_name sraw, L, ctx.fcShort⟩,
        cs ++ [⟨(gs.foldl SequencingRun.add_fastq_files
            ⟨ctx.fcShort, ctx.fcShort, [g]⟩).fastq_files.map
              (pjoin (pjoin (pjoin (pjoin ctx.fcPath dd) pdn) sdir)),
          some (pjoin (pjoin (pjoin (pjoin (pjoin ctx.topDir "DATA") pn)
            (normalize_name sraw)) L) ctx.fcShort)⟩]) := by
  have hre : ¬(ctx.restrictProjects ≠ [] ∧ pn ∉ ctx.restrictProjects) := by simp [hrp]
  simp only [processProject, if_neg hre, hreg]
  simp only [List.any_cons, List.any_nil, beq_self_eq_true, Bool.true_or, Bool.or_false,
    if_true, List.find?, Option.map_some', Option.getD_some, List.foldlM_cons]
  rw [processSample_second ctx pid nm dn pidf bp
    (pjoin (pjoin ctx.topDir "DATA") pn) k1 ⟨dd, pdn, pn, [⟨sdir, sraw, files2⟩]⟩
    [(pjoin (pjoin ctx.topDir "DATA") pn,
      ⟨nm, dn, pidf, bp, [⟨normalize_name sraw, normalize_name sraw, [⟨L, L, [r1]⟩]⟩]⟩)]
    ⟨sdir, sraw, files2⟩ lr cs L g gs r1 hrs hlp hg hr1 hk]
  show Except.ok _ = _
  simp only [dictSet, List.any_cons, beq_self_eq_true, Bool.true_or, if_true, List.map_cons,
    List.map_nil]

/-- C1, amended: for any two single-project manifests carrying the same
project and sample but different short run ids, with the registry resolving
the project id and returning the same libprep id for both flowcells'
triples, building both manifests into one shared, initially empty tree
yields exactly one LibraryPrep node for that sample, and that node has two
distinct SequencingRun children, one keyed by each flowcell's
`date_flowcellId` short run id. -/
theorem C1_aggregation_one_libprep_two_runs (reg : Charon) (config : NGIConfig)
    (fcp1 fcp2 dd1 dd2 pdn1 pdn2 sdir1 sdir2 n1 n2 d1 d2 pn sraw pid L f1 g1 : String)
    (files1 files2 fs1 gs1 : List String)
    (hshort : d1 ++ "_" ++ n1 ≠ d2 ++ "_" ++ n2)
    (hreg : reg.get_project_id_from_name pn = .ok pid)
    (hlp1 : reg.determine_library_prep_from_fcid pid (normalize_name sraw) n1 = .ok L)
    (hlp2 : reg.determine_library_prep_from_fcid pid (normalize_name sraw) n2 = .ok L)
    (hf1 : files1.filter fastq_pattern_match = f1 :: fs1)
    (hf2 : files2.filter fastq_pattern_match = g1 :: gs1) :
    ∃ calls1 calls2 : List RsyncCall,
      build_from_structure reg config
          ⟨fcp1, n1, d1, [⟨dd1, pdn1, pn, [⟨sdir1, sraw, files1⟩]⟩]⟩ (.pydict []) [] [] =
        .ok (.pydict [(projDirOf config.top_dir pn,
          ⟨pn, pn, pid, config.top_dir,
            [⟨normalize_name sraw, normalize_name sraw,
              [⟨L, L, [fs1.foldl SequencingRun.add_fastq_files
                ⟨d1 ++ "_" ++ n1, d1 ++ "_" ++ n1, [f1]⟩]⟩]⟩]⟩)], calls1) ∧
      build_from_structure reg config
          ⟨fcp2, n2, d2, [⟨dd2, pdn2, pn, [⟨sdir2, sraw, files2⟩]⟩]⟩
          (.pydict [(projDirOf config.top_dir pn,
            ⟨pn, pn, pid, config.top_dir,
              [⟨normalize_name sraw, normalize_name sraw,
                [⟨L, L, [fs1.foldl SequencingRun.add_fastq_files
                  ⟨d1 ++ "_" ++ n1, d1 ++ "_" ++ n1, [f1]⟩]⟩]⟩]⟩)]) [] [] =
        .ok (.pydict [(projDirOf config.top_dir pn,
          ⟨pn, pn, pid, config.top_dir,
            [⟨normalize_name sraw, normalize_name sraw,
              [⟨L, L, [fs1.foldl SequencingRun.add_fastq_files
                  ⟨d1 ++ "_" ++ n1, d1 ++ "_" ++ n1, [f1]⟩,
                gs1.foldl SequencingRun.add_fastq_files
                  ⟨d2 ++ "_" ++ n2, d2 ++ "_" ++ n2, [g1]⟩]⟩]⟩]⟩)], calls2) ∧
      (fs1.foldl SequencingRun.add_fastq_files
        ⟨d1 ++ "_" ++ n1, d1 ++ "_" ++ n1, [f1]⟩).name = d1 ++ "_" ++ n1 ∧
      (gs1.foldl SequencingRun.add_fastq_files
        ⟨d2 ++ "_" ++ n2, d2 ++ "_" ++ n2, [g1]⟩).name = d2 ++ "_" ++ n2 ∧
      (fs1.foldl SequencingRun.add_fastq_files
        ⟨d1 ++ "_" ++ n1, d1 ++ "_" ++ n1, [f1]⟩).name ≠
        (gs1.foldl SequencingRun.add_fastq_files
          ⟨d2 ++ "_" ++ n2, d2 ++ "_" ++ n2, [g1]⟩).name := by
  refine ⟨[⟨(fs1.foldl SequencingRun.add_fastq_files
      ⟨d1 ++ "_" ++ n1, d1 ++ "_" ++ n1, [f1]⟩).fastq_files.map
        (pjoin (pjoin (pjoin (pjoin fcp1 dd1) pdn1) sdir1)),
      some (pjoin (pjoin (pjoin (projDirOf config.top_dir pn) (normalize_name sraw)) L)
        (d1 ++ "_" ++ n1))⟩],
    [⟨(gs1.foldl SequencingRun.add_fastq_files
      ⟨d2 ++ "_" ++ n2, d2 ++ "_" ++ n2, [g1]⟩).fastq_files.map
        (pjoin (pjoin (pjoin (pjoin fcp2 dd2) pdn2) sdir2)),
      some (pjoin (pjoin (pjoin (projDirOf config.top_dir pn) (normalize_name sraw)) L)
        (d2 ++ "_" ++ n2))⟩], ?_, ?_, ?_, ?_, ?_⟩
  · simp only [build_from_structure]
    rw [List.foldlM_cons]
    rw [processProject_single_first
      ⟨reg, n1, d1 ++ "_" ++ n1, fcp1, config.top_dir, [], []⟩
      pn pid sdir1 sraw dd1 pdn1 L f1 files1 fs1 none [] rfl rfl hreg hlp1 hf1]
    rfl
  · simp only [build_from_structure, projDirOf]
    rw [List.foldlM_cons]
    have h2 := processProject_single_second
      ⟨reg, n2, d2 ++ "_" ++ n2, fcp2, config.top_dir, [], []⟩
      pn pid pn pn pid config.top_dir sdir2 sraw dd2 pdn2 L g1 (d1 ++ "_" ++ n1)
      files2 gs1
      (fs1.foldl SequencingRun.add_fastq_files ⟨d1 ++ "_" ++ n1, d1 ++ "_" ++ n1, [f1]⟩)
      none [] rfl rfl hreg hlp2 hf2
      (foldl_add_fastq_name fs1 ⟨d1 ++ "_" ++ n1, d1 ++ "_" ++ n1, [f1]⟩) hshort
    dsimp only at h2
    rw [h2]
    rfl
  · exact foldl_add_fastq_name fs1 ⟨d1 ++ "_" ++ n1, d1 ++ "_" ++ n1, [f1]⟩
  · exact foldl_add_fastq_name gs1 ⟨d2 ++ "_" ++ n2, d2 ++ "_" ++ n2, [g1]⟩
  · rw [foldl_add_fastq_name fs1 ⟨d1 ++ "_" ++ n1, d1 ++ "_" ++ n1, [f1]⟩,
      foldl_add_fastq_name gs1 ⟨d2 ++ "_" ++ n2, d2 ++ "_" ++ n2, [g1]⟩]
    exact hshort

/-- A pre-populated tree in which sample `S` of project `A` already carries
a LibraryPrep named `OTHER`. -/
def tree0C1 : PyVal :=
  .pydict [("/top/DATA/A",
    ⟨"A", "A", "P_A", "/top",
      [⟨"S", "S", [⟨"OTHER", "OTHER", [⟨"000_X", "000_X", ["z.fastq.gz"]⟩]⟩]⟩]⟩)]

/-- C1 as stated ("for every tree") is false on the code: building two
manifests of the same project/sample from different flowcells — with the
registry returning the same libprep id for both triples — into a shared
tree that already holds another LibraryPrep for that sample leaves the
sample with two LibraryPrep nodes, not exactly one. -/
theorem C1_counterexample_prepopulated_tree :
    ∃ (pv1 : PyVal) (c1 : List RsyncCall) (pv2 : PyVal) (c2 : List RsyncCall),
      build_from_structure regC4 cfgC4
          ⟨"/fc1", "BCX", "131030",
            [⟨"U", "Project_A", "A", [⟨"Sample_S", "S", ["a.fastq.gz"]⟩]⟩]⟩
          tree0C1 [] [] = .ok (pv1, c1) ∧
      build_from_structure regC4 cfgC4
          ⟨"/fc2", "AD2", "140101",
            [⟨"U", "Project_A", "A", [⟨"Sample_S", "S", ["c.fastq.gz"]⟩]⟩]⟩
          pv1 [] [] = .ok (pv2, c2) ∧
      (match pv2 with
        | .pydict [(_, p)] => p.samples.map fun s => s.libpreps.length
        | _ => []) = [2] := by
  refine ⟨_, _, _, _, rfl, rfl, rfl⟩

/-- Witness for the amended C1 theorem at two concrete flowcells. -/
theorem C1_aggregation_one_libprep_two_runs_witness :
    ∃ calls1 calls2 : List RsyncCall,
      build_from_structure regC4 cfgC4
          ⟨"/fc1", "BCX", "131030",
            [⟨"U", "Project_A", "A", [⟨"Sample_S", "S", ["a.fastq.gz"]⟩]⟩]⟩
          (.pydict []) [] [] =
        .ok (.pydict [("/top/DATA/A",
          ⟨"A", "A", "P_A", "/top",
            [⟨"S", "S", [⟨"A", "A",
              [⟨"131030_BCX", "131030_BCX", ["a.fastq.gz"]⟩]⟩]⟩]⟩)], calls1) ∧
      build_from_structure regC4 cfgC4
          ⟨"/fc2", "AD2", "140101",
            [⟨"U", "Project_A", "A", [⟨"Sample_S", "S", ["c.fastq.gz"]⟩]⟩]⟩
          (.pydict [("/top/DATA/A",
            ⟨"A", "A", "P_A", "/top",
              [⟨"S", "S", [⟨"A", "A",
                [⟨"131030_BCX", "131030_BCX", ["a.fastq.gz"]⟩]⟩]⟩]⟩)]) [] [] =
        .ok (.pydict [("/top/DATA/A",
          ⟨"A", "A", "P_A", "/top",
            [⟨"S", "S", [⟨"A", "A",
              [⟨"131030_BCX", "131030_BCX", ["a.fastq.gz"]⟩,
               ⟨"140101_AD2", "140101_AD2", ["c.fastq.gz"]⟩]⟩]⟩]⟩)], calls2) ∧
      ("131030_BCX" : String) = "131030_BCX" ∧
      ("140101_AD2" : String) = "140101_AD2" ∧
      ("131030_BCX" : String) ≠ "140101_AD2" :=
  C1_aggregation_one_libprep_two_runs regC4 cfgC4 "/fc1" "/fc2" "U" "U" "Project_A"
    "Project_A" "Sample_S" "Sample_S" "BCX" "AD2" "131030" "140101" "A" "S" "P_A" "A"
    "a.fastq.gz" "c.fastq.gz" ["a.fastq.gz"] ["c.fastq.gz"] [] [] (by decide) rfl rfl rfl
    rfl rfl

/-! ### Idempotence of rebuilding the same manifest set (claim C2) -/

/-- A flowcell with two distinct sample directories that normalize to the
same sample name, the first without fastq files. -/
def fcDupC2 : FlowcellDirContent :=
  { path := "/fc1", runInfoFlowcell := some "X", runInfoDate := some "131030",
    runParamsFCPosition := some "B",
    projectDirs := [ { dataDir := "U", dirName := "Project_P",
                       sampleDirs := [ { dirName := "Sample_A__B", fileNames := [] },
                                       { dirName := "Sample_A.B",
                                         fileNames := ["x.fastq.gz"] } ] } ] }

/-- C2 as stated is false on the code: rebuilding this manifest over the
tree of the first build crashes.  The directories `Sample_A__B` and
`Sample_A.B` normalize to the same sample name; during the rebuild the
first (fastq-less) sample entry finds the sample node carrying a libprep,
enters the per-libprep transfer loop before any fastq file has been seen in
that call, and reads the still-unbound `seqrun_object`, raising
`UnboundLocalError` — so the second build yields no tree at all, let alone
an identical one. -/
theorem C2_counterexample_rebuild_crashes :
    ∃ (pv : PyVal) (c1 : List RsyncCall),
      setup_analysis_directory_structure regC4 cfgC4 (some fcDupC2) (.pydict []) [] [] =
        .ok (pv, c1) ∧
      setup_analysis_directory_structure regC4 cfgC4 (some fcDupC2) pv [] [] =
        .error .nameError := by
  refine ⟨_, _, rfl, rfl⟩

/-- Name-and-content extension order on sequencing runs: same key, file set
only grows. -/
def RunLe (r u : SequencingRun) : Prop :=
  r.name = u.name ∧ ∀ fq ∈ r.fastq_files, fq ∈ u.fastq_files

/-- Extension order on libpreps. -/
def LpLe (a b : LibraryPrep) : Prop :=
  a.name = b.name ∧ ∀ r ∈ a.seqruns, ∃ u ∈ b.seqruns, RunLe r u

/-- Extension order on samples. -/
def SampleLe (a b : NGISample) : Prop :=
  a.name = b.name ∧ ∀ lp ∈ a.libpreps, ∃ lq ∈ b.libpreps, LpLe lp lq

/-- Extension order on projects. -/
def ProjLe (a b : NGIProject) : Prop :=
  a.name = b.name ∧ ∀ s ∈ a.samples, ∃ t ∈ b.samples, SampleLe s t

/-- Extension order on accumulator dicts. -/
def EntriesLe (a b : List (String × NGIProject)) : Prop :=
  ∀ e ∈ a, ∃ e' ∈ b, e.1 = e'.1 ∧ ProjLe e.2 e'.2

theorem runLe_refl (r : SequencingRun) : RunLe r r := ⟨rfl, fun _ h => h⟩

theorem runLe_trans {a b c : SequencingRun} (h1 : RunLe a b) (h2 : RunLe b c) : RunLe a c :=
  ⟨h1.1.trans h2.1, fun fq h => h2.2 fq (h1.2 fq h)⟩

theorem lpLe_refl (a : LibraryPrep) : LpLe a a := ⟨rfl, fun r h => ⟨r, h, runLe_refl r⟩⟩

theorem lpLe_trans {a b c : LibraryPrep} (h1 : LpLe a b) (h2 : LpLe b c) : LpLe a c := by
  refine ⟨h1.1.trans h2.1, fun r hr => ?_⟩
  obtain ⟨u, hu, hru⟩ := h1.2 r hr
  obtain ⟨v, hv, huv⟩ := h2.2 u hu
  exact ⟨v, hv, runLe_trans hru huv⟩

theorem sampleLe_refl (a : NGISample) : SampleLe a a := ⟨rfl, fun lp h => ⟨lp, h, lpLe_refl lp⟩⟩

theorem sampleLe_trans {a b c : NGISample} (h1 : SampleLe a b) (h2 : SampleLe b c) :
    SampleLe a c := by
  refine ⟨h1.1.trans h2.1, fun lp hlp => ?_⟩
  obtain ⟨u, hu, hru⟩ := h1.2 lp hlp
  obtain ⟨v, hv, huv⟩ := h2.2 u hu
  exact ⟨v, hv, lpLe_trans hru huv⟩

theorem projLe_refl (a : NGIProject) : ProjLe a a := ⟨rfl, fun s h => ⟨s, h, sampleLe_refl s⟩⟩

theorem projLe_trans {a b c : NGIProject} (h1 : ProjLe a b) (h2 : ProjLe b c) : ProjLe a c := by
  refine ⟨h1.1.trans h2.1, fun s hs => ?_⟩
  obtain ⟨u, hu, hru⟩ := h1.2 s hs
  obtain ⟨v, hv, huv⟩ := h2.2 u hu
  exact ⟨v, hv, sampleLe_trans hru huv⟩

theorem entriesLe_refl (a : List (String × NGIProject)) : EntriesLe a a :=
  fun e he => ⟨e, he, rfl, projLe_refl e.2⟩

theorem entriesLe_trans {a b c : List (String × NGIProject)} (h1 : EntriesLe a b)
    (h2 : EntriesLe b c) : EntriesLe a c := by
  intro e he
  obtain ⟨u, hu, hk1, hp1⟩ := h1 e he
  obtain ⟨v, hv, hk2, hp2⟩ := h2 u hu
  exact ⟨v, hv, hk1.trans hk2, projLe_trans hp1 hp2⟩

/-- A sample node already holds the association of file `fq` to run `k` of
libprep `L`. -/
def SampleAbsorbs (L k fq : String) (s : NGISample) : Prop :=
  ∃ lp ∈ s.libpreps, lp.name = L ∧ ∃ r ∈ lp.seqruns, r.name = k ∧ fq ∈ r.fastq_files

theorem sampleAbsorbs_mono {L k fq : String} {s u : NGISample}
    (h : SampleAbsorbs L k fq s) (hle : SampleLe s u) : SampleAbsorbs L k fq u := by
  obtain ⟨lp, hlp, hLname, r, hr, hkname, hfq⟩ := h
  obtain ⟨lq, hlq, hLe⟩ := hle.2 lp hlp
  obtain ⟨u2, hu2, hRle⟩ := hLe.2 r hr
  exact ⟨lq, hlq, hLe.1 ▸ hLname, u2, hu2, hRle.1 ▸ hkname, hRle.2 fq hfq⟩

theorem mem_add_fastq (r : SequencingRun) (fq x : String) (hx : x ∈ r.fastq_files) :
    x ∈ (r.add_fastq_files fq).fastq_files := by
  unfold SequencingRun.add_fastq_files
  split
  · exact hx
  · exact List.mem_append.mpr (Or.inl hx)

theorem runLe_add_fastq (r : SequencingRun) (fq : String) : RunLe r (r.add_fastq_files fq) :=
  ⟨(add_fastq_name r fq).symm, fun x hx => mem_add_fastq r fq x hx⟩

theorem mem_add_seqrun (lp : LibraryPrep) (n d : String) (r : SequencingRun)
    (hr : r ∈ lp.seqruns) : r ∈ (lp.add_seqrun n d).seqruns := by
  unfold LibraryPrep.add_seqrun
  split
  · exact hr
  · exact List.mem_append.mpr (Or.inl hr)

theorem lpLe_fastq_update (lp : LibraryPrep) (k d fq : String) :
    LpLe lp ((lp.add_seqrun k d).modifySeqrun k fun r => r.add_fastq_files fq) := by
  refine ⟨(add_seqrun_modify_name lp k d _).symm, fun r hr => ?_⟩
  have hr2 : r ∈ (lp.add_seqrun k d).seqruns := mem_add_seqrun lp k d r hr
  refine ⟨if r.name == k then r.add_fastq_files fq else r, ?_, ?_⟩
  · exact List.mem_map.mpr ⟨r, hr2, rfl⟩
  · split
    · exact runLe_add_fastq r fq
    · exact runLe_refl r

theorem mem_add_libprep (s : NGISample) (n d : String) (lp : LibraryPrep)
    (hlp : lp ∈ s.libpreps) : lp ∈ (s.add_libprep n d).libpreps := by
  unfold NGISample.add_libprep
  split
  · exact hlp
  · exact List.mem_append.mpr (Or.inl hlp)

theorem sampleLe_fastqStep (s : NGISample) (L k fq : String) :
    SampleLe s (fastqStep L k fq s) := by
  refine ⟨(fastqStep_name L k fq s).symm, fun lp hlp => ?_⟩
  have hlp2 : lp ∈ (s.add_libprep L L).libpreps := mem_add_libprep s L L lp hlp
  refine ⟨if lp.name == L then (lp.add_seqrun k k).modifySeqrun k
    (fun r => r.add_fastq_files fq) else lp, ?_, ?_⟩
  · exact List.mem_map.mpr ⟨lp, hlp2, rfl⟩
  · split
    · exact lpLe_fastq_update lp k k fq
    · exact lpLe_refl lp

theorem mem_add_sample (p : NGIProject) (n d : String) (s : NGISample)
    (hs : s ∈ p.samples) : s ∈ (p.add_sample n d).samples := by
  unfold NGIProject.add_sample
  split
  · exact hs
  · exact List.mem_append.mpr (Or.inl hs)

theorem projLe_add_sample (p : NGIProject) (n d : String) : ProjLe p (p.add_sample n d) :=
  ⟨(add_sample_name p n d).symm, fun s hs => ⟨s, mem_add_sample p n d s hs, sampleLe_refl s⟩⟩

theorem projLe_modifySample (p : NGIProject) (sn : String) (f : NGISample → NGISample)
    (hf : ∀ s, SampleLe s (f s)) : ProjLe p (p.modifySample sn f) := by
  refine ⟨rfl, fun s hs => ?_⟩
  refine ⟨if s.name == sn then f s else s, List.mem_map.mpr ⟨s, hs, rfl⟩, ?_⟩
  split
  · exact hf s
  · exact sampleLe_refl s

theorem processFastq_ok_le {ctx : FcCtx} {pid pdir sdir sn : String}
    (st : NGIProject × Option String × Option RunRef) (fq : String)
    (out : NGIProject × Option String × Option RunRef)
    (h : processFastq ctx pid pdir sdir sn st fq = .ok out) : ProjLe st.1 out.1 := by
  unfold processFastq at h
  cases hl : ctx.reg.determine_library_prep_from_fcid pid sn ctx.fcid with
  | error e =>
    rw [hl] at h
    exact absurd h (by intro hc; exact Except.noConfusion hc)
  | ok L =>
    rw [hl] at h
    cases h
    exact projLe_modifySample st.1 sn _ (fun s => sampleLe_fastqStep s L ctx.fcShort fq)

theorem processSample_ok_le {ctx : FcCtx} {pid pdir : String} {pe : ProjectEntry}
    {entries : List (String × NGIProject)}
    (st : NGIProject × Option RunRef × List RsyncCall) (se : SampleEntry)
    (out : NGIProject × Option RunRef × List RsyncCall)
    (h : processSample ctx pid pdir pe entries st se = .ok out) : ProjLe st.1 out.1 := by
  obtain ⟨p, lr, cs⟩ := st
  by_cases hre : ctx.restrictSamples ≠ [] ∧ normalize_name se.sample_name ∉ ctx.restrictSamples
  · simp only [processSample, if_pos hre] at h
    cases h
    exact projLe_refl p
  · simp only [processSample, if_neg hre] at h
    cases hfold : (se.files.filter fastq_pattern_match).foldlM
        (processFastq ctx pid pdir (pjoin pdir (normalize_name se.sample_name))
          (normalize_name se.sample_name))
        (p.add_sample (normalize_name se.sample_name) (normalize_name se.sample_name),
          none, lr) with
    | error e =>
      rw [hfold] at h
      exact absurd h (by intro hc; exact Except.noConfusion hc)
    | ok trip =>
      obtain ⟨p2, sd2, lr2⟩ := trip
      have hle : ProjLe p p2 := by
        have hbase := projLe_add_sample p (normalize_name se.sample_name)
          (normalize_name se.sample_name)
        have := foldlM_ok_preserve
          (P := fun (s : NGIProject × Option String × Option RunRef) => ProjLe p s.1)
          (fun s a s' hs hp => projLe_trans hp (processFastq_ok_le s a s' hs))
          (se.files.filter fastq_pattern_match) _ _ hfold hbase
        exact this
      rw [hfold] at h
      dsimp only at h
      split at h
      · cases h
        exact hle
      · cases lr2 with
        | none => exact absurd h (by intro hc; exact Except.noConfusion hc)
        | some ref =>
          dsimp only at h
          cases hres : resolveRunRef (dictSet entries pdir p2) ref with
          | none =>
            rw [hres] at h
            exact absurd h (by intro hc; exact Except.noConfusion hc)
          | some files =>
            rw [hres] at h
            cases h
            exact hle

/-- Duplicate-free file list of a run (the dict representation invariant of
the Python objects, plus the no-duplicate-files property). -/
def RunWF (r : SequencingRun) : Prop := r.fastq_files.Nodup

/-- Unique run keys and well-formed runs. -/
def LpWF (lp : LibraryPrep) : Prop :=
  (lp.seqruns.map (fun r => r.name)).Nodup ∧ ∀ r ∈ lp.seqruns, RunWF r

/-- Unique libprep names and well-formed libpreps. -/
def SampleWF (s : NGISample) : Prop :=
  (s.libpreps.map (fun lp => lp.name)).Nodup ∧ ∀ lp ∈ s.libpreps, LpWF lp

/-- Unique sample names and well-formed samples. -/
def ProjWF (p : NGIProject) : Prop :=
  (p.samples.map (fun s => s.name)).Nodup ∧ ∀ s ∈ p.samples, SampleWF s

/-- Unique dict keys and well-formed projects. -/
def EntriesWF (es : List (String × NGIProject)) : Prop :=
  (es.map (fun e => e.1)).Nodup ∧ ∀ e ∈ es, ProjWF e.2

theorem any_name_eq_mem {α : Type} (nm : α → String) (l : List α) (key : String) :
    l.any (fun x => nm x == key) = true ↔ key ∈ l.map nm := by
  simp only [List.any_eq_true, List.mem_map, beq_iff_eq]

theorem modifySeqrun_names (lp : LibraryPrep) (n : String) (f : SequencingRun → SequencingRun)
    (hf : ∀ r, (f r).name = r.name) :
    (lp.modifySeqrun n f).seqruns.map (fun r => r.name) =
      lp.seqruns.map (fun r => r.name) := by
  unfold LibraryPrep.modifySeqrun
  simp only [List.map_map]
  refine List.map_congr_left fun r _ => ?_
  simp only [Function.comp]
  split <;> simp [hf]

theorem modifySample_names (p : NGIProject) (n : String) (f : NGISample → NGISample)
    (hf : ∀ s, (f s).name = s.name) :
    (p.modifySample n f).samples.map (fun s => s.name) =
      p.samples.map (fun s => s.name) := by
  unfold NGIProject.modifySample
  simp only [List.map_map]
  refine List.map_congr_left fun s _ => ?_
  simp only [Function.comp]
  split <;> simp [hf]

theorem runWF_add_fastq (r : SequencingRun) (fq : String) (h : RunWF r) :
    RunWF (r.add_fastq_files fq) := by
  unfold SequencingRun.add_fastq_files
  unfold RunWF at *
  split
  · exact h
  · rename_i hmem
    simp [List.nodup_append, h, hmem]

theorem lpWF_fastq_update (lp : LibraryPrep) (k d fq : String) (h : LpWF lp) :
    LpWF ((lp.add_seqrun k d).modifySeqrun k fun r => r.add_fastq_files fq) := by
  have haddWF : LpWF (lp.add_seqrun k d) := by
    unfold LibraryPrep.add_seqrun
    split
    · exact h
    · rename_i hany
      have hk : k ∉ lp.seqruns.map (fun r => r.name) := by
        intro hmem
        rw [← any_name_eq_mem (fun r => r.name) lp.seqruns k] at hmem
        exact absurd hmem (by simpa using hany)
      constructor
      · simp only [List.map_append, List.map_cons, List.map_nil]
        simp [List.nodup_append, h.1, hk]
      · intro r hr
        rcases List.mem_append.mp hr with h1 | h2
        · exact h.2 r h1
        · rw [List.mem_singleton.mp h2]
          exact List.nodup_nil
  constructor
  · rw [modifySeqrun_names _ _ _ (fun r => add_fastq_name r fq)]
    exact haddWF.1
  · intro r hr
    obtain ⟨r0, hr0, heq⟩ := List.mem_map.mp hr
    subst heq
    split
    · exact runWF_add_fastq r0 fq (haddWF.2 r0 hr0)
    · exact haddWF.2 r0 hr0

theorem sampleWF_fastqStep (s : NGISample) (L k fq : String) (h : SampleWF s) :
    SampleWF (fastqStep L k fq s) := by
  have haddWF : SampleWF (s.add_libprep L L) := by
    unfold NGISample.add_libprep
    split
    · exact h
    · rename_i hany
      have hk : L ∉ s.libpreps.map (fun lp => lp.name) := by
        intro hmem
        rw [← any_name_eq_mem (fun lp => lp.name) s.libpreps L] at hmem
        exact absurd hmem (by simpa using hany)
      constructor
      · simp only [List.map_append, List.map_cons, List.map_nil]
        simp [List.nodup_append, h.1, hk]
      · intro lp hlp
        rcases List.mem_append.mp hlp with h1 | h2
        · exact h.2 lp h1
        · rw [List.mem_singleton.mp h2]
          exact ⟨List.nodup_nil, fun r hr => absurd hr (List.not_mem_nil r)⟩
  unfold fastqStep
  constructor
  · rw [modifyLibprep_names _ _ _ (fun lp => add_seqrun_modify_name lp k k _)]
    exact haddWF.1
  · intro lp hlp
    obtain ⟨lp0, hlp0, heq⟩ := List.mem_map.mp hlp
    subst heq
    split
    · exact lpWF_fastq_update lp0 k k fq (haddWF.2 lp0 hlp0)
    · exact haddWF.2 lp0 hlp0

theorem projWF_add_sample (p : NGIProject) (n d : String) (h : ProjWF p) :
    ProjWF (p.add_sample n d) := by
  unfold NGIProject.add_sample
  split
  · exact h
  · rename_i hany
    have hk : n ∉ p.samples.map (fun s => s.name) := by
      intro hmem
      rw [← any_name_eq_mem (fun s => s.name) p.samples n] at hmem
      exact absurd hmem (by simpa using hany)
    constructor
    · simp only [List.map_append, List.map_cons, List.map_nil]
      simp [List.nodup_append, h.1, hk]
    · intro s hs
      rcases List.mem_append.mp hs with h1 | h2
      · exact h.2 s h1
      · rw [List.mem_singleton.mp h2]
        exact ⟨List.nodup_nil, fun lp hlp => absurd hlp (List.not_mem_nil lp)⟩

theorem projWF_modifySample_fastqStep (p : NGIProject) (sn L k fq : String) (h : ProjWF p) :
    ProjWF (p.modifySample sn (fastqStep L k fq)) := by
  constructor
  · rw [modifySample_names _ _ _ (fun s => fastqStep_name L k fq s)]
    exact h.1
  · intro s hs
    obtain ⟨s0, hs0, heq⟩ := List.mem_map.mp hs
    subst heq
    split
    · exact sampleWF_fastqStep s0 L k fq (h.2 s0 hs0)
    · exact h.2 s0 hs0

theorem processFastq_ok_wf {ctx : FcCtx} {pid pdir sdir sn : String}
    (st : NGIProject × Option String × Option RunRef) (fq : String)
    (out : NGIProject × Option String × Option RunRef)
    (h : processFastq ctx pid pdir sdir sn st fq = .ok out) (hwf : ProjWF st.1) :
    ProjWF out.1 := by
  unfold processFastq at h
  cases hl : ctx.reg.determine_library_prep_from_fcid pid sn ctx.fcid with
  | error e =>
    rw [hl] at h
    exact absurd h (by intro hc; exact Except.noConfusion hc)
  | ok L =>
    rw [hl] at h
    cases h
    exact projWF_modifySample_fastqStep st.1 sn L ctx.fcShort fq hwf

theorem processSample_ok_wf {ctx : FcCtx} {pid pdir : String} {pe : ProjectEntry}
    {entries : List (String × NGIProject)}
    (st : NGIProject × Option RunRef × List RsyncCall) (se : SampleEntry)
    (out : NGIProject × Option RunRef × List RsyncCall)
    (h : processSample ctx pid pdir pe entries st se = .ok out) (hwf : ProjWF st.1) :
    ProjWF out.1 := by
  obtain ⟨p, lr, cs⟩ := st
  by_cases hre : ctx.restrictSamples ≠ [] ∧ normalize_name se.sample_name ∉ ctx.restrictSamples
  · simp only [processSample, if_pos hre] at h
    cases h
    exact hwf
  · simp only [processSample, if_neg hre] at h
    cases hfold : (se.files.filter fastq_pattern_match).foldlM
        (processFastq ctx pid pdir (pjoin pdir (normalize_name se.sample_name))
          (normalize_name se.sample_name))
        (p.add_sample (normalize_name se.sample_name) (normalize_name se.sample_name),
          none, lr) with
    | error e =>
      rw [hfold] at h
      exact absurd h (by intro hc; exact Except.noConfusion hc)
    | ok trip =>
      obtain ⟨p2, sd2, lr2⟩ := trip
      have hwf2 : ProjWF p2 := by
        have := foldlM_ok_preserve
          (P := fun (s : NGIProject × Option String × Option RunRef) => ProjWF s.1)
          (fun s a s' hs hp => processFastq_ok_wf s a s' hs hp)
          (se.files.filter fastq_pattern_match) _ _ hfold
          (projWF_add_sample p _ _ hwf)
        exact this
      rw [hfold] at h
      dsimp only at h
      split at h
      · cases h
        exact hwf2
      · cases lr2 with
        | none => exact absurd h (by intro hc; exact Except.noConfusion hc)
        | some ref =>
          dsimp only at h
          cases hres : resolveRunRef (dictSet entries pdir p2) ref with
          | none =>
            rw [hres] at h
            exact absurd h (by intro hc; exact Except.noConfusion hc)
          | some files =>
            rw [hres] at h
            cases h
            exact hwf2

theorem dictSet_keys (es : List (String × NGIProject)) (key : String) (v : NGIProject)
    (hpresent : es.any (fun e => e.1 == key) = true) :
    (dictSet es key v).map (fun e => e.1) = es.map (fun e => e.1) := by
  unfold dictSet
  rw [if_pos hpresent]
  simp only [List.map_map]
  refine List.map_congr_left fun e _ => ?_
  simp only [Function.comp]
  split
  · rename_i hcond
    exact (beq_iff_eq.mp hcond).symm
  · rfl

theorem entriesWF_dictSet (es : List (String × NGIProject)) (key : String) (v : NGIProject)
    (hWF : EntriesWF es) (hv : ProjWF v) : EntriesWF (dictSet es key v) := by
  cases hany : es.any (fun e => e.1 == key) with
  | true =>
    constructor
    · rw [dictSet_keys es key v hany]
      exact hWF.1
    · intro e he
      unfold dictSet at he
      rw [if_pos hany] at he
      obtain ⟨e0, he0, heq⟩ := List.mem_map.mp he
      subst heq
      split
      · exact hv
      · exact hWF.2 e0 he0
  | false =>
    have hk : key ∉ es.map (fun e => e.1) := by
      intro hmem
      rw [← any_name_eq_mem (fun e => e.1) es key] at hmem
      rw [hany] at hmem
      cases hmem
    unfold dictSet
    rw [hany]
    simp only [Bool.false_eq_true, if_false]
    constructor
    · simp only [List.map_append, List.map_cons, List.map_nil]
      simp [List.nodup_append, hWF.1, hk]
    · intro e he
      rcases List.mem_append.mp he with h1 | h2
      · exact hWF.2 e h1
      · rw [List.mem_singleton.mp h2]
        exact hv

theorem find?_key_of_nodup {es : List (String × NGIProject)}
    (h : (es.map (fun e => e.1)).Nodup) {e : String × NGIProject} (he : e ∈ es) :
    es.find? (fun x => x.1 == e.1) = some e := by
  induction es with
  | nil => exact absurd he (List.not_mem_nil e)
  | cons a tail ih =>
    cases ha : a.1 == e.1 with
    | true =>
      have hae : a = e := by
        rcases List.mem_cons.mp he with h1 | h2
        · exact h1.symm
        · exfalso
          have h1 : a.1 ∈ tail.map (fun e => e.1) :=
            (beq_iff_eq.mp ha) ▸ List.mem_map.mpr ⟨e, h2, rfl⟩
          simp only [List.map_cons, List.nodup_cons] at h
          exact h.1 h1
      simp [List.find?, ha, hae]
    | false =>
      have he2 : e ∈ tail := by
        rcases List.mem_cons.mp he with h1 | h2
        · exfalso
          rw [h1] at ha
          simp at ha
        · exact h2
      simp only [List.find?, ha]
      exact ih (by simp only [List.map_cons, List.nodup_cons] at h; exact h.2) he2

theorem mem_dictSet_self (es : List (String × NGIProject)) (key : String) (v : NGIProject) :
    (key, v) ∈ dictSet es key v := by
  unfold dictSet
  split
  · rename_i hany
    obtain ⟨e0, he0, hp⟩ := List.any_eq_true.mp hany
    exact List.mem_map.mpr ⟨e0, he0, by rw [if_pos hp]⟩
  · exact List.mem_append.mpr (Or.inr (List.mem_singleton.mpr rfl))

theorem mem_dictSet_other (es : List (String × NGIProject)) (key : String) (v : NGIProject)
    {e : String × NGIProject} (he : e ∈ es) (hne : (e.1 == key) = false) :
    e ∈ dictSet es key v := by
  unfold dictSet
  split
  · exact List.mem_map.mpr ⟨e, he, by rw [if_neg (by simp [hne])]⟩
  · exact List.mem_append.mpr (Or.inl he)

theorem processProject_ok_le_wf {ctx : FcCtx} {es : List (String × NGIProject)}
    {lr : Option RunRef} {cs : List RsyncCall} {pe : ProjectEntry}
    {st' : PyVal × Option RunRef × List RsyncCall}
    (h : processProject ctx (.pydict es, lr, cs) pe = .ok st') (hWF : EntriesWF es) :
    ∃ es', st'.1 = .pydict es' ∧ EntriesLe es es' ∧ EntriesWF es' := by
  by_cases hre : ctx.restrictProjects ≠ [] ∧ pe.project_name ∉ ctx.restrictProjects
  · simp only [processProject, if_pos hre] at h
    cases h
    exact ⟨es, rfl, entriesLe_refl es, hWF⟩
  · simp only [processProject, if_neg hre] at h
    cases hreg : ctx.reg.get_project_id_from_name pe.project_name with
    | error e0 =>
      rw [hreg] at h
      cases h
      exact ⟨es, rfl, entriesLe_refl es, hWF⟩
    | ok pid =>
      rw [hreg] at h
      dsimp only at h
      set pdir := pjoin (pjoin ctx.topDir "DATA") pe.project_name with hpdir
      cases hany : es.any (fun e => e.1 == pdir) with
      | true =>
        rw [hany] at h
        simp only [if_true] at h
        set projObj0 := ((es.find? fun e => e.1 == pdir).map (fun e => e.2)).getD
          (fresh_project pe.project_name pid ctx.topDir) with hprojObj0
        have hwf0 : ProjWF projObj0 := by
          rw [hprojObj0]
          rcases hfind : es.find? (fun e => e.1 == pdir) with _ | e0
          · rw [hfind]
            exact ⟨List.nodup_nil, fun s hs => absurd hs (List.not_mem_nil s)⟩
          · rw [hfind]
            exact hWF.2 e0 (List.mem_of_find?_eq_some hfind)
        cases hsfold : pe.samples.foldlM (processSample ctx pid pdir pe es)
            (projObj0, lr, cs) with
        | error e0 =>
          rw [hsfold] at h
          exact absurd h (by intro hc; exact Except.noConfusion hc)
        | ok trip =>
          obtain ⟨p', lr', cs'⟩ := trip
          rw [hsfold] at h
          cases h
          have hle' : ProjLe projObj0 p' := by
            have := foldlM_ok_preserve
              (P := fun (st : NGIProject × Option RunRef × List RsyncCall) =>
                ProjLe projObj0 st.1)
              (fun s a s' hs hp => projLe_trans hp (processSample_ok_le s a s' hs))
              pe.samples _ _ hsfold (projLe_refl projObj0)
            exact this
          have hwf' : ProjWF p' := by
            have := foldlM_ok_preserve
              (P := fun (st : NGIProject × Option RunRef × List RsyncCall) => ProjWF st.1)
              (fun s a s' hs hp => processSample_ok_wf s a s' hs hp)
              pe.samples _ _ hsfold hwf0
            exact this
          refine ⟨dictSet es pdir p', rfl, ?_, entriesWF_dictSet es pdir p' hWF hwf'⟩
          intro e he
          cases hcond : e.1 == pdir with
          | true =>
            have hfind : es.find? (fun x => x.1 == pdir) = some e := by
              have := find?_key_of_nodup hWF.1 he
              rwa [beq_iff_eq.mp hcond] at this
            refine ⟨(pdir, p'), mem_dictSet_self es pdir p', beq_iff_eq.mp hcond, ?_⟩
            have : projObj0 = e.2 := by
              rw [hprojObj0, hfind]
              rfl
            rw [← this]
            exact hle'
          | false =>
            exact ⟨e, mem_dictSet_other es pdir p' he hcond, rfl, projLe_refl e.2⟩
      | false =>
        rw [hany] at h
        simp only [Bool.false_eq_true, if_false] at h
        set esP := es ++ [(pdir, fresh_project pe.project_name pid ctx.topDir)] with hesP
        have hkP : pdir ∉ es.map (fun e => e.1) := by
          intro hmem
          rw [← any_name_eq_mem (fun e => e.1) es pdir, hany] at hmem
          cases hmem
        have hWFP : EntriesWF esP := by
          rw [hesP]
          constructor
          · simp only [List.map_append, List.map_cons, List.map_nil]
            simp [List.nodup_append, hWF.1, hkP]
          · intro e he
            rcases List.mem_append.mp he with h1 | h2
            · exact hWF.2 e h1
            · rw [List.mem_singleton.mp h2]
              exact ⟨List.nodup_nil, fun s hs => absurd hs (List.not_mem_nil s)⟩
        set projObj0 := ((esP.find? fun e => e.1 == pdir).map (fun e => e.2)).getD
          (fresh_project pe.project_name pid ctx.topDir) with hprojObj0
        have hwf0 : ProjWF projObj0 := by
          rw [hprojObj0]
          rcases hfind : esP.find? (fun e => e.1 == pdir) with _ | e0
          · rw [hfind]
            exact ⟨List.nodup_nil, fun s hs => absurd hs (List.not_mem_nil s)⟩
          · rw [hfind]
            exact hWFP.2 e0 (List.mem_of_find?_eq_some hfind)
        cases hsfold : pe.samples.foldlM (processSample ctx pid pdir pe esP)
            (projObj0, lr, cs) with
        | error e0 =>
          rw [hsfold] at h
          exact absurd h (by intro hc; exact Except.noConfusion hc)
        | ok trip =>
          obtain ⟨p', lr', cs'⟩ := trip
          rw [hsfold] at h
          cases h
          have hwf' : ProjWF p' := by
            have := foldlM_ok_preserve
              (P := fun (st : NGIProject × Option RunRef × List RsyncCall) => ProjWF st.1)
              (fun s a s' hs hp => processSample_ok_wf s a s' hs hp)
              pe.samples _ _ hsfold hwf0
            exact this
          refine ⟨dictSet esP pdir p', rfl, ?_, entriesWF_dictSet esP pdir p' hWFP hwf'⟩
          intro e he
          have hcond : (e.1 == pdir) = false := by
        
            cases hc : e.1 == pdir with
            | true =>
              exfalso
              exact hkP ((beq_iff_eq.mp hc) ▸ List.mem_map.mpr ⟨e, he, rfl⟩)
            | false => rfl
          refine ⟨e, ?_, rfl, projLe_refl e.2⟩
          exact mem_dictSet_other esP pdir p' (List.mem_append.mpr (Or.inl he)) hcond

theorem foldlM_ok_mono {σ α : Type} {step : σ → α → Except PyError σ}
    {P : σ → Prop} {Q : σ → Prop}
    (hP : ∀ s a s', step s a = .ok s' → P s → P s')
    (hQ : ∀ s b s', step s b = .ok s' → P s → Q s → Q s') :
    ∀ (l : List α) (s0 sF : σ), l.foldlM step s0 = .ok sF → P s0 → Q s0 → Q sF := by
  intro l
  induction l with
  | nil =>
    intro s0 sF h hp hq
    rw [List.foldlM_nil] at h
    cases h
    exact hq
  | cons b l ih =>
    intro s0 sF h hp hq
    obtain ⟨s1, h1, h2⟩ := foldlM_ok_cons h
    exact ih s1 sF h2 (hP s0 b s1 h1 hp) (hQ s0 b s1 h1 hp hq)

theorem foldlM_ok_insert {σ α : Type} {step : σ → α → Except PyError σ}
    {P : σ → Prop} {Q : α → σ → Prop}
    (hP : ∀ s a s', step s a = .ok s' → P s → P s')
    (hQmono : ∀ s b s', step s b = .ok s' → P s → ∀ a, Q a s → Q a s')
    (hins : ∀ s a s', step s a = .ok s' → P s → Q a s') :
    ∀ (l : List α) (s0 sF : σ), l.foldlM step s0 = .ok sF → P s0 → ∀ a ∈ l, Q a sF := by
  intro l
  induction l with
  | nil =>
    intro s0 sF h hp a ha
    exact absurd ha (List.not_mem_nil a)
  | cons b l ih =>
    intro s0 sF h hp a ha
    obtain ⟨s1, h1, h2⟩ := foldlM_ok_cons h
    rcases List.mem_cons.mp ha with h3 | h3
    · subst h3
      exact foldlM_ok_mono hP (fun s c s' hs hps => hQmono s c s' hs hps a) l s1 sF h2
        (hP s0 a s1 h1 hp) (hins s0 a s1 h1 hp)
    · exact ih s1 sF h2 (hP s0 b s1 h1 hp) a h3

/-- What the first pass records for one sample entry: whenever the entry
lists fastq-matching files the libprep lookup succeeds, and the project holds
a sample node of the normalized name that absorbs every such file under the
looked-up libprep and the flowcell's short run id. -/
def SeAbsorbed (reg : Charon) (fcid fcShort pid : String) (se : SampleEntry)
    (p : NGIProject) : Prop :=
  (se.files.filter fastq_pattern_match ≠ [] →
    ∃ L, reg.determine_library_prep_from_fcid pid (normalize_name se.sample_name) fcid
      = .ok L) ∧
  ∃ s ∈ p.samples, s.name = normalize_name se.sample_name ∧
    ∀ L, reg.determine_library_prep_from_fcid pid (normalize_name se.sample_name) fcid
        = .ok L →
      ∀ fq ∈ se.files.filter fastq_pattern_match, SampleAbsorbs L fcShort fq s

/-- What the first pass records for one project entry: if the project-id
lookup succeeds, the accumulator holds the project's destination key and all
its sample entries are absorbed. -/
def PeAbsorbed (reg : Charon) (top fcid fcShort : String) (pe : ProjectEntry)
    (es : List (String × NGIProject)) : Prop :=
  ∀ pid, reg.get_project_id_from_name pe.project_name = .ok pid →
    ∃ p, (pjoin (pjoin top "DATA") pe.project_name, p) ∈ es ∧
      ∀ se ∈ pe.samples, SeAbsorbed reg fcid fcShort pid se p

/-- What the first pass records for one whole manifest. -/
def MAbsorbed (reg : Charon) (config : NGIConfig) (m : FCDirStructure)
    (es : List (String × NGIProject)) : Prop :=
  ∀ pe ∈ m.projects,
    PeAbsorbed reg config.top_dir m.fc_name (m.fc_date ++ "_" ++ m.fc_name) pe es

theorem seAbsorbed_mono {reg : Charon} {fcid fcShort pid : String} {se : SampleEntry}
    {p p' : NGIProject} (h : SeAbsorbed reg fcid fcShort pid se p) (hle : ProjLe p p') :
    SeAbsorbed reg fcid fcShort pid se p' := by
  obtain ⟨hreg, s, hs, hname, habs⟩ := h
  obtain ⟨t, ht, hst⟩ := hle.2 s hs
  exact ⟨hreg, t, ht, hst.1 ▸ hname, fun L hL fq hfq => sampleAbsorbs_mono (habs L hL fq hfq) hst⟩

theorem peAbsorbed_mono {reg : Charon} {top fcid fcShort : String} {pe : ProjectEntry}
    {es es' : List (String × NGIProject)} (h : PeAbsorbed reg top fcid fcShort pe es)
    (hle : EntriesLe es es') : PeAbsorbed reg top fcid fcShort pe es' := by
  intro pid hpid
  obtain ⟨p, hp, hse⟩ := h pid hpid
  obtain ⟨e', he', hk, hple⟩ := hle (pjoin (pjoin top "DATA") pe.project_name, p) hp
  obtain ⟨k', p'⟩ := e'
  have hk2 : pjoin (pjoin top "DATA") pe.project_name = k' := hk
  subst hk2
  exact ⟨p', he', fun se hsein => seAbsorbed_mono (hse se hsein) hple⟩

theorem mAbsorbed_mono {reg : Charon} {config : NGIConfig} {m : FCDirStructure}
    {es es' : List (String × NGIProject)} (h : MAbsorbed reg config m es)
    (hle : EntriesLe es es') : MAbsorbed reg config m es' :=
  fun pe hpe => peAbsorbed_mono (h pe hpe) hle

theorem exists_name_add_seqrun (lp : LibraryPrep) (k d : String) :
    ∃ r ∈ (lp.add_seqrun k d).seqruns, r.name = k := by
  unfold LibraryPrep.add_seqrun
  split
  · rename_i hany
    obtain ⟨r, hr, hp⟩ := List.any_eq_true.mp hany
    exact ⟨r, hr, beq_iff_eq.mp hp⟩
  · exact ⟨_, List.mem_append.mpr (Or.inr (List.mem_singleton.mpr rfl)), rfl⟩

theorem exists_name_add_libprep (s : NGISample) (L d : String) :
    ∃ lp ∈ (s.add_libprep L d).libpreps, lp.name = L := by
  unfold NGISample.add_libprep
  split
  · rename_i hany
    obtain ⟨lp, hlp, hp⟩ := List.any_eq_true.mp hany
    exact ⟨lp, hlp, beq_iff_eq.mp hp⟩
  · exact ⟨_, List.mem_append.mpr (Or.inr (List.mem_singleton.mpr rfl)), rfl⟩

theorem mem_add_fastq_self (r : SequencingRun) (fq : String) :
    fq ∈ (r.add_fastq_files fq).fastq_files := by
  unfold SequencingRun.add_fastq_files
  split
  · rename_i h
    exact h
  · exact List.mem_append.mpr (Or.inr (List.mem_singleton.mpr rfl))

theorem absorbs_fastqStep (L k fq : String) (s : NGISample) :
    SampleAbsorbs L k fq (fastqStep L k fq s) := by
  obtain ⟨lp, hlp, hname⟩ := exists_name_add_libprep s L L
  refine ⟨(lp.add_seqrun k k).modifySeqrun k (fun r => r.add_fastq_files fq), ?_, ?_, ?_⟩
  · show _ ∈ ((s.add_libprep L L).modifyLibprep L _).libpreps
    exact List.mem_map.mpr ⟨lp, hlp, by rw [if_pos (beq_iff_eq.mpr hname)]⟩
  · rw [add_seqrun_modify_name]
    exact hname
  · obtain ⟨r, hr, hrname⟩ := exists_name_add_seqrun lp k k
    refine ⟨r.add_fastq_files fq, ?_, ?_, mem_add_fastq_self r fq⟩
    · exact List.mem_map.mpr ⟨r, hr, by rw [if_pos (beq_iff_eq.mpr hrname)]⟩
    · rw [add_fastq_name]
      exact hrname

theorem exists_name_mono {p p' : NGIProject} {sn : String}
    (h : ∃ s ∈ p.samples, s.name = sn) (hle : ProjLe p p') :
    ∃ s ∈ p'.samples, s.name = sn := by
  obtain ⟨s, hs, hname⟩ := h
  obtain ⟨t, ht, hst⟩ := hle.2 s hs
  exact ⟨t, ht, hst.1 ▸ hname⟩

theorem exists_absorb_mono {p p' : NGIProject} {sn L k fq : String}
    (h : ∃ s ∈ p.samples, s.name = sn ∧ SampleAbsorbs L k fq s) (hle : ProjLe p p') :
    ∃ s ∈ p'.samples, s.name = sn ∧ SampleAbsorbs L k fq s := by
  obtain ⟨s, hs, hname, habs⟩ := h
  obtain ⟨t, ht, hst⟩ := hle.2 s hs
  exact ⟨t, ht, hst.1 ▸ hname, sampleAbsorbs_mono habs hst⟩

theorem processFastq_ok_registry {ctx : FcCtx} {pid pdir sdir sn : String}
    {st out : NGIProject × Option String × Option RunRef} {fq : String}
    (h : processFastq ctx pid pdir sdir sn st fq = .ok out) :
    ∃ L, ctx.reg.determine_library_prep_from_fcid pid sn ctx.fcid = .ok L := by
  unfold processFastq at h
  cases hl : ctx.reg.determine_library_prep_from_fcid pid sn ctx.fcid with
  | error e =>
    rw [hl] at h
    exact absurd h (by intro hc; exact Except.noConfusion hc)
  | ok L => exact ⟨L, rfl⟩

theorem processFastq_ok_insert {ctx : FcCtx} {pid pdir sdir sn : String}
    {st out : NGIProject × Option String × Option RunRef} {fq L : String}
    (h : processFastq ctx pid pdir sdir sn st fq = .ok out)
    (hL : ctx.reg.determine_library_prep_from_fcid pid sn ctx.fcid = .ok L)
    (hs : ∃ s ∈ st.1.samples, s.name = sn) :
    ∃ s ∈ out.1.samples, s.name = sn ∧ SampleAbsorbs L ctx.fcShort fq s := by
  unfold processFastq at h
  rw [hL] at h
  cases h
  obtain ⟨s, hsin, hname⟩ := hs
  refine ⟨fastqStep L ctx.fcShort fq s, ?_, ?_, absorbs_fastqStep L ctx.fcShort fq s⟩
  · show _ ∈ (st.1.modifySample sn (fastqStep L ctx.fcShort fq)).samples
    exact List.mem_map.mpr ⟨s, hsin, by rw [if_pos (beq_iff_eq.mpr hname)]⟩
  · rw [fastqStep_name]
    exact hname

theorem foldFiles_ok_absorb {ctx : FcCtx} {pid pdir sdir sn L : String}
    (hL : ctx.reg.determine_library_prep_from_fcid pid sn ctx.fcid = .ok L)
    (fs : List String) (st0 stF : NGIProject × Option String × Option RunRef)
    (h : fs.foldlM (processFastq ctx pid pdir sdir sn) st0 = .ok stF)
    (h0 : ∃ s ∈ st0.1.samples, s.name = sn) :
    ∀ fq ∈ fs, ∃ s ∈ stF.1.samples, s.name = sn ∧ SampleAbsorbs L ctx.fcShort fq s :=
  foldlM_ok_insert
    (P := fun st => ∃ s ∈ st.1.samples, s.name = sn)
    (Q := fun fq st => ∃ s ∈ st.1.samples, s.name = sn ∧ SampleAbsorbs L ctx.fcShort fq s)
    (fun s a s' hs hp => exists_name_mono hp (processFastq_ok_le s a s' hs))
    (fun s b s' hs _ a ha => exists_absorb_mono ha (processFastq_ok_le s b s' hs))
    (fun s a s' hs hp => processFastq_ok_insert hs hL hp)
    fs st0 stF h h0

theorem samples_name_unique {p : NGIProject} (hwf : ProjWF p) {s t : NGISample}
    (hs : s ∈ p.samples) (ht : t ∈ p.samples) (h : s.name = t.name) : s = t :=
  List.inj_on_of_nodup_map hwf.1 hs ht h

theorem processSample_ok_absorb {ctx : FcCtx} {pid pdir : String} {pe : ProjectEntry}
    {entries : List (String × NGIProject)}
    (hrs : ctx.restrictSamples = [])
    (st : NGIProject × Option RunRef × List RsyncCall) (se : SampleEntry)
    (out : NGIProject × Option RunRef × List RsyncCall)
    (h : processSample ctx pid pdir pe entries st se = .ok out) (hwf : ProjWF st.1) :
    SeAbsorbed ctx.reg ctx.fcid ctx.fcShort pid se out.1 := by
  obtain ⟨p, lr, cs⟩ := st
  have hre : ¬(ctx.restrictSamples ≠ [] ∧
      normalize_name se.sample_name ∉ ctx.restrictSamples) := by
    simp [hrs]
  simp only [processSample, if_neg hre] at h
  cases hfold : (se.files.filter fastq_pattern_match).foldlM
      (processFastq ctx pid pdir (pjoin pdir (normalize_name se.sample_name))
        (normalize_name se.sample_name))
      (p.add_sample (normalize_name se.sample_name) (normalize_name se.sample_name),
        none, lr) with
  | error e =>
    rw [hfold] at h
    exact absurd h (by intro hc; exact Except.noConfusion hc)
  | ok trip =>
    obtain ⟨p2, sd2, lr2⟩ := trip
    have hout : out.1 = p2 := by
      rw [hfold] at h
      dsimp only at h
      split at h
      · cases h
        rfl
      · cases lr2 with
        | none => exact absurd h (by intro hc; exact Except.noConfusion hc)
        | some ref =>
          dsimp only at h
          cases hres : resolveRunRef (dictSet entries pdir p2) ref with
          | none =>
            rw [hres] at h
            exact absurd h (by intro hc; exact Except.noConfusion hc)
          | some files =>
            rw [hres] at h
            cases h
            rfl
    have hregpart : se.files.filter fastq_pattern_match ≠ [] →
        ∃ L, ctx.reg.determine_library_prep_from_fcid pid
          (normalize_name se.sample_name) ctx.fcid = .ok L := by
      intro hne
      obtain ⟨fq, fs, hcons⟩ := List.exists_cons_of_ne_nil hne
      rw [hcons] at hfold
      obtain ⟨s1, h1, _⟩ := foldlM_ok_cons hfold
      exact processFastq_ok_registry h1
    have hnm : ∃ s ∈ p2.samples, s.name = normalize_name se.sample_name := by
      have hbase := exists_name_add_sample p (normalize_name se.sample_name)
        (normalize_name se.sample_name)
      have := foldlM_ok_preserve
        (P := fun (s : NGIProject × Option String × Option RunRef) =>
          ∃ t ∈ s.1.samples, t.name = normalize_name se.sample_name)
        (fun s a s' hs hp => exists_name_mono hp (processFastq_ok_le s a s' hs))
        (se.files.filter fastq_pattern_match) _ _ hfold hbase
      exact this
    have hwf2 : ProjWF p2 := by
      have := foldlM_ok_preserve
        (P := fun (s : NGIProject × Option String × Option RunRef) => ProjWF s.1)
        (fun s a s' hs hp => processFastq_ok_wf s a s' hs hp)
        (se.files.filter fastq_pattern_match) _ _ hfold
        (projWF_add_sample p _ _ hwf)
      exact this
    obtain ⟨s, hsin, hname⟩ := hnm
    rw [hout]
    refine ⟨hregpart, s, hsin, hname, ?_⟩
    intro L hL fq hfq
    obtain ⟨s', hs'in, hs'name, habs⟩ := foldFiles_ok_absorb hL
      (se.files.filter fastq_pattern_match) _ _ hfold
      (exists_name_add_sample p (normalize_name se.sample_name)
        (normalize_name se.sample_name)) fq hfq
    have : s' = s := samples_name_unique hwf2 hs'in hsin (by rw [hs'name, hname])
    rw [← this]
    exact habs

theorem entriesWF_maybe_append (es : List (String × NGIProject)) (key : String)
    (v : NGIProject) (hWF : EntriesWF es) (hv : ProjWF v) :
    EntriesWF (if es.any (fun e => e.1 == key) then es else es ++ [(key, v)]) := by
  split
  · exact hWF
  · rename_i hany
    have hk : key ∉ es.map (fun e => e.1) := by
      intro hmem
      rw [← any_name_eq_mem (fun e => e.1) es key] at hmem
      exact absurd hmem (by simpa using hany)
    constructor
    · simp only [List.map_append, List.map_cons, List.map_nil]
      simp [List.nodup_append, hWF.1, hk]
    · intro e he
      rcases List.mem_append.mp he with h1 | h2
      · exact hWF.2 e h1
      · rw [List.mem_singleton.mp h2]
        exact hv

theorem projWF_fresh (name pid top : String) : ProjWF (fresh_project name pid top) :=
  ⟨List.nodup_nil, fun s hs => absurd hs (List.not_mem_nil s)⟩

theorem processProject_ok_absorb {ctx : FcCtx} {es : List (String × NGIProject)}
    {lr : Option RunRef} {cs : List RsyncCall} {pe : ProjectEntry}
    {st' : PyVal × Option RunRef × List RsyncCall}
    (hrp : ctx.restrictProjects = []) (hrs : ctx.restrictSamples = [])
    (h : processProject ctx (.pydict es, lr, cs) pe = .ok st') (hWF : EntriesWF es) :
    ∀ es', st'.1 = .pydict es' →
      PeAbsorbed ctx.reg ctx.topDir ctx.fcid ctx.fcShort pe es' := by
  have hre : ¬(ctx.restrictProjects ≠ [] ∧ pe.project_name ∉ ctx.restrictProjects) := by
    simp [hrp]
  simp only [processProject, if_neg hre] at h
  cases hreg : ctx.reg.get_project_id_from_name pe.project_name with
  | error e0 =>
    intro es' hes' pid hpid
    rw [hreg] at hpid
    exact absurd hpid (by intro hc; exact Except.noConfusion hc)
  | ok pid0 =>
    rw [hreg] at h
    dsimp only at h
    set pdir := pjoin (pjoin ctx.topDir "DATA") pe.project_name with hpdir
    set E := if es.any (fun e => e.1 == pdir) then es
      else es ++ [(pdir, fresh_project pe.project_name pid0 ctx.topDir)] with hE
    have hWFE : EntriesWF E := by
      rw [hE]
      exact entriesWF_maybe_append es pdir _ hWF (projWF_fresh _ _ _)
    set projObj0 := ((E.find? fun e => e.1 == pdir).map (fun e => e.2)).getD
      (fresh_project pe.project_name pid0 ctx.topDir) with hprojObj0
    have hwf0 : ProjWF projObj0 := by
      rw [hprojObj0]
      rcases hfind : E.find? (fun e => e.1 == pdir) with _ | e0
      · rw [hfind]
        exact projWF_fresh _ _ _
      · rw [hfind]
        exact hWFE.2 e0 (List.mem_of_find?_eq_some hfind)
    cases hsfold : pe.samples.foldlM (processSample ctx pid0 pdir pe E)
        (projObj0, lr, cs) with
    | error e0 =>
      rw [hsfold] at h
      exact absurd h (by intro hc; exact Except.noConfusion hc)
    | ok trip =>
      obtain ⟨p', lr', cs'⟩ := trip
      rw [hsfold] at h
      cases h
      intro es' hes' pid hpid
      have hpid0 : pid = pid0 := by
        rw [hreg] at hpid
        exact (Except.ok.inj hpid).symm
      subst hpid0
      have hes'' : es' = dictSet E pdir p' := (PyVal.pydict.inj hes').symm
      subst hes''
      refine ⟨p', mem_dictSet_self E pdir p', ?_⟩
      intro se hsein
      have := foldlM_ok_insert
        (P := fun (st : NGIProject × Option RunRef × List RsyncCall) => ProjWF st.1)
        (Q := fun se (st : NGIProject × Option RunRef × List RsyncCall) =>
          SeAbsorbed ctx.reg ctx.fcid ctx.fcShort pid se st.1)
        (fun s a s' hs hp => processSample_ok_wf s a s' hs hp)
        (fun s b s' hs _ a ha => seAbsorbed_mono ha (processSample_ok_le s b s' hs))
        (fun s a s' hs hp => processSample_ok_absorb hrs s a s' hs hp)
        pe.samples _ _ hsfold hwf0 se hsein
      exact this

theorem processProject_pylist {ctx : FcCtx} {xs : List NGIProject} {lr : Option RunRef}
    {cs : List RsyncCall} {pe : ProjectEntry} {st' : PyVal × Option RunRef × List RsyncCall}
    (h : processProject ctx (.pylist xs, lr, cs) pe = .ok st') :
    st' = (.pylist xs, lr, cs) := by
  by_cases hre : ctx.restrictProjects ≠ [] ∧ pe.project_name ∉ ctx.restrictProjects
  · simp only [processProject, if_pos hre] at h
    cases h
    rfl
  · simp only [processProject, if_neg hre] at h
    cases hreg : ctx.reg.get_project_id_from_name pe.project_name with
    | error e0 =>
      rw [hreg] at h
      cases h
      rfl
    | ok pid =>
      rw [hreg] at h
      dsimp only at h
      exact absurd h (by intro hc; exact Except.noConfusion hc)

theorem foldProjects_ok_le_wf {ctx : FcCtx} :
    ∀ (pes : List ProjectEntry) (es : List (String × NGIProject)) (lr : Option RunRef)
      (cs : List RsyncCall) (st' : PyVal × Option RunRef × List RsyncCall),
      pes.foldlM (processProject ctx) (.pydict es, lr, cs) = .ok st' → EntriesWF es →
      ∃ es', st'.1 = .pydict es' ∧ EntriesLe es es' ∧ EntriesWF es' := by
  intro pes
  induction pes with
  | nil =>
    intro es lr cs st' h hwf
    rw [List.foldlM_nil] at h
    cases h
    exact ⟨es, rfl, entriesLe_refl es, hwf⟩
  | cons pe pes ih =>
    intro es lr cs st' h hwf
    obtain ⟨mid, h1, h2⟩ := foldlM_ok_cons h
    obtain ⟨es1, hmid1, hle1, hwf1⟩ := processProject_ok_le_wf h1 hwf
    obtain ⟨pv1, lr1, cs1⟩ := mid
    have hpv1 : pv1 = .pydict es1 := hmid1
    subst hpv1
    obtain ⟨es2, h', hle2, hwf2⟩ := ih es1 lr1 cs1 st' h2 hwf1
    exact ⟨es2, h', entriesLe_trans hle1 hle2, hwf2⟩

theorem foldProjects_ok_absorb {ctx : FcCtx}
    (hrp : ctx.restrictProjects = []) (hrs : ctx.restrictSamples = [])
    (pes : List ProjectEntry) (es : List (String × NGIProject)) (lr : Option RunRef)
    (cs : List RsyncCall) (st' : PyVal × Option RunRef × List RsyncCall)
    (h : pes.foldlM (processProject ctx) (.pydict es, lr, cs) = .ok st')
    (hwf : EntriesWF es) :
    ∀ pe ∈ pes, ∀ es', st'.1 = .pydict es' →
      PeAbsorbed ctx.reg ctx.topDir ctx.fcid ctx.fcShort pe es' := by
  refine foldlM_ok_insert
    (P := fun (st : PyVal × Option RunRef × List RsyncCall) =>
      ∀ es0, st.1 = .pydict es0 → EntriesWF es0)
    (Q := fun pe (st : PyVal × Option RunRef × List RsyncCall) =>
      ∀ es0, st.1 = .pydict es0 →
        PeAbsorbed ctx.reg ctx.topDir ctx.fcid ctx.fcShort pe es0)
    ?_ ?_ ?_ pes _ _ h ?_
  · intro s a s' hs hp
    obtain ⟨pv, lr0, cs0⟩ := s
    cases pv with
    | pylist xs =>
      rw [processProject_pylist hs]
      exact hp
    | pydict es0 =>
      obtain ⟨es1, hs1, _, hwf1⟩ := processProject_ok_le_wf hs (hp es0 rfl)
      intro es2 hes2
      rw [hs1] at hes2
      rw [← PyVal.pydict.inj hes2]
      exact hwf1
  · intro s b s' hs hp a ha
    obtain ⟨pv, lr0, cs0⟩ := s
    cases pv with
    | pylist xs =>
      rw [processProject_pylist hs]
      exact ha
    | pydict es0 =>
      obtain ⟨es1, hs1, hle1, _⟩ := processProject_ok_le_wf hs (hp es0 rfl)
      intro es2 hes2
      rw [hs1] at hes2
      rw [← PyVal.pydict.inj hes2]
      exact peAbsorbed_mono (ha es0 rfl) hle1
  · intro s a s' hs hp
    obtain ⟨pv, lr0, cs0⟩ := s
    cases pv with
    | pylist xs =>
      rw [processProject_pylist hs]
      intro es0 hes0
      exact absurd hes0 (by intro hc; exact PyVal.noConfusion hc)
    | pydict es0 =>
      exact processProject_ok_absorb hrp hrs hs (hp es0 rfl)
  · intro es0 hes0
    rw [← PyVal.pydict.inj hes0]
    exact hwf

theorem build_eq (reg : Charon) (config : NGIConfig) (m : FCDirStructure)
    (pv : PyVal) (rP rS : List String) :
    build_from_structure reg config m pv rP rS =
      match m.projects.foldlM (processProject (mkCtx reg config m rP rS))
          (pv, none, []) with
      | .error e => .error e
      | .ok (pv', _, calls) => .ok (pv', calls) := rfl

theorem build_ok_wf_absorb {reg : Charon} {config : NGIConfig} {m : FCDirStructure}
    {es : List (String × NGIProject)} {pv' : PyVal} {calls : List RsyncCall}
    (h : build_from_structure reg config m (.pydict es) [] [] = .ok (pv', calls))
    (hWF : EntriesWF es) :
    ∃ es', pv' = .pydict es' ∧ EntriesLe es es' ∧ EntriesWF es' ∧
      MAbsorbed reg config m es' := by
  rw [build_eq] at h
  cases hfold : m.projects.foldlM (processProject (mkCtx reg config m [] []))
      (.pydict es, none, []) with
  | error e =>
    rw [hfold] at h
    exact absurd h (by intro hc; exact Except.noConfusion hc)
  | ok trip =>
    obtain ⟨pvF, lrF, csF⟩ := trip
    rw [hfold] at h
    cases h
    obtain ⟨es', hes', hle, hwf'⟩ := foldProjects_ok_le_wf m.projects es none [] _ hfold hWF
    have hes'2 : pv' = .pydict es' := hes'
    subst hes'2
    refine ⟨es', rfl, hle, hwf', ?_⟩
    intro pe hpe
    exact foldProjects_ok_absorb rfl rfl m.projects es none [] _ hfold hWF pe hpe es' rfl

/-- Modelled from the spec: the orchestrator's accumulation of one shared
tree across flowcells (`flowcell.py:62-66`), restricted to already-parsed
manifests and without project or sample restrictions: fold the builder over
the manifest list, threading the accumulator dict. -/
def buildManifests (reg : Charon) (config : NGIConfig) :
    PyVal → List FCDirStructure → Except PyError PyVal
  | pv, [] => .ok pv
  | pv, m :: ms =>
    match build_from_structure reg config m pv [] [] with
    | .error e => .error e
    | .ok (pv', _) => buildManifests reg config pv' ms

theorem buildManifests_ok_wf_absorb {reg : Charon} {config : NGIConfig} :
    ∀ (ms : List FCDirStructure) (es : List (String × NGIProject)) (pvF : PyVal),
      buildManifests reg config (.pydict es) ms = .ok pvF → EntriesWF es →
      ∃ esF, pvF = .pydict esF ∧ EntriesLe es esF ∧ EntriesWF esF ∧
        ∀ m ∈ ms, MAbsorbed reg config m esF := by
  intro ms
  induction ms with
  | nil =>
    intro es pvF h hwf
    cases h
    exact ⟨es, rfl, entriesLe_refl es, hwf, fun m hm => absurd hm (List.not_mem_nil m)⟩
  | cons m ms ih =>
    intro es pvF h hwf
    unfold buildManifests at h
    cases hb : build_from_structure reg config m (.pydict es) [] [] with
    | error e =>
      rw [hb] at h
      exact absurd h (by intro hc; exact Except.noConfusion hc)
    | ok pr =>
      obtain ⟨pv1, calls1⟩ := pr
      rw [hb] at h
      dsimp only at h
      obtain ⟨es1, hpv1, hle1, hwf1, hm1⟩ := build_ok_wf_absorb hb hwf
      subst hpv1
      obtain ⟨esF, hpvF, hle2, hwf2, hms⟩ := ih es1 pvF h hwf1
      refine ⟨esF, hpvF, entriesLe_trans hle1 hle2, hwf2, ?_⟩
      intro m' hm'
      rcases List.mem_cons.mp hm' with h1 | h1
      · subst h1
        exact mAbsorbed_mono hm1 hle2
      · exact hms m' h1

theorem modifySeqrun_fix (lp : LibraryPrep) (k : String) (f : SequencingRun → SequencingRun)
    (hf : ∀ r ∈ lp.seqruns, r.name = k → f r = r) : lp.modifySeqrun k f = lp := by
  unfold LibraryPrep.modifySeqrun
  have h2 : lp.seqruns.map (fun r => if r.name == k then f r else r) =
      lp.seqruns.map id :=
    List.map_congr_left fun r hr => by
      split
      · rename_i hc
        exact hf r hr (beq_iff_eq.mp hc)
      · rfl
  rw [h2, List.map_id]

theorem modifyLibprep_fix (s : NGISample) (n : String) (f : LibraryPrep → LibraryPrep)
    (hf : ∀ lp ∈ s.libpreps, lp.name = n → f lp = lp) : s.modifyLibprep n f = s := by
  unfold NGISample.modifyLibprep
  have h2 : s.libpreps.map (fun lp => if lp.name == n then f lp else lp) =
      s.libpreps.map id :=
    List.map_congr_left fun lp hlp => by
      split
      · rename_i hc
        exact hf lp hlp (beq_iff_eq.mp hc)
      · rfl
  rw [h2, List.map_id]

theorem modifySample_fix (p : NGIProject) (n : String) (f : NGISample → NGISample)
    (hf : ∀ s ∈ p.samples, s.name = n → f s = s) : p.modifySample n f = p := by
  unfold NGIProject.modifySample
  have h2 : p.samples.map (fun s => if s.name == n then f s else s) =
      p.samples.map id :=
    List.map_congr_left fun s hs => by
      split
      · rename_i hc
        exact hf s hs (beq_iff_eq.mp hc)
      · rfl
  rw [h2, List.map_id]

theorem lp_fix (lp : LibraryPrep) (k d fq : String) (hwf : LpWF lp)
    (habs : ∃ r ∈ lp.seqruns, r.name = k ∧ fq ∈ r.fastq_files) :
    (lp.add_seqrun k d).modifySeqrun k (fun r => r.add_fastq_files fq) = lp := by
  obtain ⟨r0, hr0, hr0name, hr0fq⟩ := habs
  have hany : lp.seqruns.any (fun r => r.name == k) = true :=
    List.any_eq_true.mpr ⟨r0, hr0, beq_iff_eq.mpr hr0name⟩
  have hadd : lp.add_seqrun k d = lp := by
    unfold LibraryPrep.add_seqrun
    rw [if_pos hany]
  rw [hadd]
  refine modifySeqrun_fix lp k _ fun r hr hname => ?_
  have heq : r = r0 :=
    List.inj_on_of_nodup_map hwf.1 hr hr0 (by rw [hname, hr0name])
  rw [heq]
  unfold SequencingRun.add_fastq_files
  rw [if_pos hr0fq]

theorem fastqStep_fix (L k fq : String) (s : NGISample) (hwf : SampleWF s)
    (habs : SampleAbsorbs L k fq s) : fastqStep L k fq s = s := by
  obtain ⟨lp0, hlp0, hlp0name, hrun⟩ := habs
  have hany : s.libpreps.any (fun lp => lp.name == L) = true :=
    List.any_eq_true.mpr ⟨lp0, hlp0, beq_iff_eq.mpr hlp0name⟩
  have hadd : s.add_libprep L L = s := by
    unfold NGISample.add_libprep
    rw [if_pos hany]
  unfold fastqStep
  rw [hadd]
  refine modifyLibprep_fix s L _ fun lp hlp hname => ?_
  have heq : lp = lp0 :=
    List.inj_on_of_nodup_map hwf.1 hlp hlp0 (by rw [hname, hlp0name])
  rw [heq]
  exact lp_fix lp0 k k fq (hwf.2 lp0 hlp0) hrun

theorem add_sample_fix (p : NGIProject) (n d : String)
    (h : ∃ s ∈ p.samples, s.name = n) : p.add_sample n d = p := by
  obtain ⟨s, hs, hname⟩ := h
  have hany : p.samples.any (fun s => s.name == n) = true :=
    List.any_eq_true.mpr ⟨s, hs, beq_iff_eq.mpr hname⟩
  unfold NGIProject.add_sample
  rw [if_pos hany]

theorem key_unique {es : List (String × NGIProject)}
    (hnd : (es.map (fun e => e.1)).Nodup) {e e' : String × NGIProject}
    (he : e ∈ es) (he' : e' ∈ es) (h : e.1 = e'.1) : e = e' :=
  List.inj_on_of_nodup_map hnd he he' h

theorem dictSet_fix (es : List (String × NGIProject)) (key : String) (v : NGIProject)
    (hmem : (key, v) ∈ es) (hnd : (es.map (fun e => e.1)).Nodup) :
    dictSet es key v = es := by
  have hany : es.any (fun e => e.1 == key) = true :=
    List.any_eq_true.mpr ⟨(key, v), hmem, beq_self_eq_true key⟩
  unfold dictSet
  rw [if_pos hany]
  have h2 : es.map (fun e => if e.1 == key then (key, v) else e) = es.map id :=
    List.map_congr_left fun e he => by
      split
      · rename_i hc
        have heq : e = (key, v) := key_unique hnd he hmem (beq_iff_eq.mp hc)
        rw [heq]
        rfl
      · rfl
  rw [h2, List.map_id]

theorem find?_name_of_nodup {α : Type} (nm : α → String) {l : List α}
    (h : (l.map nm).Nodup) {x : α} (hx : x ∈ l) :
    l.find? (fun y => nm y == nm x) = some x := by
  induction l with
  | nil => exact absurd hx (List.not_mem_nil x)
  | cons a tail ih =>
    cases ha : nm a == nm x with
    | true =>
      have hae : a = x := by
        rcases List.mem_cons.mp hx with h1 | h2
        · exact h1.symm
        · exfalso
          have h1 : nm a ∈ tail.map nm :=
            (beq_iff_eq.mp ha) ▸ List.mem_map.mpr ⟨x, h2, rfl⟩
          simp only [List.map_cons, List.nodup_cons] at h
          exact h.1 h1
      simp [List.find?, ha, hae]
    | false =>
      have hx2 : x ∈ tail := by
        rcases List.mem_cons.mp hx with h1 | h2
        · exfalso
          rw [h1] at ha
          simp at ha
        · exact h2
      simp only [List.find?, ha]
      exact ih (by simp only [List.map_cons, List.nodup_cons] at h; exact h.2) hx2

theorem resolveRunRef_some {es : List (String × NGIProject)} {p : NGIProject}
    {s : NGISample} {lp : LibraryPrep} {r : SequencingRun} {pdir sn L k : String}
    (hWF : EntriesWF es) (hp : (pdir, p) ∈ es)
    (hs : s ∈ p.samples) (hsn : s.name = sn)
    (hlp : lp ∈ s.libpreps) (hL : lp.name = L)
    (hr : r ∈ lp.seqruns) (hk : r.name = k) :
    resolveRunRef es ⟨pdir, sn, L, k⟩ = some r.fastq_files := by
  have hwfp : ProjWF p := hWF.2 (pdir, p) hp
  have hwfs : SampleWF s := hwfp.2 s hs
  have hwflp : LpWF lp := hwfs.2 lp hlp
  have h1 : es.find? (fun e => e.1 == pdir) = some (pdir, p) :=
    find?_key_of_nodup hWF.1 hp
  have h2 : p.samples.find? (fun t => t.name == sn) = some s := by
    have := find?_name_of_nodup (fun t => t.name) hwfp.1 hs
    simp only [] at this
    rwa [hsn] at this
  have h3 : s.libpreps.find? (fun q => q.name == L) = some lp := by
    have := find?_name_of_nodup (fun q => q.name) hwfs.1 hlp
    simp only [] at this
    rwa [hL] at this
  have h4 : lp.seqruns.find? (fun u => u.name == k) = some r := by
    have := find?_name_of_nodup (fun u => u.name) hwflp.1 hr
    simp only [] at this
    rwa [hk] at this
  simp [resolveRunRef, h1, h2, h3, h4]

theorem except_ok_bind {ε α β : Type} (x : α) (g : α → Except ε β) :
    (Except.ok x >>= g : Except ε β) = g x := rfl

theorem processFastq_fix {ctx : FcCtx} {pid pdir sdir sn L fq : String}
    (hL : ctx.reg.determine_library_prep_from_fcid pid sn ctx.fcid = .ok L)
    {p : NGIProject} (hwf : ProjWF p)
    (habs : ∃ s ∈ p.samples, s.name = sn ∧ SampleAbsorbs L ctx.fcShort fq s)
    (sd : Option String) (lr : Option RunRef) :
    processFastq ctx pid pdir sdir sn (p, sd, lr) fq =
      .ok (p, some (pjoin (pjoin sdir L) ctx.fcShort),
        some ⟨pdir, sn, L, ctx.fcShort⟩) := by
  have hfix : p.modifySample sn (fastqStep L ctx.fcShort fq) = p := by
    refine modifySample_fix p sn _ fun t ht htname => ?_
    obtain ⟨s0, hs0, hs0name, habs0⟩ := habs
    have heq : t = s0 := samples_name_unique hwf ht hs0 (by rw [htname, hs0name])
    rw [heq]
    exact fastqStep_fix L ctx.fcShort fq s0 (hwf.2 s0 hs0) habs0
  unfold processFastq
  rw [hL]
  dsimp only
  rw [hfix]

theorem foldFiles_fix {ctx : FcCtx} {pid pdir sdir sn L : String}
    (hL : ctx.reg.determine_library_prep_from_fcid pid sn ctx.fcid = .ok L)
    {p : NGIProject} (hwf : ProjWF p) :
    ∀ (fs : List String),
      (∀ fq ∈ fs, ∃ s ∈ p.samples, s.name = sn ∧ SampleAbsorbs L ctx.fcShort fq s) →
      ∀ (sd : Option String) (lr : Option RunRef), fs ≠ [] →
      fs.foldlM (processFastq ctx pid pdir sdir sn) (p, sd, lr) =
        .ok (p, some (pjoin (pjoin sdir L) ctx.fcShort),
          some ⟨pdir, sn, L, ctx.fcShort⟩) := by
  intro fs
  induction fs with
  | nil =>
    intro _ sd lr hne
    exact absurd rfl hne
  | cons fq fs ih =>
    intro habs sd lr _
    rw [List.foldlM_cons]
    rw [processFastq_fix hL hwf (habs fq (List.mem_cons_self fq fs)) sd lr]
    rw [except_ok_bind]
    cases fs with
    | nil => rfl
    | cons fq2 fs2 =>
      exact ih (fun x hx => habs x (List.mem_cons_of_mem fq hx)) _ _
        (by intro hc; exact List.noConfusion hc)

theorem processSample_fix {ctx : FcCtx} {pid pdir : String} {pe : ProjectEntry}
    {es : List (String × NGIProject)} {p : NGIProject} {se : SampleEntry}
    (hrs : ctx.restrictSamples = [])
    (hWFes : EntriesWF es) (hpmem : (pdir, p) ∈ es)
    (hab : SeAbsorbed ctx.reg ctx.fcid ctx.fcShort pid se p)
    (hfiles : se.files.filter fastq_pattern_match ≠ [])
    (lr : Option RunRef) (cs : List RsyncCall) :
    ∃ lr2 cs2, processSample ctx pid pdir pe es (p, lr, cs) se = .ok (p, lr2, cs2) := by
  have hwf : ProjWF p := hWFes.2 (pdir, p) hpmem
  obtain ⟨hregp, s, hsin, hsname, habsall⟩ := hab
  obtain ⟨L, hL⟩ := hregp hfiles
  have hre : ¬(ctx.restrictSamples ≠ [] ∧
      normalize_name se.sample_name ∉ ctx.restrictSamples) := by
    simp [hrs]
  have haddfix : p.add_sample (normalize_name se.sample_name)
      (normalize_name se.sample_name) = p :=
    add_sample_fix p _ _ ⟨s, hsin, hsname⟩
  have habs' : ∀ fq ∈ se.files.filter fastq_pattern_match,
      ∃ t ∈ p.samples, t.name = normalize_name se.sample_name ∧
        SampleAbsorbs L ctx.fcShort fq t :=
    fun fq hfq => ⟨s, hsin, hsname, habsall L hL fq hfq⟩
  have hfold := @foldFiles_fix ctx pid pdir (pjoin pdir (normalize_name se.sample_name))
    (normalize_name se.sample_name) L hL p hwf (se.files.filter fastq_pattern_match)
    habs' none lr hfiles
  have hfind : p.findSample (normalize_name se.sample_name) = some s := by
    unfold NGIProject.findSample
    have := find?_name_of_nodup (fun t => t.name) hwf.1 hsin
    simp only [] at this
    rwa [hsname] at this
  obtain ⟨fq0, hfq0⟩ := List.exists_mem_of_ne_nil _ hfiles
  obtain ⟨lp0, hlp0, hlp0name, r0, hr0, hr0name, _⟩ := habsall L hL fq0 hfq0
  have hn : ¬(s.libpreps.length = 0) := (List.length_pos_of_mem hlp0).ne'
  have hres : resolveRunRef (dictSet es pdir p)
      ⟨pdir, normalize_name se.sample_name, L, ctx.fcShort⟩ = some r0.fastq_files := by
    rw [dictSet_fix es pdir p hpmem hWFes.1]
    exact resolveRunRef_some hWFes hpmem hsin hsname hlp0 hlp0name hr0 hr0name
  have hmain : processSample ctx pid pdir pe es (p, lr, cs) se = .ok (p,
      some ⟨pdir, normalize_name se.sample_name, L, ctx.fcShort⟩,
      cs ++ List.replicate s.libpreps.length
        { src_fastq_files := r0.fastq_files.map (pjoin (pjoin (pjoin (pjoin ctx.fcPath
                              pe.data_dir) pe.project_dir) se.sample_dir))
          dest := some (pjoin (pjoin (pjoin pdir (normalize_name se.sample_name)) L)
                              ctx.fcShort) }) := by
    simp only [processSample, if_neg hre]
    rw [haddfix, hfold]
    dsimp only
    rw [hfind]
    dsimp only [Option.map, Option.getD]
    rw [if_neg hn]
    rw [hres]
  exact ⟨_, _, hmain⟩

theorem foldSamples_fix {ctx : FcCtx} {pid pdir : String} {pe : ProjectEntry}
    {es : List (String × NGIProject)} {p : NGIProject}
    (hrs : ctx.restrictSamples = [])
    (hWFes : EntriesWF es) (hpmem : (pdir, p) ∈ es) :
    ∀ (ses : List SampleEntry),
      (∀ se ∈ ses, SeAbsorbed ctx.reg ctx.fcid ctx.fcShort pid se p) →
      (∀ se ∈ ses, se.files.filter fastq_pattern_match ≠ []) →
      ∀ (lr : Option RunRef) (cs : List RsyncCall),
      ∃ lr2 cs2, ses.foldlM (processSample ctx pid pdir pe es) (p, lr, cs) =
        .ok (p, lr2, cs2) := by
  intro ses
  induction ses with
  | nil =>
    intro _ _ lr cs
    exact ⟨lr, cs, rfl⟩
  | cons se ses ih =>
    intro hab hfl lr cs
    obtain ⟨lr1, cs1, h1⟩ := processSample_fix hrs hWFes hpmem
      (hab se (List.mem_cons_self se ses)) (hfl se (List.mem_cons_self se ses)) lr cs
    obtain ⟨lr2, cs2, h2⟩ := ih (fun x hx => hab x (List.mem_cons_of_mem se hx))
      (fun x hx => hfl x (List.mem_cons_of_mem se hx)) lr1 cs1
    refine ⟨lr2, cs2, ?_⟩
    rw [List.foldlM_cons, h1, except_ok_bind]
    exact h2

theorem processProject_fix {ctx : FcCtx} {es : List (String × NGIProject)}
    {pe : ProjectEntry}
    (hrp : ctx.restrictProjects = []) (hrs : ctx.restrictSamples = [])
    (hWF : EntriesWF es)
    (hab : PeAbsorbed ctx.reg ctx.topDir ctx.fcid ctx.fcShort pe es)
    (hfl : ∀ se ∈ pe.samples, se.files.filter fastq_pattern_match ≠ [])
    (lr : Option RunRef) (cs : List RsyncCall) :
    ∃ lr2 cs2, processProject ctx (.pydict es, lr, cs) pe =
      .ok (.pydict es, lr2, cs2) := by
  have hre : ¬(ctx.restrictProjects ≠ [] ∧ pe.project_name ∉ ctx.restrictProjects) := by
    simp [hrp]
  cases hreg : ctx.reg.get_project_id_from_name pe.project_name with
  | error e0 =>
    refine ⟨lr, cs, ?_⟩
    simp only [processProject, if_neg hre, hreg]
  | ok pid =>
    obtain ⟨p, hpmem, hse⟩ := hab pid hreg
    have hany : es.any
        (fun e => e.1 == pjoin (pjoin ctx.topDir "DATA") pe.project_name) = true :=
      List.any_eq_true.mpr
        ⟨(pjoin (pjoin ctx.topDir "DATA") pe.project_name, p), hpmem,
          beq_self_eq_true _⟩
    have hfindE : es.find?
        (fun e => e.1 == pjoin (pjoin ctx.topDir "DATA") pe.project_name) =
        some (pjoin (pjoin ctx.topDir "DATA") pe.project_name, p) :=
      find?_key_of_nodup hWF.1 hpmem
    obtain ⟨lr2, cs2, hfold⟩ := foldSamples_fix hrs hWF hpmem pe.samples
      (fun se hse2 => hse se hse2) hfl lr cs
    refine ⟨lr2, cs2, ?_⟩
    simp only [processProject, if_neg hre, hreg]
    rw [if_pos hany, hfindE]
    dsimp only [Option.map, Option.getD]
    rw [hfold]
    dsimp only
    rw [dictSet_fix es _ p hpmem hWF.1]

theorem foldProjects_fix {ctx : FcCtx} {es : List (String × NGIProject)}
    (hrp : ctx.restrictProjects = []) (hrs : ctx.restrictSamples = [])
    (hWF : EntriesWF es) :
    ∀ (pes : List ProjectEntry),
      (∀ pe ∈ pes, PeAbsorbed ctx.reg ctx.topDir ctx.fcid ctx.fcShort pe es) →
      (∀ pe ∈ pes, ∀ se ∈ pe.samples, se.files.filter fastq_pattern_match ≠ []) →
      ∀ (lr : Option RunRef) (cs : List RsyncCall),
      ∃ lr2 cs2, pes.foldlM (processProject ctx) (.pydict es, lr, cs) =
        .ok (.pydict es, lr2, cs2) := by
  intro pes
  induction pes with
  | nil =>
    intro _ _ lr cs
    exact ⟨lr, cs, rfl⟩
  | cons pe pes ih =>
    intro hab hfl lr cs
    obtain ⟨lr1, cs1, h1⟩ := processProject_fix hrp hrs hWF
      (hab pe (List.mem_cons_self pe pes)) (hfl pe (List.mem_cons_self pe pes)) lr cs
    obtain ⟨lr2, cs2, h2⟩ := ih (fun x hx => hab x (List.mem_cons_of_mem pe hx))
      (fun x hx => hfl x (List.mem_cons_of_mem pe hx)) lr1 cs1
    refine ⟨lr2, cs2, ?_⟩
    rw [List.foldlM_cons, h1, except_ok_bind]
    exact h2

theorem build_fix {reg : Charon} {config : NGIConfig} {m : FCDirStructure}
    {es : List (String × NGIProject)}
    (hWF : EntriesWF es) (hab : MAbsorbed reg config m es)
    (hfl : ∀ pe ∈ m.projects, ∀ se ∈ pe.samples,
      se.files.filter fastq_pattern_match ≠ []) :
    ∃ calls, build_from_structure reg config m (.pydict es) [] [] =
      .ok (.pydict es, calls) := by
  obtain ⟨lr2, cs2, hfold⟩ := @foldProjects_fix (mkCtx reg config m [] []) es rfl rfl hWF
    m.projects (fun pe hpe => hab pe hpe) hfl none []
  refine ⟨cs2, ?_⟩
  rw [build_eq, hfold]

theorem buildManifests_fix {reg : Charon} {config : NGIConfig} :
    ∀ (ms : List FCDirStructure) (es : List (String × NGIProject)),
      EntriesWF es → (∀ m ∈ ms, MAbsorbed reg config m es) →
      (∀ m ∈ ms, ∀ pe ∈ m.projects, ∀ se ∈ pe.samples,
        se.files.filter fastq_pattern_match ≠ []) →
      buildManifests reg config (.pydict es) ms = .ok (.pydict es) := by
  intro ms
  induction ms with
  | nil =>
    intro es _ _ _
    rfl
  | cons m ms ih =>
    intro es hwf hab hfl
    obtain ⟨calls, hb⟩ := build_fix hwf (hab m (List.mem_cons_self m ms))
      (hfl m (List.mem_cons_self m ms))
    unfold buildManifests
    rw [hb]
    exact ih es hwf (fun x hx => hab x (List.mem_cons_of_mem m hx))
      (fun x hx => hfl x (List.mem_cons_of_mem m hx))

/-- C2: amended.  Rebuilding the same manifest set over the tree the first
build produced is idempotent provided every sample entry of every manifest
lists at least one fastq-matching file (the counterexample shows the claim
fails without this: a fastq-less duplicate sample entry crashes the rebuild
with `UnboundLocalError`): if the first pass over the manifests, starting
from any accumulator satisfying the dict representation invariant
(`EntriesWF`: unique keys, sample, libprep, run names and file lists),
returns a tree, then running the builder again over the same manifest set
and that tree returns the *identical* tree — same Project, Sample,
LibraryPrep and SequencingRun nodes — and the tree satisfies `EntriesWF`,
so no SequencingRun's fastq file list contains a duplicated filename. -/
theorem C2_rebuild_identity (reg : Charon) (config : NGIConfig)
    (ms : List FCDirStructure) (es0 : List (String × NGIProject)) (pv1 : PyVal)
    (h1 : buildManifests reg config (.pydict es0) ms = .ok pv1)
    (hWF0 : EntriesWF es0)
    (hfl : ∀ m ∈ ms, ∀ pe ∈ m.projects, ∀ se ∈ pe.samples,
      se.files.filter fastq_pattern_match ≠ []) :
    buildManifests reg config pv1 ms = .ok pv1 ∧
      ∃ es1, pv1 = .pydict es1 ∧ EntriesWF es1 := by
  obtain ⟨es1, hpv1, hle, hwf1, hms⟩ := buildManifests_ok_wf_absorb ms es0 pv1 h1 hWF0
  subst hpv1
  exact ⟨buildManifests_fix ms es1 hwf1 (fun m hm => hms m hm) hfl, es1, rfl, hwf1⟩

/-- A well-formed single-flowcell manifest for the C2 witness. -/
def mC2W : FCDirStructure :=
  { fc_dir := "/fc1", fc_name := "BX", fc_date := "131030",
    projects := [ { data_dir := "Unaligned", project_dir := "Project_A",
                    project_name := "A",
                    samples := [ { sample_dir := "Sample_S", sample_name := "S",
                                   files := ["a.fastq.gz"] } ] } ] }

theorem C2_rebuild_identity_witness :
    ∃ pv1, buildManifests regC4 cfgC4 (.pydict []) [mC2W] = .ok pv1 ∧
      (buildManifests regC4 cfgC4 pv1 [mC2W] = .ok pv1 ∧
        ∃ es1, pv1 = .pydict es1 ∧ EntriesWF es1) :=
  ⟨_, rfl, C2_rebuild_identity regC4 cfgC4 [mC2W] [] _ rfl
    ⟨List.nodup_nil, fun e he => absurd he (List.not_mem_nil e)⟩
    (by decide)⟩
